import Mathlib

/-!
Verification development for the `insertdox` source-annotation tool
(`src/insertdox.c`, `src/parser.c`, `src/stringutils.c`).

The C sources are shallowly embedded below:

* pointers into the accumulation buffer become `Int` offsets into a
  `List Char` (`NULL` is modelled as the offset `-1`, which lies strictly
  before every valid buffer position);
* a read through an out-of-range offset (which in C would touch stale or
  unmapped memory) yields the NUL character `'\x00'`;
* `size_t` arithmetic is carried out on `Nat` modulo `2 ^ 64`;
* C loops become fuel-based structural recursions whose fuel is an exact
  bound on the number of iterations the C loop can perform, so the Lean
  functions compute exactly what the C loops compute;
* the growable buffer collaborator (`bufferutils.c`, not part of the
  sources) is modelled from the spec where noted.
-/

namespace Insertdox

/-- C `isspace` in the C locale. -/
def isSpaceChar (c : Char) : Bool :=
  c == ' ' || c == '\t' || c == '\n' || c == '\x0b' || c == '\x0c' || c == '\r'

/-- C `isalnum` in the C locale. -/
def isAlnumChar (c : Char) : Bool :=
  ('0' ≤ c && c ≤ '9') || ('A' ≤ c && c ≤ 'Z') || ('a' ≤ c && c ≤ 'z')

/-- C `ispunct` in the C locale: graphical and not alphanumeric. -/
def isPunctChar (c : Char) : Bool :=
  ('!' ≤ c && c ≤ '~') && !(isAlnumChar c)

/-- C `tolower` restricted to ASCII, used by `strncasecmp`. -/
def lowerChar (c : Char) : Char :=
  if 'A' ≤ c && c ≤ 'Z' then Char.ofNat (c.toNat + 32) else c

/-- Read the byte at offset `i` of the buffer; out-of-range reads
(before the buffer or past its end) return NUL, see the file comment. -/
def chAt (d : List Char) (i : Int) : Char :=
  if 0 ≤ i then d.getD i.toNat '\x00' else '\x00'

/-- Characters skipped by `skipComment`/`trimComment` in `stringutils.c`:
whitespace and the comment punctuation `/` and `*`. -/
def isCommentTrimChar (c : Char) : Bool :=
  isSpaceChar c || c == '/' || c == '*'

/-- Characters skipped by `skipPunct` in `stringutils.c`. -/
def isPunctSkipChar (c : Char) : Bool :=
  isSpaceChar c || isPunctChar c

/-- Forward scan `while (p < e && f (*p)) ++p;`.  The fuel is an exact
iteration bound, so the result is the exact C loop result. -/
def scanFgo (f : Char → Bool) (d : List Char) (e : Int) : Nat → Int → Int
  | 0, p => p
  | fuel + 1, p => if p < e && f (chAt d p) then scanFgo f d e fuel (p + 1) else p

/-- Backward scan `while (q > s && f (*q)) --q;` returning the final `q`. -/
def scanBgo (f : Char → Bool) (d : List Char) (s : Int) : Nat → Int → Int
  | 0, q => q
  | fuel + 1, q => if s < q && f (chAt d q) then scanBgo f d s fuel (q - 1) else q

/-- `skipSpace` of `stringutils.c`. -/
def skipSpace (d : List Char) (p e : Int) : Int :=
  scanFgo isSpaceChar d e (e - p).toNat p

/-- `trimSpace` of `stringutils.c`: starts one before `p`, skips spaces
backward but never moves to `s` or before, returns one past the stop. -/
def trimSpace (d : List Char) (p s : Int) : Int :=
  scanBgo isSpaceChar d s (p - 1 - s).toNat (p - 1) + 1

/-- `skipComment` of `stringutils.c`. -/
def skipComment (d : List Char) (p e : Int) : Int :=
  scanFgo isCommentTrimChar d e (e - p).toNat p

/-- `trimComment` of `stringutils.c`. -/
def trimComment (d : List Char) (p s : Int) : Int :=
  scanBgo isCommentTrimChar d s (p - 1 - s).toNat (p - 1) + 1

/-- `skipPunct` of `stringutils.c`. -/
def skipPunct (d : List Char) (p e : Int) : Int :=
  scanFgo isPunctSkipChar d e (e - p).toNat p

/-- C `strncmp (s, w, w.length) == 0` at offset `p` (equality of the
first `w.length` bytes). -/
def matchesFrom (d : List Char) (p : Int) : List Char → Bool
  | [] => true
  | c :: rest => chAt d p == c && matchesFrom d (p + 1) rest

/-- C `strncasecmp (s, w, w.length) == 0` at offset `p`. -/
def matchesCI (d : List Char) (p : Int) : List Char → Bool
  | [] => true
  | c :: rest => lowerChar (chAt d p) == lowerChar c && matchesCI d (p + 1) rest

/-- Count occurrences of `ch` in the byte range `[p, e)`
(the `while (p < e) if (*p++ == '(') ++count;` loop of `parseStatement`). -/
def countCharGo (d : List Char) (ch : Char) (e : Int) : Nat → Int → Nat
  | 0, _ => 0
  | fuel + 1, p =>
    if p < e then (if chAt d p == ch then 1 else 0) + countCharGo d ch e fuel (p + 1)
    else 0

/-- Count of `ch` in `[p, e)`. -/
def countChar (d : List Char) (p e : Int) (ch : Char) : Nat :=
  countCharGo d ch e (e - p).toNat p

/-- The byte range `[s, e)` of the buffer as a list (clamped to the
buffer, matching the bounds-checked collaborator contract of spec §9). -/
def copyRange (d : List Char) (s e : Int) : List Char :=
  (d.take (max e 0).toNat).drop (max s 0).toNat

/-- `addString` of `stringutils.c`.  The two C `malloc` calls are
modelled by the two success flags; on any failure the list is returned
unchanged, exactly as in the source (the partially allocated element is
simply leaked there). -/
def addString (elemOk strOk : Bool) (d : List Char) (s e : Int)
    (sl : List (List Char)) : List (List Char) :=
  if elemOk then
    if strOk then copyRange d s e :: sl else sl
  else sl

/-! ## The type classifier `processTyped` (`parser.c` lines 315-435) -/

/-- The bounded output buffer that `processTyped` renders the type phrase
into.  `content` is the text before the terminating NUL; `maxWrite` is
the highest byte index ever written (content bytes and NUL terminators),
used to detect writes past the caller-provided capacity. -/
structure TypeBuf where
  content : List Char
  maxWrite : Nat
deriving DecidableEq, Repr

/-- C `strncat (dst, src, n)`: appends at most `n` bytes of `src` and
always writes a terminating NUL after them. -/
def strncatM (tb : TypeBuf) (src : List Char) (n : Nat) : TypeBuf :=
  let app := src.take n
  { content := tb.content ++ app
    maxWrite := max tb.maxWrite (tb.content.length + app.length) }

/-- The modulus of `size_t` arithmetic. -/
def szMod : Nat := 2 ^ 64

/-- `size_t` subtraction `r - n` with wraparound (`remaining -= 13` in
`processTyped` underflows when `remaining < 13`). -/
def wrapSub (r n : Nat) : Nat := (r + (szMod - n)) % szMod

/-- C `strlen`-bounded read starting at offset `s`: the bytes up to the
first NUL.  Reads before the buffer yield nothing (the model's stale
memory is NUL, see the file comment). -/
def cstrFrom (d : List Char) (s : Int) : List Char :=
  (d.drop (max s 0).toNat).takeWhile (fun c => !(c == '\x00'))

/-- The `do { --e; } while (e >= s && *e != '[');` loop of
`processTyped`'s bracket stripping. -/
def findOpenGo (d : List Char) (s : Int) : Nat → Int → Int
  | 0, e => e - 1
  | fuel + 1, e =>
    if s ≤ e - 1 && !(chAt d (e - 1) == '[') then findOpenGo d s fuel (e - 1)
    else e - 1

/-- The `while (p >= s && (isalnum(*p) || *p == '_')) --p;` identifier
isolation loop of `processTyped`. -/
def identBackGo (d : List Char) (s : Int) : Nat → Int → Int
  | 0, p => p
  | fuel + 1, p =>
    if s ≤ p && (isAlnumChar (chAt d p) || chAt d p == '_') then
      identBackGo d s fuel (p - 1)
    else p

/-- The `static`/`const` stripping loop of `processTyped` (both keywords,
any order, any number of times). -/
def stripGo (d : List Char) (e : Int) : Nat → Int → Bool → Bool → Int × Bool × Bool
  | 0, s, st, cn => (s, st, cn)
  | fuel + 1, s, st, cn =>
    if matchesFrom d s (("static").toList) then
      stripGo d e fuel (skipSpace d (s + 6) e) true cn
    else if matchesFrom d s (("const").toList) then
      stripGo d e fuel (skipSpace d (s + 5) e) st true
    else (s, st, cn)

/-- The trailing-star counting loop of `processTyped`
(`while (e > s && *e == '*') { ++ptrCount; --e; while (e > s && isspace(*e)) --e; }`). -/
def starGo (d : List Char) (s : Int) : Nat → Int → Nat → Int × Nat
  | 0, e, n => (e, n)
  | fuel + 1, e, n =>
    if s < e && chAt d e == '*' then
      starGo d s fuel (scanBgo isSpaceChar d s (e - 1 - s).toNat (e - 1)) (n + 1)
    else (e, n)

/-- The `while (ptrCount--) { strncat(type, "a pointer to ", remaining); remaining -= 13; }`
rendering loop. -/
def ptrLoopGo : Nat → TypeBuf → Nat → TypeBuf × Nat
  | 0, tb, rem => (tb, rem)
  | n + 1, tb, rem =>
    ptrLoopGo n (strncatM tb (("a pointer to ").toList) rem) (wrapSub rem 13)

/-- Everything `processTyped` computes.  When called with
`withType = false` or `size = 0` (the C `type == NULL || size == 0`
guard) only the name range and the array flag are meaningful, exactly as
in the source. -/
structure TypedResult where
  nameStart : Int
  nameStop : Int
  isStatic : Bool
  isConst : Bool
  isArray : Bool
  ptrCount : Nat
  inOnly : Bool
  typeChars : List Char
  maxWrite : Nat
deriving DecidableEq, Repr

/-- `processTyped` of `parser.c`: turns the declarator text in
`[aStart, aStop)` into a name range, qualifier flags, a direction guess
and a rendered type phrase written into a buffer of capacity `size`.
(`qTypePrefixedWithA` is not defined anywhere in the sources, so the
`#ifdef` block is compiled out, matching spec §4.2.) -/
def processTyped (d : List Char) (aStart aStop : Int) (size : Nat)
    (withType : Bool) : TypedResult :=
  let s := skipSpace d aStart aStop
  let e0 := trimSpace d aStop aStart
  let e1 := e0 - 1
  let arrRes : Bool × Int :=
    if chAt d e1 == ']' then
      let e2 := findOpenGo d s (e1 - s + 1).toNat e1
      (true, if s < e2 then e2 - 1 else e2)
    else (false, e1)
  let isArray := arrRes.1
  let e2 := arrRes.2
  let p1 := identBackGo d s (e2 - s + 1).toNat e2 + 1
  let nameStart := p1
  let nameStop := e2 + 1
  if withType && 0 < size then
    let sres := stripGo d nameStop (((d.length : Int) + 1 - s).toNat) s false false
    let s2 := sres.1
    let isStatic := sres.2.1
    let isConst := sres.2.2
    let e3 := trimSpace d p1 s2
    let e4 := e3 - 1
    let star := starGo d s2 (e4 - s2).toNat e4 0
    let e5 := star.1
    let ptrCount := star.2
    let e6 := e5 + 1
    let inOnly := isConst || (ptrCount == 0 && !isArray)
    let tb0 : TypeBuf := { content := [], maxWrite := 0 }
    let pl := ptrLoopGo ptrCount tb0 size
    let tb1 := pl.1
    let rem1 := pl.2
    let ar := if isArray then
        (strncatM tb1 (("an array of ").toList) rem1, wrapSub rem1 12)
      else (tb1, rem1)
    let cs := if isConst then
        (strncatM ar.1 (("const ").toList) ar.2, wrapSub ar.2 6)
      else ar
    let esz := ((e6 - s2) % (szMod : Int)).toNat
    let rem4 := if esz < cs.2 then esz else cs.2
    let tb4 := strncatM cs.1 (cstrFrom d s2) rem4
    { nameStart := nameStart, nameStop := nameStop, isStatic := isStatic,
      isConst := isConst, isArray := isArray, ptrCount := ptrCount,
      inOnly := inOnly, typeChars := tb4.content, maxWrite := tb4.maxWrite }
  else
    { nameStart := nameStart, nameStop := nameStop, isStatic := false,
      isConst := false, isArray := isArray, ptrCount := 0, inOnly := false,
      typeChars := [], maxWrite := 0 }

/-! ## The buffer collaborator and the output model

`tBuffer` and its primitives live in `bufferutils.c`, which is not part
of the sources; its fields are reconstructed from every use in
`parser.c` and the collaborator contract of spec §3/§6/§9.  The output
stream is modelled as a list of chunks so that original text, re-emitted
comment text and generated annotation text stay distinguishable. -/

/-- One captured range of the accumulation buffer (`tRange`): `start`
and `stop` (the C field `end`, renamed because `end` is reserved in
Lean) are offsets into the buffer data, `-1` standing for C `NULL`;
`count` is the capture count of the current accumulation cycle. -/
structure Range where
  start : Int := -1
  stop : Int := -1
  count : Nat := 0
deriving DecidableEq, Repr

/-- Classification of a generated output piece, by the `fprintf` site in
`parser.c` that produced it. -/
inductive GenTag where
  | fileHeader
  | misc
  | commentOpen
  | descHolder
  | paramLine (inOnly : Bool) (name : List Char)
  | retLine
  | retvalLine
  | todoLine
  | commentClose
  | protoEnd
deriving DecidableEq, Repr

/-- One piece of the output stream.
`code lo hi bytes`: original buffer text emitted verbatim by `dumpBlock`
outside any comment block; `lo`/`hi` are the absolute input positions of
the range.  `comm bytes`: original comment text re-emitted inside a
generated comment block (the `dumpBlock` calls of `processFileComment`
and `processDescription`).  `gen tag bytes`: generated text. -/
inductive Chunk where
  | code (lo hi : Nat) (bytes : List Char)
  | comm (bytes : List Char)
  | gen (tag : GenTag) (bytes : List Char)
deriving DecidableEq, Repr

/-- Run-wide options (`tAppOptions` of `common.h`, reconstructed from
its uses).  `boilerplate` holds the streamed content of the boilerplate
file.  `cap` is the capacity at which the buffer collaborator signals
overflow on `emitChar`; modelled from the spec (§4.1, §6): the
collaborator offers append-one-character with an overflow signal. -/
structure Options where
  filename : Option (List Char) := none
  boilerplate : Option (List Char) := none
  onlyPrototypes : Bool := false
  cap : Nat := 1000000
deriving DecidableEq, Repr

/-- The accumulation buffer `tBuffer`.  `data` is the accumulated text
(`buf->data` up to `buf->ptr`, so `buf->ptr` is `data.length`); `base`
is the absolute input position of `data[0]` (ghost data used to relate
output chunks to input positions); `out` is the output stream written so
far (`buf->file`). -/
structure Buf where
  data : List Char := []
  base : Nat := 0
  description : Range := {}
  function : Range := {}
  arglist : Range := {}
  body : Range := {}
  fileComment : Bool := false
  commentStart : Option Int := none
  statementStart : Option Int := none
  todos : List (List Char) := []
  notes : List (List Char) := []
  retvals : List (List Char) := []
  out : List Chunk := []
deriving DecidableEq, Repr

/-- Clamped lower bound of a `dumpBlock` range (spec §9: all range
arithmetic of the storage collaborator is bounds-checked). -/
def clampLo (b : Buf) (s : Int) : Nat :=
  min (max s 0).toNat b.data.length

/-- Clamped upper bound of a `dumpBlock` range. -/
def clampHi (b : Buf) (s e : Int) : Nat :=
  max (min (max e 0).toNat b.data.length) (clampLo b s)

/-- The bytes a `dumpBlock` call emits for the range `[s, e)`. -/
def sliceBytes (b : Buf) (s e : Int) : List Char :=
  (b.data.take (clampHi b s e)).drop (clampLo b s)

/-- Modelled from the spec: `dumpBlock` of `bufferutils.c` (not in the
sources) performs verbatim-range emission of `[s, e)` to the output
stream, with bounds-checked range arithmetic (spec §6, §9). -/
def dumpBlock (b : Buf) (s e : Int) : Chunk :=
  Chunk.code (b.base + clampLo b s) (b.base + clampHi b s e) (sliceBytes b s e)

/-- Modelled from the spec: `emitChar` of `bufferutils.c` (not in the
sources) appends one character, signalling overflow (and accepting
nothing) once the capacity is reached (spec §4.1, §6). -/
def emitChar (cap : Nat) (b : Buf) (c : Char) : Buf × Bool :=
  if b.data.length < cap then ({ b with data := b.data ++ [c] }, false)
  else (b, true)

/-- Modelled from the spec: `clearBuffer` of `bufferutils.c` (not in the
sources) resets the accumulation state after a flush — all ranges,
counts, markers and mined lists cleared, text storage rewound to empty
(spec §3 lifecycle).  `fileComment` is reset separately by the callers
in `parser.c`, and the output stream of course survives. -/
def clearBuffer (b : Buf) : Buf :=
  { data := [], base := b.base + b.data.length,
    description := {}, function := {}, arglist := {}, body := {},
    fileComment := b.fileComment, commentStart := none, statementStart := none,
    todos := [], notes := [], retvals := [], out := b.out }

/-! ## The mining routines (`parseComment`, `parseStatement`) -/

/-- `parseComment` of `parser.c`: mine a just-closed in-body comment for
todo/fixme/note markers. -/
def parseComment (b : Buf) : Buf :=
  match b.commentStart with
  | none => b
  | some cs =>
    let ptr : Int := b.data.length
    let p := skipPunct b.data cs ptr
    let b' :=
      if matchesCI b.data p (("todo").toList) then
        { b with todos := (addString true true b.data
            (skipPunct b.data (p + 4) ptr) (trimComment b.data ptr (p + 4)) b.todos) }
      else if matchesCI b.data p (("fixme").toList) then
        { b with todos := (addString true true b.data
            (skipPunct b.data (p + 5) ptr) (trimComment b.data ptr (p + 5)) b.todos) }
      else if matchesCI b.data p (("fix-me").toList) then
        { b with todos := (addString true true b.data
            (skipPunct b.data (p + 6) ptr) (trimComment b.data ptr (p + 6)) b.todos) }
      else if matchesCI b.data p (("note").toList) then
        { b with notes := (addString true true b.data
            (skipPunct b.data (p + 4) ptr) (trimComment b.data ptr (p + 4)) b.notes) }
      else if matchesCI b.data p (("nb").toList) then
        { b with notes := (addString true true b.data
            (skipPunct b.data (p + 2) ptr) (trimComment b.data ptr (p + 2)) b.notes) }
      else b
    { b' with commentStart := none }

/-- `parseStatement` of `parser.c`: mine a just-finished in-body
statement; a `return` statement's expression is recorded in `retvals`,
with one redundant outer parenthesis pair stripped when the expression
starts with `(`, contains exactly one `(` and ends with `)`. -/
def parseStatement (b : Buf) : Buf :=
  match b.statementStart with
  | none => b
  | some s0 =>
    let ptr : Int := b.data.length
    if matchesFrom b.data s0 (("return").toList) then
      let s := skipSpace b.data (s0 + 6) ptr
      let e := trimSpace b.data ptr s
      let se : Int × Int :=
        if chAt b.data s == '(' then
          if countChar b.data s e '(' == 1 && chAt b.data (e - 1) == ')' then
            let s' := skipSpace b.data (s + 1) e
            (s', trimSpace b.data (e - 1) s')
          else (s, e)
        else (s, e)
      { b with retvals := (addString true true b.data se.1 se.2 b.retvals),
               statementStart := none }
    else { b with statementStart := none }

/-- The return value `parseStatement` mines from a single statement text
(statement range starting at offset 0 of the buffer). -/
def mineReturn (stmt : List Char) : Option (List Char) :=
  (parseStatement { data := stmt, statementStart := some 0 }).retvals.head?

/-! ## The renderers (`process*` of `parser.c`) -/

/-- The chunks `processBoilerplate` emits: the boilerplate file streamed
verbatim, if one was provided. -/
def boilerChunks (cfg : Options) : List Chunk :=
  match cfg.boilerplate with
  | some bs => [Chunk.gen GenTag.misc bs]
  | none => []

/-- `newFileComment` of `parser.c`: the synthesized file-header comment
injected when the file does not begin with a comment. -/
def newFileComment (cfg : Options) : List Chunk :=
  [Chunk.gen GenTag.fileHeader
      ((("/**\n\t@file ").toList)
        ++ (match cfg.filename with
            | some f => f
            | none => ("<unknown>").toList)),
    Chunk.gen GenTag.misc (("\n\n\tPut a description of the file here.\n").toList)]
  ++ boilerChunks cfg
  ++ [Chunk.gen GenTag.misc
        (("\n\t@todo Edit file comment (automatically generated by insertdox)").toList),
      Chunk.gen GenTag.misc (("\n*/\n/* $Header$ */\n\n").toList)]

/-- `processFileComment` of `parser.c`: re-wrap an existing file-header
comment, trimming comment punctuation and injecting the boilerplate. -/
def processFileComment (cfg : Options) (b : Buf) : List Chunk :=
  let s := skipComment b.data 0 (b.data.length : Int)
  let e := trimComment b.data (b.data.length : Int) s
  [Chunk.gen GenTag.misc (("/**\n\t").toList),
   Chunk.comm (sliceBytes b s e),
   Chunk.gen GenTag.misc (("\n").toList)]
  ++ boilerChunks cfg
  ++ [Chunk.gen GenTag.misc (("\n*/\n").toList)]

/-- The placeholder text `processDescription` injects when there is no
usable original comment. -/
def descHolderBytes : List Char :=
  ("Brief description needed.\n\n\tFollowed by a more complete description.").toList

/-- `processDescription` of `parser.c`: emit the trimmed original
comment if present and non-empty, else the placeholder, then a
newline. -/
def processDescription (b : Buf) : List Chunk :=
  let d := b.description
  let core :=
    if 0 < d.count then
      let s := skipComment b.data d.start d.stop
      let e := trimComment b.data d.stop s
      if s == e then [Chunk.gen GenTag.descHolder descHolderBytes]
      else [Chunk.comm (sliceBytes b s e)]
    else [Chunk.gen GenTag.descHolder descHolderBytes]
  core ++ [Chunk.gen GenTag.misc (("\n").toList)]

/-- The initial `while (s < e && (isspace(*s) || *s == '(')) ++s;` of
`processArgList`. -/
def argLead (d : List Char) (p e : Int) : Int :=
  scanFgo (fun c => isSpaceChar c || c == '(') d e (e - p).toNat p

/-- The scanning loop of `processArgList`: split the arglist range at
every `,` or `)`, classify each piece with `processTyped` and emit one
param line per non-`void` parameter, then a newline if anything was
said. -/
def argLoopGo (b : Buf) (e : Int) : Nat → Int → Int → Bool → List Chunk
  | 0, _, _, said => if said then [Chunk.gen GenTag.misc (("\n").toList)] else []
  | fuel + 1, s, p, said =>
    if p < e then
      if chAt b.data p == ',' || chAt b.data p == ')' then
        let tr := processTyped b.data s p 200 true
        if !(tr.nameStop - tr.nameStart == 4
              && matchesFrom b.data tr.nameStart (("void").toList)) then
          Chunk.gen (GenTag.paramLine tr.inOnly (sliceBytes b tr.nameStart tr.nameStop))
              ((("\n\t@param[in").toList)
                ++ (if tr.inOnly then [] else (",out").toList)
                ++ (("] \t").toList)
                ++ sliceBytes b tr.nameStart tr.nameStop
                ++ ((" \t").toList) ++ tr.typeChars)
            :: argLoopGo b e fuel (p + 1) (p + 1) true
        else argLoopGo b e fuel (p + 1) (p + 1) said
      else argLoopGo b e fuel s (p + 1) said
    else if said then [Chunk.gen GenTag.misc (("\n").toList)] else []

/-- `processArgList` of `parser.c`. -/
def processArgList (b : Buf) : List Chunk :=
  let s0 := b.arglist.start
  let e := b.arglist.stop
  let s1 := argLead b.data s0 e
  argLoopGo b e (e - s1).toNat s1 s1 false

/-- The description-range fixup at the top of `processFunction`: if no
description was captured, both ends are set to one before the start of
the declarator. -/
def descFixup (b : Buf) : Buf :=
  if b.description.count == 0 then
    { b with description :=
        { start := b.function.start - 1, stop := b.function.start - 1, count := 0 } }
  else b

/-- `processFunction` of `parser.c`: render a recognized function
definition — original text up to the description, the generated comment
block (internal marker, description, param lines, return section, todo
lines, standing reminder), then either declarator-through-arglist plus
`;` and a blank line (prototype-only mode) or the original text from
after the description to the end of the accumulation. -/
def processFunction (cfg : Options) (b0 : Buf) : List Chunk :=
  let b := descFixup b0
  let tr := processTyped b.data b.function.start b.function.stop 200 true
  [dumpBlock b 0 b.description.start,
   Chunk.gen GenTag.commentOpen
     ((("\n/**\n").toList)
       ++ (if tr.isStatic then ("\t@internal\n\n").toList else [])
       ++ (("\t").toList))]
  ++ processDescription b
  ++ processArgList b
  ++ (if tr.typeChars == ("void").toList then []
      else
        [Chunk.gen GenTag.retLine ((("\n\t@return ").toList) ++ tr.typeChars)]
        ++ b.retvals.map (fun r => Chunk.gen GenTag.retvalLine ((("\n\t@retval ").toList) ++ r))
        ++ [Chunk.gen GenTag.misc (("\n").toList)])
  ++ b.todos.map (fun t => Chunk.gen GenTag.todoLine ((("\n\t@todo ").toList) ++ t))
  ++ [Chunk.gen GenTag.commentClose
        (("\n\t@todo edit me (automatically generated by insertdox)\n*/").toList)]
  ++ (if cfg.onlyPrototypes then
        [dumpBlock b b.description.stop b.arglist.stop,
         Chunk.gen GenTag.protoEnd ((";\n\n").toList)]
      else [dumpBlock b b.description.stop (b.data.length : Int)])

/-- The chunks one `flushBuffer` call appends: nothing for an empty
accumulation; the file-header renderer if `fileComment` is set; the
function renderer iff `function`, `arglist` and `body` were each
captured exactly once; otherwise the text verbatim — suppressed in
prototype-only mode. -/
def renderFlush (cfg : Options) (b : Buf) : List Chunk :=
  if 0 < b.data.length then
    if b.fileComment then processFileComment cfg b
    else if b.function.count == 1 && b.arglist.count == 1 && b.body.count == 1 then
      processFunction cfg b
    else if !cfg.onlyPrototypes then [dumpBlock b 0 (b.data.length : Int)]
    else []
  else []

/-- `flushBuffer` of `parser.c`: render the accumulation and reset the
buffer. -/
def flushBuffer (cfg : Options) (b : Buf) : Buf :=
  { clearBuffer b with out := b.out ++ renderFlush cfg b }

/-! ## The lexical state machine (`processFile`, `parser.c` lines 661-1016) -/

/-- The local state of `processFile`'s loop.  `doFlush` is set and
consumed within one iteration, so it is `false` between characters.
`tags` is ghost data: one entry per consumed input character, `true`
iff the machine was in comment mode just before or just after
processing that character (i.e. the character is comment text). -/
structure PState where
  buf : Buf := {}
  depthCurly : Int := 0
  depthRound : Int := 0
  isLiteral : Bool := false
  inComment : Bool := false
  inCppComment : Bool := false
  inPreprocessor : Bool := false
  inSingleQuotes : Bool := false
  inDoubleQuotes : Bool := false
  atStart : Bool := true
  inBetween : Bool := true
  isChar1 : Bool := true
  doFlush : Bool := false
  prevc : Char := '\x00'
  tags : List Bool := []
deriving DecidableEq, Repr

/-- The main state-machine dispatch of `processFile` (the big
`if`/`else if` chain on the current modes, lines 707-967). -/
def stateMachine (cfg : Options) (st : PState) (c : Char) (nextc : Option Char) : PState :=
  if st.isLiteral then
    if !((c == '\r' && nextc == some '\n') || (c == '\n' && nextc == some '\r')) then
      { st with isLiteral := false }
    else st
  else if st.inComment then
    if st.inCppComment then
      if c == '\n' || c == '\r' then
        let st1 := { st with inCppComment := false, inComment := false,
                             inPreprocessor := false, isChar1 := true }
        if st1.depthCurly == 0 then
          let b := { st1.buf with description :=
            { st1.buf.description with stop := (st1.buf.data.length : Int),
                                       count := st1.buf.description.count + 1 } }
          if b.fileComment then
            { st1 with buf := { flushBuffer cfg b with fileComment := false } }
          else { st1 with buf := b }
        else { st1 with buf := parseComment st1.buf }
      else st
    else
      if st.prevc == '*' && c == '/' then
        let st1 := { st with inComment := false }
        if st1.depthCurly == 0 then
          let b := { st1.buf with description :=
            { st1.buf.description with stop := (st1.buf.data.length : Int) + 1,
                                       count := st1.buf.description.count + 1 } }
          if b.fileComment then { st1 with buf := b, doFlush := true }
          else { st1 with buf := b }
        else { st1 with buf := parseComment st1.buf }
      else st
  else if st.inPreprocessor then
    if c == '\n' || c == '\r' then
      let st1 :=
        if st.inCppComment then
          let st' := { st with inCppComment := false, inComment := false }
          if st'.depthCurly == 0 then
            { st' with buf := { st'.buf with description :=
                { st'.buf.description with stop := (st'.buf.data.length : Int),
                                           count := st'.buf.description.count + 1 } } }
          else { st' with buf := parseComment st'.buf }
        else st
      let st2 := if st1.depthCurly == 0 && !st1.inComment then
          { st1 with doFlush := true }
        else st1
      { st2 with inPreprocessor := false, isChar1 := true }
    else if c == '/' then
      let st1 := match nextc with
        | some '/' => { st with inCppComment := true, inComment := true }
        | some '*' => { st with inComment := true }
        | _ => st
      if st1.inComment then
        if st1.depthCurly == 0 then
          let b := flushBuffer cfg st1.buf
          { st1 with buf := { b with description :=
              { b.description with start := (b.data.length : Int) } } }
        else
          { st1 with buf := { st1.buf with
              commentStart := some (st1.buf.data.length : Int) } }
      else st1
    else st
  else if st.inSingleQuotes then
    if c == '\'' then { st with inSingleQuotes := false }
    else if c == '\\' then { st with isLiteral := true }
    else st
  else if st.inDoubleQuotes then
    if c == '"' then { st with inDoubleQuotes := false }
    else if c == '\\' then { st with isLiteral := true }
    else st
  else
    if c == '\\' then { st with isLiteral := true }
    else if c == '/' then
      let st1 := match nextc with
        | some '*' => { st with inComment := true }
        | some '/' => { st with inCppComment := true, inComment := true }
        | _ => st
      if st1.inComment then
        if st1.depthCurly == 0 then
          let b := flushBuffer cfg st1.buf
          { st1 with buf := { b with description :=
              { b.description with start := (b.data.length : Int) } } }
        else
          { st1 with buf := { st1.buf with
              commentStart := some (st1.buf.data.length : Int) } }
      else st1
    else if c == '#' then
      if st.isChar1 then
        let st1 := if st.depthCurly == 0 then
            { st with buf := { st.buf with description :=
                { start := -1, stop := -1, count := 0 } } }
          else st
        { st1 with inPreprocessor := true }
      else st
    else if c == '\'' then { st with inSingleQuotes := true }
    else if c == '"' then { st with inDoubleQuotes := true }
    else if c == '(' then
      let st1 := if st.depthCurly == 0 && st.depthRound == 0 then
          { st with buf := { st.buf with
              function := { st.buf.function with
                stop := (st.buf.data.length : Int),
                count := st.buf.function.count + 1 },
              arglist := { st.buf.arglist with
                start := (st.buf.data.length : Int) } } }
        else st
      { st1 with depthRound := st1.depthRound + 1 }
    else if c == ')' then
      let st1 := { st with depthRound := st.depthRound - 1 }
      if st1.depthCurly == 0 && st1.depthRound == 0 then
        { st1 with buf := { st1.buf with
            arglist := { st1.buf.arglist with
              stop := (st1.buf.data.length : Int) + 1,
              count := st1.buf.arglist.count + 1 } } }
      else st1
    else if c == '\x7b' then
      let st1 := if st.depthCurly == 0 then
          { st with buf := { st.buf with
              body := { st.buf.body with start := (st.buf.data.length : Int) } } }
        else { st with buf := parseStatement st.buf }
      { st1 with depthCurly := st1.depthCurly + 1, inBetween := true }
    else if c == '\x7d' then
      let st1 := { st with depthCurly := st.depthCurly - 1 }
      let st2 := if st1.depthCurly == 0 then
          let b2 := { st1.buf with body := { st1.buf.body with
              stop := (st1.buf.data.length : Int) + 1,
              count := st1.buf.body.count + 1 } }
          { st1 with buf := b2, doFlush := true }
        else { st1 with buf := parseStatement st1.buf }
      { st2 with inBetween := true }
    else if c == ';' then
      let st1 := if st.depthCurly == 0 then { st with doFlush := true }
        else { st with buf := parseStatement st.buf }
      { st1 with inBetween := true }
    else if c == '\n' || c == '\r' then { st with isChar1 := true }
    else
      if st.inBetween && !(isSpaceChar c) then
        let st1 := if st.depthCurly == 0 then
            { st with buf := { st.buf with
                function := { st.buf.function with
                  start := (st.buf.data.length : Int) } } }
          else
            { st with buf := { st.buf with
                statementStart := some (st.buf.data.length : Int) } }
        { st1 with inBetween := false }
      else st

/-- One full iteration of `processFile`'s loop on character `c` with
lookahead `nextc`: the state machine, the file-start check, `emitChar`
with its overflow backpressure, the deferred flush, the `isChar1`
update and the `prevc` update — in exactly the source's order. -/
def machineStep (cfg : Options) (st : PState) (c : Char) (nextc : Option Char) : PState :=
  let st1 := stateMachine cfg st c nextc
  let st2 :=
    if st1.atStart && !(isSpaceChar c) then
      let st1' := { st1 with atStart := false }
      if st1'.inComment then
        { st1' with buf := { st1'.buf with fileComment := true } }
      else
        { st1' with buf := { st1'.buf with out := st1'.buf.out ++ newFileComment cfg } }
    else st1
  let eres := emitChar cfg.cap st2.buf c
  let st3 := { st2 with buf := eres.1, doFlush := st2.doFlush || eres.2 }
  let st4 :=
    if st3.doFlush then
      { st3 with buf := { flushBuffer cfg st3.buf with fileComment := false },
                 doFlush := false }
    else st3
  let st5 := if st4.isChar1 && !(isSpaceChar c) then { st4 with isChar1 := false } else st4
  { st5 with prevc := c, tags := st.tags ++ [st.inComment || st1.inComment] }

/-- Run the machine over the first `n` characters of the remaining
input (the lookahead always being the next list element, `none` at
end of file, where `fgetc` returns `EOF`). -/
def runFrom (cfg : Options) : PState → List Char → Nat → PState
  | st, _, 0 => st
  | st, [], _ + 1 => st
  | st, c :: rest, n + 1 => runFrom cfg (machineStep cfg st c rest.head?) rest n

/-- The machine state after the first `n` characters of `input`. -/
def runUpTo (cfg : Options) (input : List Char) (n : Nat) : PState :=
  runFrom cfg {} input n

/-- `processFile` of `parser.c`: run the machine over the whole input,
then flush whatever is left in the buffer. -/
def processFile (cfg : Options) (input : List Char) : PState :=
  let st := runFrom cfg {} input input.length
  { st with buf := flushBuffer cfg st.buf }

/-! ## Basic lemmas about ranges and scans -/

theorem copyRange_eq_drop_take (d : List Char) (s e : Int) (hs : 0 ≤ s) (hse : s ≤ e) :
    copyRange d s e = (d.drop s.toNat).take (e.toNat - s.toNat) := by
  unfold copyRange
  rw [max_eq_left hs, max_eq_left (le_trans hs hse), List.drop_take]

theorem copyRange_self (d : List Char) (e : Int) : copyRange d e e = [] := by
  unfold copyRange
  rw [List.drop_take]
  simp

theorem chAt_eq_getElem (d : List Char) (s : Int) (hs : 0 ≤ s)
    (hlen : s.toNat < d.length) : chAt d s = d[s.toNat] := by
  unfold chAt
  rw [if_pos hs, List.getD_eq_getElem d '\x00' hlen]

theorem copyRange_cons (d : List Char) (s e : Int) (hs : 0 ≤ s) (hlt : s < e)
    (he : e ≤ (d.length : Int)) :
    copyRange d s e = chAt d s :: copyRange d (s + 1) e := by
  have hs1 : (0 : Int) ≤ s + 1 := by omega
  have hsN : s.toNat < d.length := by omega
  have hsE : s.toNat < e.toNat := by omega
  rw [copyRange_eq_drop_take d s e hs (le_of_lt hlt),
      copyRange_eq_drop_take d (s + 1) e hs1 (by omega)]
  have h1 : (s + 1).toNat = s.toNat + 1 := by omega
  rw [h1, chAt_eq_getElem d s hs hsN,
      List.drop_eq_getElem_cons hsN]
  have h2 : e.toNat - s.toNat = (e.toNat - (s.toNat + 1)) + 1 := by omega
  rw [h2, List.take_succ_cons]

theorem countCharGo_count (d : List Char) (ch : Char) (e : Int) :
    ∀ (n : Nat) (s : Int), 0 ≤ s → s ≤ e → e ≤ (d.length : Int) → (e - s).toNat = n →
      countCharGo d ch e n s = (copyRange d s e).count ch := by
  intro n
  induction n with
  | zero =>
    intro s hs hse _ hn
    have : s = e := by omega
    subst this
    rw [copyRange_self]
    rfl
  | succ k ih =>
    intro s hs hse he hn
    have hlt : s < e := by omega
    rw [countCharGo, if_pos hlt,
        copyRange_cons d s e hs hlt he, List.count_cons,
        ih (s + 1) (by omega) (by omega) he (by omega)]
    by_cases hc : chAt d s == ch
    · simp [hc, Nat.add_comm]
    · simp at hc
      simp [hc]

theorem countChar_count (d : List Char) (s e : Int) (ch : Char) (hs : 0 ≤ s)
    (hse : s ≤ e) (he : e ≤ (d.length : Int)) :
    countChar d s e ch = (copyRange d s e).count ch :=
  countCharGo_count d ch e (e - s).toNat s hs hse he rfl

theorem copyRange_head (d : List Char) (s e : Int) (hs : 0 ≤ s) (hlt : s < e)
    (he : e ≤ (d.length : Int)) :
    (copyRange d s e).head? = some (chAt d s) := by
  rw [copyRange_cons d s e hs hlt he]
  exact rfl

theorem copyRange_getLast (d : List Char) (s e : Int) (hs : 0 ≤ s) (hlt : s < e)
    (he : e ≤ (d.length : Int)) :
    (copyRange d s e).getLast? = some (chAt d (e - 1)) := by
  have h1 : 0 ≤ e - 1 := by omega
  have h2 : (e - 1).toNat < d.length := by omega
  rw [copyRange_eq_drop_take d s e hs (le_of_lt hlt)]
  have hlen : ((d.drop s.toNat).take (e.toNat - s.toNat)).length = e.toNat - s.toNat := by
    rw [List.length_take, List.length_drop]
    omega
  rw [List.getLast?_eq_getElem?, hlen]
  have hidx : e.toNat - s.toNat - 1 < (e.toNat - s.toNat) := by omega
  rw [List.getElem?_take_of_lt hidx, List.getElem?_drop,
      chAt_eq_getElem d (e - 1) h1 h2]
  have : s.toNat + (e.toNat - s.toNat - 1) = (e - 1).toNat := by omega
  rw [this, List.getElem?_eq_getElem h2]

/-! ## Claim C10: `addString` either prepends one correct copy or leaves
the list unchanged -/

/-- C10: for every call to `addString` on the byte range `[s, e)`:
if both allocations succeed the list gains exactly one new head element
holding a copy of exactly the bytes `[s, e)` with the previous list as
its tail; if either allocation fails the list is completely unchanged;
in both cases the result is either the old list or the old list with one
new head, so existing elements are never modified, and no error is
signalled (the C function returns `void`). -/
theorem addString_atomic (elemOk strOk : Bool) (d : List Char) (s e : Int)
    (sl : List (List Char)) (hs : 0 ≤ s) (hse : s ≤ e) (_he : e ≤ (d.length : Int)) :
    (elemOk = true ∧ strOk = true →
      addString elemOk strOk d s e sl = copyRange d s e :: sl
        ∧ copyRange d s e = (d.drop s.toNat).take (e.toNat - s.toNat))
    ∧ (¬(elemOk = true ∧ strOk = true) → addString elemOk strOk d s e sl = sl)
    ∧ (addString elemOk strOk d s e sl = copyRange d s e :: sl
        ∨ addString elemOk strOk d s e sl = sl) := by
  unfold addString
  refine ⟨fun h => ?_, fun h => ?_, ?_⟩
  · rw [h.1, h.2, if_pos rfl, if_pos rfl]
    exact ⟨rfl, copyRange_eq_drop_take d s e hs hse⟩
  · rcases elemOk with _ | _ <;> rcases strOk with _ | _ <;> simp_all
  · rcases elemOk with _ | _ <;> rcases strOk with _ | _ <;> simp

/-- Witness for C10 at a concrete input. -/
theorem addString_atomic_witness :
    ((0 : Int) ≤ 1 ∧ (1 : Int) ≤ 3 ∧ (3 : Int) ≤ (("abcd").toList.length : Int))
    ∧ ((true = true ∧ true = true →
          addString true true (("abcd").toList) 1 3 [] = copyRange (("abcd").toList) 1 3 :: []
            ∧ copyRange (("abcd").toList) 1 3
              = ((("abcd").toList).drop (1 : Int).toNat).take ((3 : Int).toNat - (1 : Int).toNat))
        ∧ (¬(true = true ∧ true = true) → addString true true (("abcd").toList) 1 3 [] = [])
        ∧ (addString true true (("abcd").toList) 1 3 [] = copyRange (("abcd").toList) 1 3 :: []
            ∨ addString true true (("abcd").toList) 1 3 [] = [])) :=
  ⟨⟨by decide, by decide, by decide⟩,
   addString_atomic true true (("abcd").toList) 1 3 [] (by decide) (by decide) (by decide)⟩

/-! ## Claim C5: parenthesis stripping in return-statement mining -/

/-- The condition under which the code strips the outer parentheses of a
return expression, stated on the expression text itself: it starts with
`(`, contains exactly one `(`, and its last character is `)` —
whether or not that `)` is the one matching the opening `(`. -/
def codeStripCond (expr : List Char) : Bool :=
  expr.head? == some '(' && (expr.count '(' == 1 && expr.getLast? == some ')')

/-- Depth scan locating the closing parenthesis that matches an opening
parenthesis at the head of the expression: index of the first position
where the running parenthesis depth returns to zero. -/
def parenMatchGo (depth : Int) (i : Nat) : List Char → Option Nat
  | [] => none
  | c :: rest =>
    let depth' := if c == '(' then depth + 1 else if c == ')' then depth - 1 else depth
    if depth' == 0 then some i else parenMatchGo depth' (i + 1) rest

/-- The claim's stripping condition, following its words: the trimmed
expression contains exactly one opening parenthesis, starts with it, and
ends with its matching closing parenthesis. -/
def specStripCond (expr : List Char) : Bool :=
  expr.head? == some '(' && expr.count '(' == 1
    && (match expr with
        | [] => false
        | c :: rest =>
          match parenMatchGo (if c == '(' then 1 else 0) 1 rest with
          | some j => j + 1 == expr.length
          | none => false)

/-- C5 counterexample: on the statement `return (a)b)` the expression
`(a)b)` does not end with the parenthesis matching its opening `(`
(that match is the `)` right after `a`), so by the claim no stripping
may happen and `(a)b)` should be recorded; the code nevertheless strips
(it only checks that the last character is some `)`), recording `a)b`. -/
theorem parseStatement_strip_counter :
    mineReturn (("return (a)b)").toList) = some (("a)b").toList)
    ∧ specStripCond (("(a)b)").toList) = false
    ∧ ¬ (("a)b").toList = ("(a)b)").toList) := by decide

/-- C5 (amended): the code strips exactly when the trimmed expression
starts with `(`, contains exactly one `(`, and its last character is
`)` — the test that this `)` matches the opening parenthesis is not
part of the code; `return (x)` records `x` and `return (a)+(b)` records
`(a)+(b)` unchanged. -/
theorem parseStatement_strip_cond (d : List Char) (s e : Int)
    (hs : 0 ≤ s) (hse : s ≤ e) (he : e ≤ (d.length : Int)) :
    ((chAt d s == '(') && (countChar d s e '(' == 1 && chAt d (e - 1) == ')'))
      = codeStripCond (copyRange d s e)
    ∧ mineReturn (("return (x)").toList) = some (("x").toList)
    ∧ mineReturn (("return (a)+(b)").toList) = some (("(a)+(b)").toList) := by
  refine ⟨?_, by decide, by decide⟩
  unfold codeStripCond
  rcases eq_or_lt_of_le hse with heq | hlt
  · subst heq
    rw [copyRange_self]
    simp [countChar, countCharGo]
  · rw [countChar_count d s e '(' hs hse he, copyRange_head d s e hs hlt he,
        copyRange_getLast d s e hs hlt he]
    by_cases h1 : chAt d s = '('
    · simp [h1]
    · simp [h1]

/-- Witness for the amended C5 theorem at a concrete input. -/
theorem parseStatement_strip_cond_witness :
    ((0 : Int) ≤ 0 ∧ (0 : Int) ≤ 3 ∧ (3 : Int) ≤ ((("(x)").toList).length : Int))
    ∧ (((chAt (("(x)").toList) 0 == '(')
          && (countChar (("(x)").toList) 0 3 '(' == 1 && chAt (("(x)").toList) (3 - 1) == ')'))
        = codeStripCond (copyRange (("(x)").toList) 0 3)
       ∧ mineReturn (("return (x)").toList) = some (("x").toList)
       ∧ mineReturn (("return (a)+(b)").toList) = some (("(a)+(b)").toList)) :=
  ⟨⟨by decide, by decide, by decide⟩,
   parseStatement_strip_cond (("(x)").toList) 0 3 (by decide) (by decide) (by decide)⟩

/-! ## Claim C3: `processTyped` and the output capacity -/

set_option maxRecDepth 4000 in
/-- C3 is false of the code: `processTyped` uses `strncat(type, ..., remaining)`
with `remaining` starting at the full capacity, so the NUL terminator can
land at index `size`, and once `remaining` underflows (it is a `size_t`)
the subsequent concatenations are effectively unbounded.  On the
declarator `char ****************x` (sixteen pointer stars) with the
caller-provided capacity 200 used at every call site, bytes are written
up to index 204 — five bytes past the 200-byte buffer. -/
theorem processTyped_writes_past_capacity :
    (processTyped (("char ****************x").toList) 0 22 200 true).ptrCount = 16
    ∧ 200 ≤ (processTyped (("char ****************x").toList) 0 22 200 true).maxWrite
    ∧ (processTyped (("char ****************x").toList) 0 22 200 true).maxWrite = 204 := by
  decide

/-! ## Claim C7: the input-only direction guess -/

/-- A buffer whose accumulated text is the argument list
`(const char *s, int n, char *buf)`, captured as the arglist range. -/
def argDemoBuf : Buf :=
  { data := ("(const char *s, int n, char *buf)").toList,
    arglist := { start := 0, stop := 33, count := 1 } }

/-- C7: the input-only guess equals `const-qualified OR (pointer depth
zero AND not an array)` for every declarator (whenever the type output
is requested, which is when the guess is computed at all), and
consequently `const char *s` and `int n` classify as input-only and are
rendered with direction `in`, while `char *buf` classifies as mutable
and is rendered with direction `in,out`. -/
theorem inOnly_guess (d : List Char) (a b : Int) (size : Nat) (hsize : 0 < size) :
    ((processTyped d a b size true).inOnly
      = ((processTyped d a b size true).isConst
          || ((processTyped d a b size true).ptrCount == 0
              && !(processTyped d a b size true).isArray)))
    ∧ (processTyped (("const char *s").toList) 0 13 200 true).inOnly = true
    ∧ (processTyped (("int n").toList) 0 5 200 true).inOnly = true
    ∧ (processTyped (("char *buf").toList) 0 9 200 true).inOnly = false
    ∧ processArgList argDemoBuf =
        [Chunk.gen (GenTag.paramLine true (("s").toList))
            (("\n\t@param[in] \ts \ta pointer to const char").toList),
         Chunk.gen (GenTag.paramLine true (("n").toList))
            (("\n\t@param[in] \tn \tint").toList),
         Chunk.gen (GenTag.paramLine false (("buf").toList))
            (("\n\t@param[in,out] \tbuf \ta pointer to char").toList),
         Chunk.gen GenTag.misc (("\n").toList)] := by
  refine ⟨?_, by decide, by decide, by decide, by decide⟩
  unfold processTyped
  simp only [Bool.true_and]
  rw [if_pos (decide_eq_true hsize)]

/-- Witness for C7 at a concrete input. -/
theorem inOnly_guess_witness :
    0 < 200
    ∧ (((processTyped (("int n").toList) 0 5 200 true).inOnly
          = ((processTyped (("int n").toList) 0 5 200 true).isConst
              || ((processTyped (("int n").toList) 0 5 200 true).ptrCount == 0
                  && !(processTyped (("int n").toList) 0 5 200 true).isArray)))
        ∧ (processTyped (("const char *s").toList) 0 13 200 true).inOnly = true
        ∧ (processTyped (("int n").toList) 0 5 200 true).inOnly = true
        ∧ (processTyped (("char *buf").toList) 0 9 200 true).inOnly = false
        ∧ processArgList argDemoBuf =
            [Chunk.gen (GenTag.paramLine true (("s").toList))
                (("\n\t@param[in] \ts \ta pointer to const char").toList),
             Chunk.gen (GenTag.paramLine true (("n").toList))
                (("\n\t@param[in] \tn \tint").toList),
             Chunk.gen (GenTag.paramLine false (("buf").toList))
                (("\n\t@param[in,out] \tbuf \ta pointer to char").toList),
             Chunk.gen GenTag.misc (("\n").toList)]) :=
  ⟨by decide, inOnly_guess (("int n").toList) 0 5 200 (by decide)⟩

/-! ## Reduction lemmas for `machineStep` -/

theorem parseComment_skel (b : Buf) :
    (parseComment b).data = b.data ∧ (parseComment b).base = b.base
    ∧ (parseComment b).out = b.out ∧ (parseComment b).description = b.description
    ∧ (parseComment b).function = b.function ∧ (parseComment b).arglist = b.arglist
    ∧ (parseComment b).body = b.body ∧ (parseComment b).fileComment = b.fileComment
    ∧ (parseComment b).retvals = b.retvals := by
  unfold parseComment
  cases b.commentStart
  · simp
  · dsimp only
    split_ifs <;> simp

theorem parseStatement_skel (b : Buf) :
    (parseStatement b).data = b.data ∧ (parseStatement b).base = b.base
    ∧ (parseStatement b).out = b.out ∧ (parseStatement b).description = b.description
    ∧ (parseStatement b).function = b.function ∧ (parseStatement b).arglist = b.arglist
    ∧ (parseStatement b).body = b.body ∧ (parseStatement b).fileComment = b.fileComment := by
  unfold parseStatement
  cases b.statementStart
  · simp
  · dsimp only
    split_ifs <;> simp

theorem flushBuffer_data (cfg : Options) (b : Buf) : (flushBuffer cfg b).data = [] := rfl

theorem flushBuffer_base (cfg : Options) (b : Buf) :
    (flushBuffer cfg b).base = b.base + b.data.length := rfl

theorem flushBuffer_description (cfg : Options) (b : Buf) :
    (flushBuffer cfg b).description = ({} : Range) := rfl

theorem flushBuffer_function (cfg : Options) (b : Buf) :
    (flushBuffer cfg b).function = ({} : Range) := rfl

theorem flushBuffer_arglist (cfg : Options) (b : Buf) :
    (flushBuffer cfg b).arglist = ({} : Range) := rfl

theorem flushBuffer_body (cfg : Options) (b : Buf) :
    (flushBuffer cfg b).body = ({} : Range) := rfl

theorem flushBuffer_fileComment (cfg : Options) (b : Buf) :
    (flushBuffer cfg b).fileComment = b.fileComment := rfl

theorem flushBuffer_out (cfg : Options) (b : Buf) :
    (flushBuffer cfg b).out = b.out ++ renderFlush cfg b := rfl

set_option maxHeartbeats 2000000 in
/-- The composite step when the state machine neither set `doFlush` nor
requires the file-start injection: the character is appended, `isChar1`
survives only over whitespace, `prevc` and the comment tag are
recorded. -/
theorem machineStep_simple (cfg : Options) (st st' : PState) (c : Char) (nc : Option Char)
    (h1 : stateMachine cfg st c nc = st')
    (h2 : (st'.atStart && !(isSpaceChar c)) = false)
    (h3 : st'.doFlush = false) (h4 : st'.buf.data.length < cfg.cap) :
    machineStep cfg st c nc =
      { st' with buf := { st'.buf with data := st'.buf.data ++ [c] },
                 isChar1 := st'.isChar1 && isSpaceChar c,
                 prevc := c,
                 tags := st.tags ++ [st.inComment || st'.inComment] } := by
  simp only [machineStep, h1, h2, h3, emitChar, Bool.false_eq_true,
    if_false, if_pos h4, Bool.false_or]
  cases h5 : st'.isChar1 <;> cases h6 : isSpaceChar c <;> simp [h5, h6]

set_option maxHeartbeats 2000000 in
/-- The composite step when the state machine set `doFlush` (and the
file-start injection does not apply): the character is appended, then
the buffer is flushed and `fileComment` cleared. -/
theorem machineStep_flush (cfg : Options) (st st' : PState) (c : Char) (nc : Option Char)
    (h1 : stateMachine cfg st c nc = st')
    (h2 : (st'.atStart && !(isSpaceChar c)) = false)
    (h3 : st'.doFlush = true) (h4 : st'.buf.data.length < cfg.cap) :
    machineStep cfg st c nc =
      { st' with
          buf := { flushBuffer cfg { st'.buf with data := st'.buf.data ++ [c] } with
                     fileComment := false },
          doFlush := false,
          isChar1 := st'.isChar1 && isSpaceChar c,
          prevc := c,
          tags := st.tags ++ [st.inComment || st'.inComment] } := by
  simp only [machineStep, h1, h2, h3, emitChar, Bool.false_eq_true,
    if_false, if_pos h4, Bool.true_or, if_true]
  cases h5 : st'.isChar1 <;> cases h6 : isSpaceChar c <;> simp [h5, h6]

set_option maxHeartbeats 2000000 in
/-- The composite step at the file's first non-whitespace character when
it does not open a comment: the synthesized file header is injected,
then the character is appended (no deferred flush pending). -/
theorem machineStep_newfile (cfg : Options) (st st' : PState) (c : Char) (nc : Option Char)
    (h1 : stateMachine cfg st c nc = st') (h2a : st'.atStart = true)
    (h2b : isSpaceChar c = false) (h2c : st'.inComment = false)
    (h3 : st'.doFlush = false) (h4 : st'.buf.data.length < cfg.cap) :
    machineStep cfg st c nc =
      { st' with
          atStart := false,
          buf := { st'.buf with out := st'.buf.out ++ newFileComment cfg,
                                data := st'.buf.data ++ [c] },
          isChar1 := st'.isChar1 && isSpaceChar c,
          prevc := c,
          tags := st.tags ++ [st.inComment || st'.inComment] } := by
  simp only [machineStep, h1, h2a, h2b, h2c, h3, emitChar, Bool.not_false, Bool.and_true,
    if_true, Bool.false_eq_true, if_false, if_pos h4, Bool.false_or]
  cases h5 : st'.isChar1 <;> cases h6 : isSpaceChar c <;> simp [h5, h6]

set_option maxHeartbeats 2000000 in
/-- The composite step at the file's first non-whitespace character when
it does not open a comment and the machine set `doFlush` (for example a
`;` or `}` at depth zero): the file header is injected, the character
appended, then the buffer flushed. -/
theorem machineStep_newfile_flush (cfg : Options) (st st' : PState) (c : Char)
    (nc : Option Char)
    (h1 : stateMachine cfg st c nc = st') (h2a : st'.atStart = true)
    (h2b : isSpaceChar c = false) (h2c : st'.inComment = false)
    (h3 : st'.doFlush = true) (h4 : st'.buf.data.length < cfg.cap) :
    machineStep cfg st c nc =
      { st' with
          atStart := false,
          buf := { flushBuffer cfg { st'.buf with out := st'.buf.out ++ newFileComment cfg,
                                                  data := st'.buf.data ++ [c] } with
                     fileComment := false },
          doFlush := false,
          isChar1 := st'.isChar1 && isSpaceChar c,
          prevc := c,
          tags := st.tags ++ [st.inComment || st'.inComment] } := by
  simp only [machineStep, h1, h2a, h2b, h2c, h3, emitChar, Bool.not_false, Bool.and_true,
    if_true, Bool.false_eq_true, if_false, if_pos h4, Bool.true_or]
  cases h5 : st'.isChar1 <;> cases h6 : isSpaceChar c <;> simp [h5, h6]

set_option maxHeartbeats 2000000 in
/-- The composite step at the file's first non-whitespace character when
it opens a comment: the comment is earmarked as the file header
(`fileComment` set) and the character appended. -/
theorem machineStep_fcset (cfg : Options) (st st' : PState) (c : Char) (nc : Option Char)
    (h1 : stateMachine cfg st c nc = st') (h2a : st'.atStart = true)
    (h2b : isSpaceChar c = false) (h2c : st'.inComment = true)
    (h3 : st'.doFlush = false) (h4 : st'.buf.data.length < cfg.cap) :
    machineStep cfg st c nc =
      { st' with
          atStart := false,
          buf := { st'.buf with fileComment := true, data := st'.buf.data ++ [c] },
          isChar1 := st'.isChar1 && isSpaceChar c,
          prevc := c,
          tags := st.tags ++ [st.inComment || st'.inComment] } := by
  simp only [machineStep, h1, h2a, h2b, h2c, h3, emitChar, Bool.not_false, Bool.and_true,
    if_true, Bool.false_eq_true, if_false, if_pos h4, Bool.false_or]
  cases h5 : st'.isChar1 <;> cases h6 : isSpaceChar c <;> simp [h5, h6]

set_option maxHeartbeats 2000000 in
/-- The composite step when `emitChar` signals overflow (no file-start
injection): the character is refused, and the buffer is flushed as-is
regardless of whether the machine had requested a flush. -/
theorem machineStep_ovf (cfg : Options) (st st' : PState) (c : Char) (nc : Option Char)
    (h1 : stateMachine cfg st c nc = st')
    (h2 : (st'.atStart && !(isSpaceChar c)) = false)
    (h4 : ¬ st'.buf.data.length < cfg.cap) :
    machineStep cfg st c nc =
      { st' with
          buf := { flushBuffer cfg st'.buf with fileComment := false },
          doFlush := false,
          isChar1 := st'.isChar1 && isSpaceChar c,
          prevc := c,
          tags := st.tags ++ [st.inComment || st'.inComment] } := by
  simp only [machineStep, h1, h2, emitChar, Bool.false_eq_true, if_false,
    if_neg h4, Bool.or_true, if_true]
  cases h5 : st'.isChar1 <;> cases h6 : isSpaceChar c <;> simp [h5, h6]

set_option maxHeartbeats 2000000 in
/-- The composite step at the file's first non-whitespace character,
opening a comment, when `emitChar` signals overflow: the file-comment
flag is set, the character refused, and the buffer flushed. -/
theorem machineStep_fcset_ovf (cfg : Options) (st st' : PState) (c : Char)
    (nc : Option Char)
    (h1 : stateMachine cfg st c nc = st') (h2a : st'.atStart = true)
    (h2b : isSpaceChar c = false) (h2c : st'.inComment = true)
    (h4 : ¬ st'.buf.data.length < cfg.cap) :
    machineStep cfg st c nc =
      { st' with
          atStart := false,
          buf := { flushBuffer cfg { st'.buf with fileComment := true } with
                     fileComment := false },
          doFlush := false,
          isChar1 := st'.isChar1 && isSpaceChar c,
          prevc := c,
          tags := st.tags ++ [st.inComment || st'.inComment] } := by
  simp only [machineStep, h1, h2a, h2b, h2c, emitChar, Bool.not_false, Bool.and_true,
    if_true, Bool.false_eq_true, if_false, if_neg h4, Bool.or_true]
  cases h5 : st'.isChar1 <;> cases h6 : isSpaceChar c <;> simp [h5, h6]

set_option maxHeartbeats 2000000 in
/-- The composite step at the file's first non-whitespace character, not
opening a comment, when `emitChar` signals overflow: the synthesized
file header is injected, the character refused, and the buffer
flushed. -/
theorem machineStep_newfile_ovf (cfg : Options) (st st' : PState) (c : Char)
    (nc : Option Char)
    (h1 : stateMachine cfg st c nc = st') (h2a : st'.atStart = true)
    (h2b : isSpaceChar c = false) (h2c : st'.inComment = false)
    (h4 : ¬ st'.buf.data.length < cfg.cap) :
    machineStep cfg st c nc =
      { st' with
          atStart := false,
          buf := { flushBuffer cfg { st'.buf with
                     out := st'.buf.out ++ newFileComment cfg } with
                     fileComment := false },
          doFlush := false,
          isChar1 := st'.isChar1 && isSpaceChar c,
          prevc := c,
          tags := st.tags ++ [st.inComment || st'.inComment] } := by
  simp only [machineStep, h1, h2a, h2b, h2c, emitChar, Bool.not_false, Bool.and_true,
    if_true, Bool.false_eq_true, if_false, if_neg h4, Bool.or_true]
  cases h5 : st'.isChar1 <;> cases h6 : isSpaceChar c <;> simp [h5, h6]

/-! ## Claim C2: backslash-newline handling -/

/-- C2 counterexample: in preprocessor mode the state machine has no
backslash case at all, so on the input `#d \`+newline the
backslash-newline pair ends preprocessor mode and triggers a flush: after
four characters (`#d \`) the machine is in preprocessor mode with
nothing flushed (`base = 0`), and after the newline preprocessor mode is
over and the accumulation was flushed (`base = 5`). -/
theorem preprocBackslashNL_counter :
    (runUpTo {} (("#d \\\nx();").toList) 4).inPreprocessor = true
    ∧ (runUpTo {} (("#d \\\nx();").toList) 4).isLiteral = false
    ∧ (runUpTo {} (("#d \\\nx();").toList) 4).buf.base = 0
    ∧ (runUpTo {} (("#d \\\nx();").toList) 5).inPreprocessor = false
    ∧ (runUpTo {} (("#d \\\nx();").toList) 5).buf.base = 5 := by decide

/-- C2 (amended): outside comments, strings and preprocessor directives
a backslash arms the pending-literal-escape, and inside string literals
likewise; an armed escape consumes the next logical character (one
character, or a CR/LF or LF/CR pair as one) with all other
interpretation suppressed — no mode change, no flush.  In preprocessor
mode, however, a backslash is ignored (the escape is not armed) and a
following newline does terminate the directive, triggering a flush at
brace depth zero. -/
theorem backslashEscape_thm (cfg : Options) (st : PState) (c : Char) (nc : Option Char)
    (hcap : st.buf.data.length < cfg.cap) (hat : st.atStart = false)
    (hdf : st.doFlush = false) :
    (st.isLiteral = true →
      (machineStep cfg st c nc).inComment = st.inComment
      ∧ (machineStep cfg st c nc).inPreprocessor = st.inPreprocessor
      ∧ (machineStep cfg st c nc).inSingleQuotes = st.inSingleQuotes
      ∧ (machineStep cfg st c nc).inDoubleQuotes = st.inDoubleQuotes
      ∧ (machineStep cfg st c nc).buf.base = st.buf.base
      ∧ (machineStep cfg st c nc).buf.out = st.buf.out
      ∧ (machineStep cfg st c nc).isLiteral
          = ((c == '\r' && nc == some '\n') || (c == '\n' && nc == some '\r')))
    ∧ (st.isLiteral = false → st.inComment = false → st.inPreprocessor = false →
        st.inSingleQuotes = false → st.inDoubleQuotes = false → c = '\\' →
      (machineStep cfg st c nc).isLiteral = true
      ∧ (machineStep cfg st c nc).buf.base = st.buf.base)
    ∧ (st.isLiteral = false → st.inComment = false → st.inPreprocessor = false →
        st.inSingleQuotes = true → c = '\\' →
      (machineStep cfg st c nc).isLiteral = true
      ∧ (machineStep cfg st c nc).buf.base = st.buf.base)
    ∧ (st.isLiteral = false → st.inComment = false → st.inPreprocessor = false →
        st.inSingleQuotes = false → st.inDoubleQuotes = true → c = '\\' →
      (machineStep cfg st c nc).isLiteral = true
      ∧ (machineStep cfg st c nc).buf.base = st.buf.base)
    ∧ (st.isLiteral = false → st.inComment = false → st.inPreprocessor = true →
      ((machineStep cfg st '\\' nc).isLiteral = false
        ∧ (machineStep cfg st '\\' nc).inPreprocessor = true
        ∧ (machineStep cfg st '\\' nc).buf.base = st.buf.base)
      ∧ ((c = '\n' ∨ c = '\r') →
          (machineStep cfg st c nc).inPreprocessor = false
          ∧ (st.depthCurly = 0 →
              (machineStep cfg st c nc).buf.base
                = st.buf.base + st.buf.data.length + 1))) := by
  refine ⟨fun hlit => ?_, fun hl hc hpp hsq hdq hbs => ?_, fun hl hc hpp hsq hbs => ?_,
    fun hl hc hpp hsq hdq hbs => ?_, fun hl hc hpp => ⟨?_, fun hnl => ?_⟩⟩
  · by_cases hp : ((c == '\r' && nc == some '\n') || (c == '\n' && nc == some '\r')) = true
    · have hsm : stateMachine cfg st c nc = st := by
        unfold stateMachine
        rw [hlit]
        simp only [if_true, hp, Bool.not_true, Bool.false_eq_true, if_false]
      rw [machineStep_simple cfg st st c nc hsm (by rw [hat]; rfl) hdf hcap]
      exact ⟨rfl, rfl, rfl, rfl, rfl, rfl, by rw [hp]; exact hlit⟩
    · have hp' : ((c == '\r' && nc == some '\n') || (c == '\n' && nc == some '\r')) = false := by
        simpa using hp
      have hsm : stateMachine cfg st c nc = { st with isLiteral := false } := by
        unfold stateMachine
        rw [hlit]
        simp only [if_true, hp', Bool.not_false]
      rw [machineStep_simple cfg st _ c nc hsm (by rw [hat]; rfl) hdf hcap]
      exact ⟨rfl, rfl, rfl, rfl, rfl, rfl, by rw [hp']⟩
  · subst hbs
    have hsm : stateMachine cfg st '\\' nc = { st with isLiteral := true } := by
      unfold stateMachine
      rw [hl, hc, hpp, hsq, hdq]
      simp only [Bool.false_eq_true, if_false]
      rw [if_pos (by decide)]
    rw [machineStep_simple cfg st _ '\\' nc hsm (by rw [hat]; rfl) hdf hcap]
    exact ⟨rfl, rfl⟩
  · subst hbs
    have hsm : stateMachine cfg st '\\' nc = { st with isLiteral := true } := by
      unfold stateMachine
      rw [hl, hc, hpp, hsq]
      simp only [Bool.false_eq_true, if_false, if_true]
      rw [if_neg (by decide), if_pos (by decide)]
    rw [machineStep_simple cfg st _ '\\' nc hsm (by rw [hat]; rfl) hdf hcap]
    exact ⟨rfl, rfl⟩
  · subst hbs
    have hsm : stateMachine cfg st '\\' nc = { st with isLiteral := true } := by
      unfold stateMachine
      rw [hl, hc, hpp, hsq, hdq]
      simp only [Bool.false_eq_true, if_false, if_true]
      rw [if_neg (by decide), if_pos (by decide)]
    rw [machineStep_simple cfg st _ '\\' nc hsm (by rw [hat]; rfl) hdf hcap]
    exact ⟨rfl, rfl⟩
  · have hsm : stateMachine cfg st '\\' nc = st := by
      unfold stateMachine
      rw [hl, hc, hpp]
      simp only [Bool.false_eq_true, if_false, if_true]
      rw [if_neg (by decide), if_neg (by decide)]
    rw [machineStep_simple cfg st st '\\' nc hsm (by rw [hat]; rfl) hdf hcap]
    exact ⟨hl, hpp, rfl⟩
  · have hnlc : (c == '\n' || c == '\r') = true := by
      rcases hnl with h | h <;> simp [h]
    by_cases hcpp : st.inCppComment = true
    · by_cases hdc : st.depthCurly = 0
      · have hsm : stateMachine cfg st c nc =
            { st with inCppComment := false, inComment := false,
                      inPreprocessor := false, isChar1 := true, doFlush := true,
                      buf := { st.buf with description := { st.buf.description with
                                 stop := (st.buf.data.length : Int),
                                 count := st.buf.description.count + 1 } } } := by
          unfold stateMachine
          rw [hl, hc, hpp]
          simp only [Bool.false_eq_true, if_false, if_true]
          rw [if_pos hnlc]
          simp only [hl, hcpp, if_true, hdc, beq_self_eq_true, Bool.not_false,
            Bool.and_true, if_false, Bool.false_eq_true]
        rw [machineStep_flush cfg st _ c nc hsm (by rw [hat]; rfl) rfl hcap]
        refine ⟨rfl, fun _ => ?_⟩
        rw [flushBuffer_base]
        simp only [List.length_append, List.length_cons, List.length_nil]
        omega
      · have hsm : stateMachine cfg st c nc =
            { st with inCppComment := false, inComment := false,
                      inPreprocessor := false, isChar1 := true,
                      buf := parseComment st.buf } := by
          unfold stateMachine
          rw [hl, hc, hpp]
          simp only [Bool.false_eq_true, if_false, if_true]
          rw [if_pos hnlc]
          simp only [hl, hcpp, if_true, beq_iff_eq, hdc, if_false, Bool.not_false,
            Bool.and_true, Bool.false_eq_true]
        have hcap' : (parseComment st.buf).data.length < cfg.cap := by
          rw [(parseComment_skel st.buf).1]
          exact hcap
        rw [machineStep_simple cfg st _ c nc hsm (by rw [hat]; rfl) hdf hcap']
        exact ⟨rfl, fun h => absurd h hdc⟩
    · have hcpp' : st.inCppComment = false := by simpa using hcpp
      by_cases hdc : st.depthCurly = 0
      · have hsm : stateMachine cfg st c nc =
            { st with inPreprocessor := false, isChar1 := true, doFlush := true } := by
          unfold stateMachine
          rw [hl, hc, hpp]
          simp only [Bool.false_eq_true, if_false, if_true]
          rw [if_pos hnlc]
          simp only [hl, hcpp', Bool.false_eq_true, if_false, hc, hdc, Bool.not_false,
            Bool.and_true, beq_self_eq_true, if_true]
        rw [machineStep_flush cfg st _ c nc hsm (by rw [hat]; rfl) rfl hcap]
        refine ⟨rfl, fun _ => ?_⟩
        rw [flushBuffer_base]
        simp only [List.length_append, List.length_cons, List.length_nil]
        omega
      · have hsm : stateMachine cfg st c nc =
            { st with inPreprocessor := false, isChar1 := true } := by
          unfold stateMachine
          rw [hl, hc, hpp]
          simp only [Bool.false_eq_true, if_false, if_true]
          rw [if_pos hnlc]
          simp only [hl, hcpp', Bool.false_eq_true, if_false, hc, Bool.not_false,
            Bool.and_true, beq_iff_eq, hdc]
        rw [machineStep_simple cfg st _ c nc hsm (by rw [hat]; rfl) hdf hcap]
        exact ⟨rfl, fun h => absurd h hdc⟩

/-- A concrete machine state in the middle of a preprocessor directive,
used to witness the backslash-handling theorem. -/
def c2wSt : PState :=
  { buf := { data := ("#x ").toList }, inPreprocessor := true,
    atStart := false, isChar1 := false }

/-- Witness for the amended C2 theorem at a concrete state and input. -/
theorem backslashEscape_thm_witness :
    (c2wSt.buf.data.length < ({} : Options).cap
      ∧ c2wSt.atStart = false ∧ c2wSt.doFlush = false)
    ∧ ((c2wSt.isLiteral = true →
          (machineStep {} c2wSt '\n' (some 'x')).inComment = c2wSt.inComment
          ∧ (machineStep {} c2wSt '\n' (some 'x')).inPreprocessor = c2wSt.inPreprocessor
          ∧ (machineStep {} c2wSt '\n' (some 'x')).inSingleQuotes = c2wSt.inSingleQuotes
          ∧ (machineStep {} c2wSt '\n' (some 'x')).inDoubleQuotes = c2wSt.inDoubleQuotes
          ∧ (machineStep {} c2wSt '\n' (some 'x')).buf.base = c2wSt.buf.base
          ∧ (machineStep {} c2wSt '\n' (some 'x')).buf.out = c2wSt.buf.out
          ∧ (machineStep {} c2wSt '\n' (some 'x')).isLiteral
              = (('\n' == '\r' && some 'x' == some '\n')
                  || ('\n' == '\n' && some 'x' == some '\r')))
        ∧ (c2wSt.isLiteral = false → c2wSt.inComment = false → c2wSt.inPreprocessor = false →
            c2wSt.inSingleQuotes = false → c2wSt.inDoubleQuotes = false → '\n' = '\\' →
          (machineStep {} c2wSt '\n' (some 'x')).isLiteral = true
          ∧ (machineStep {} c2wSt '\n' (some 'x')).buf.base = c2wSt.buf.base)
        ∧ (c2wSt.isLiteral = false → c2wSt.inComment = false → c2wSt.inPreprocessor = false →
            c2wSt.inSingleQuotes = true → '\n' = '\\' →
          (machineStep {} c2wSt '\n' (some 'x')).isLiteral = true
          ∧ (machineStep {} c2wSt '\n' (some 'x')).buf.base = c2wSt.buf.base)
        ∧ (c2wSt.isLiteral = false → c2wSt.inComment = false → c2wSt.inPreprocessor = false →
            c2wSt.inSingleQuotes = false → c2wSt.inDoubleQuotes = true → '\n' = '\\' →
          (machineStep {} c2wSt '\n' (some 'x')).isLiteral = true
          ∧ (machineStep {} c2wSt '\n' (some 'x')).buf.base = c2wSt.buf.base)
        ∧ (c2wSt.isLiteral = false → c2wSt.inComment = false → c2wSt.inPreprocessor = true →
          ((machineStep {} c2wSt '\\' (some 'x')).isLiteral = false
            ∧ (machineStep {} c2wSt '\\' (some 'x')).inPreprocessor = true
            ∧ (machineStep {} c2wSt '\\' (some 'x')).buf.base = c2wSt.buf.base)
          ∧ (('\n' = '\n' ∨ '\n' = '\r') →
              (machineStep {} c2wSt '\n' (some 'x')).inPreprocessor = false
              ∧ (c2wSt.depthCurly = 0 →
                  (machineStep {} c2wSt '\n' (some 'x')).buf.base
                    = c2wSt.buf.base + c2wSt.buf.data.length + 1)))) :=
  ⟨⟨by decide, by decide, by decide⟩,
   backslashEscape_thm {} c2wSt '\n' (some 'x') (by decide) (by decide) (by decide)⟩

/-! ## Shape of the rendered chunk lists -/

/-- Whether a chunk is original text emitted outside a comment block. -/
def isCodeChunk : Chunk → Bool
  | Chunk.code _ _ _ => true
  | _ => false

/-- Whether a chunk is the generated return-type line. -/
def isRetLineChunk : Chunk → Bool
  | Chunk.gen GenTag.retLine _ => true
  | _ => false

/-- Whether a chunk is one generated return-value line. -/
def isRetvalChunk : Chunk → Bool
  | Chunk.gen GenTag.retvalLine _ => true
  | _ => false

theorem processDescription_shape (b : Buf) :
    ∀ ch ∈ processDescription b, isCodeChunk ch = false
      ∧ isRetLineChunk ch = false ∧ isRetvalChunk ch = false := by
  unfold processDescription
  dsimp only
  split_ifs <;> intro ch hch <;>
    simp only [List.cons_append, List.nil_append, List.mem_cons,
      List.not_mem_nil, or_false] at hch <;>
    rcases hch with h | h <;> subst h <;> exact ⟨rfl, rfl, rfl⟩

theorem descFixup_skel (b : Buf) :
    (descFixup b).data = b.data ∧ (descFixup b).base = b.base
    ∧ (descFixup b).function = b.function ∧ (descFixup b).arglist = b.arglist
    ∧ (descFixup b).body = b.body ∧ (descFixup b).fileComment = b.fileComment
    ∧ (descFixup b).todos = b.todos ∧ (descFixup b).retvals = b.retvals
    ∧ (descFixup b).out = b.out := by
  unfold descFixup
  split_ifs <;> simp

theorem argLoopGo_shape (b : Buf) (e : Int) :
    ∀ (fuel : Nat) (s p : Int) (said : Bool), ∀ ch ∈ argLoopGo b e fuel s p said,
      isCodeChunk ch = false ∧ isRetLineChunk ch = false ∧ isRetvalChunk ch = false := by
  intro fuel
  induction fuel with
  | zero =>
    intro s p said ch hch
    unfold argLoopGo at hch
    split_ifs at hch
    · simp only [List.mem_singleton] at hch
      subst hch
      exact ⟨rfl, rfl, rfl⟩
    · simp at hch
  | succ k ih =>
    intro s p said ch hch
    unfold argLoopGo at hch
    dsimp only at hch
    split_ifs at hch
    all_goals
      try simp only [List.mem_cons, List.mem_singleton, List.not_mem_nil, or_false] at hch
    all_goals first
      | exact hch.elim
      | (rcases hch with h | h
         · subst h
           exact ⟨rfl, rfl, rfl⟩
         · exact ih _ _ _ ch h)
      | (subst hch
         exact ⟨rfl, rfl, rfl⟩)
      | exact ih _ _ _ ch hch

theorem processArgList_shape (b : Buf) :
    ∀ ch ∈ processArgList b, isCodeChunk ch = false
      ∧ isRetLineChunk ch = false ∧ isRetvalChunk ch = false := by
  intro ch hch
  exact argLoopGo_shape b b.arglist.stop _ _ _ _ ch hch

/-! ## Claim C8: the return section of a rendered function -/

/-- C8: in the comment block rendered for a function definition, a
return-type line and the return-value lines are emitted iff the
classified return-type phrase is not exactly `void`: when it is `void`
neither kind of line appears; otherwise exactly one return-type line and
exactly one line per mined return value appear. -/
theorem returnSection_iff (cfg : Options) (b : Buf) :
    ((processFunction cfg b).countP isRetLineChunk
       = if (processTyped b.data b.function.start b.function.stop 200 true).typeChars
            = ("void").toList then 0 else 1)
    ∧ ((processFunction cfg b).countP isRetvalChunk
       = if (processTyped b.data b.function.start b.function.stop 200 true).typeChars
            = ("void").toList then 0 else b.retvals.length) := by
  have hd := descFixup_skel b
  have hdesc1 : (processDescription (descFixup b)).countP isRetLineChunk = 0 :=
    List.countP_eq_zero.mpr (fun ch hch => by
      rw [(processDescription_shape (descFixup b) ch hch).2.1]
      exact Bool.false_ne_true)
  have hdesc2 : (processDescription (descFixup b)).countP isRetvalChunk = 0 :=
    List.countP_eq_zero.mpr (fun ch hch => by
      rw [(processDescription_shape (descFixup b) ch hch).2.2]
      exact Bool.false_ne_true)
  have harg1 : (processArgList (descFixup b)).countP isRetLineChunk = 0 :=
    List.countP_eq_zero.mpr (fun ch hch => by
      rw [(processArgList_shape (descFixup b) ch hch).2.1]
      exact Bool.false_ne_true)
  have harg2 : (processArgList (descFixup b)).countP isRetvalChunk = 0 :=
    List.countP_eq_zero.mpr (fun ch hch => by
      rw [(processArgList_shape (descFixup b) ch hch).2.2]
      exact Bool.false_ne_true)
  have htodo1 : (b.todos.map
      (fun t => Chunk.gen GenTag.todoLine ((("\n\t@todo ").toList) ++ t))).countP isRetLineChunk = 0 :=
    List.countP_eq_zero.mpr (fun ch hch => by
      rcases List.mem_map.mp hch with ⟨t, _, rfl⟩
      exact Bool.false_ne_true)
  have htodo2 : (b.todos.map
      (fun t => Chunk.gen GenTag.todoLine ((("\n\t@todo ").toList) ++ t))).countP isRetvalChunk = 0 :=
    List.countP_eq_zero.mpr (fun ch hch => by
      rcases List.mem_map.mp hch with ⟨t, _, rfl⟩
      exact Bool.false_ne_true)
  have hrv : (b.retvals.map
      (fun r => Chunk.gen GenTag.retvalLine ((("\n\t@retval ").toList) ++ r))).countP isRetvalChunk
      = b.retvals.length := by
    rw [List.countP_eq_length.mpr, List.length_map]
    intro ch hch
    rcases List.mem_map.mp hch with ⟨t, _, rfl⟩
    rfl
  have hrv1 : (b.retvals.map
      (fun r => Chunk.gen GenTag.retvalLine ((("\n\t@retval ").toList) ++ r))).countP isRetLineChunk
      = 0 :=
    List.countP_eq_zero.mpr (fun ch hch => by
      rcases List.mem_map.mp hch with ⟨t, _, rfl⟩
      exact Bool.false_ne_true)
  have hh1 : ∀ (x : Int) (bs : List Char),
      List.countP isRetLineChunk [dumpBlock (descFixup b) 0 x, Chunk.gen GenTag.commentOpen bs] = 0 :=
    fun _ _ => rfl
  have hh2 : ∀ (x : Int) (bs : List Char),
      List.countP isRetvalChunk [dumpBlock (descFixup b) 0 x, Chunk.gen GenTag.commentOpen bs] = 0 :=
    fun _ _ => rfl
  have hcl1 : ∀ bs, List.countP isRetLineChunk [Chunk.gen GenTag.commentClose bs] = 0 := fun _ => rfl
  have hcl2 : ∀ bs, List.countP isRetvalChunk [Chunk.gen GenTag.commentClose bs] = 0 := fun _ => rfl
  have hpt1 : ∀ (x y : Int) (bs : List Char),
      List.countP isRetLineChunk [dumpBlock (descFixup b) x y, Chunk.gen GenTag.protoEnd bs] = 0 :=
    fun _ _ _ => rfl
  have hpt2 : ∀ (x y : Int) (bs : List Char),
      List.countP isRetvalChunk [dumpBlock (descFixup b) x y, Chunk.gen GenTag.protoEnd bs] = 0 :=
    fun _ _ _ => rfl
  have hsg1 : ∀ (x y : Int), List.countP isRetLineChunk [dumpBlock (descFixup b) x y] = 0 :=
    fun _ _ => rfl
  have hsg2 : ∀ (x y : Int), List.countP isRetvalChunk [dumpBlock (descFixup b) x y] = 0 :=
    fun _ _ => rfl
  have hr1 : ∀ bs, List.countP isRetLineChunk [Chunk.gen GenTag.retLine bs] = 1 := fun _ => rfl
  have hr2 : ∀ bs, List.countP isRetvalChunk [Chunk.gen GenTag.retLine bs] = 0 := fun _ => rfl
  have hm1 : ∀ bs, List.countP isRetLineChunk [Chunk.gen GenTag.misc bs] = 0 := fun _ => rfl
  have hm2 : ∀ bs, List.countP isRetvalChunk [Chunk.gen GenTag.misc bs] = 0 := fun _ => rfl
  unfold processFunction
  dsimp only
  by_cases hv : ((processTyped (descFixup b).data (descFixup b).function.start
      (descFixup b).function.stop 200 true).typeChars == ("void").toList) = true
  · have hv' : (processTyped b.data b.function.start b.function.stop 200 true).typeChars
        = ("void").toList := by
      rw [← hd.1, ← hd.2.2.1]
      exact beq_iff_eq.mp hv
    rw [if_pos hv, if_pos hv', if_pos hv']
    simp only [List.countP_append, hdesc1, hdesc2, harg1, harg2, htodo1, htodo2,
      List.countP_nil, hh1, hh2, hcl1, hcl2, hd.2.2.2.2.2.2.1, hd.2.2.2.2.2.2.2.1]
    split_ifs <;> simp only [hpt1, hpt2, hsg1, hsg2] <;> simp
  · have hv2 : ((processTyped (descFixup b).data (descFixup b).function.start
        (descFixup b).function.stop 200 true).typeChars == ("void").toList) = false := by
      simpa using hv
    have hv' : ¬ ((processTyped b.data b.function.start b.function.stop 200 true).typeChars
        = ("void").toList) := by
      rw [← hd.1, ← hd.2.2.1]
      exact fun h => hv (beq_iff_eq.mpr h)
    rw [if_neg hv, if_neg hv', if_neg hv']
    simp only [List.countP_append, hdesc1, hdesc2, harg1, harg2, htodo1, htodo2,
      hrv, hrv1, List.countP_nil, hh1, hh2, hcl1, hcl2, hr1, hr2, hm1, hm2,
      hd.2.2.2.2.2.2.1, hd.2.2.2.2.2.2.2.1]
    split_ifs <;> simp only [hpt1, hpt2, hsg1, hsg2] <;> simp

/-! ## Claim C6: flush classification -/

/-- C6: at every flush of a non-empty accumulation, the text is rendered
as a function definition iff the `function`, `arglist` and `body` ranges
were each captured exactly once in the current cycle and the
`fileComment` flag is not set; with `fileComment` set it is rendered as a
file header, and otherwise as plain unmodified text (suppressed in
prototype-only mode). -/
theorem flush_classification (cfg : Options) (b : Buf) (hlen : 0 < b.data.length) :
    (renderFlush cfg b = processFunction cfg b
      ↔ (b.fileComment = false ∧ b.function.count = 1 ∧ b.arglist.count = 1
          ∧ b.body.count = 1))
    ∧ (b.fileComment = true → renderFlush cfg b = processFileComment cfg b)
    ∧ (b.fileComment = false →
        ¬(b.function.count = 1 ∧ b.arglist.count = 1 ∧ b.body.count = 1) →
        renderFlush cfg b
          = if cfg.onlyPrototypes = true then []
            else [dumpBlock b 0 (b.data.length : Int)]) := by
  obtain ⟨bs, l, hl⟩ : ∃ bs l, processFunction cfg b
      = dumpBlock (descFixup b) 0 (descFixup b).description.start
        :: Chunk.gen GenTag.commentOpen bs :: l := ⟨_, _, rfl⟩
  unfold renderFlush
  rw [if_pos hlen]
  by_cases hfc : b.fileComment = true
  · rw [if_pos hfc]
    refine ⟨⟨fun h => ?_, fun h => absurd hfc (by simp [h.1])⟩, fun _ => rfl,
            fun h _ => absurd hfc (by simp [h])⟩
    exfalso
    rw [hl] at h
    have hh := congrArg List.head? h
    simp [processFileComment, dumpBlock] at hh
  · have hfc' : b.fileComment = false := by simpa using hfc
    rw [if_neg hfc]
    by_cases hcnt : (b.function.count == 1 && b.arglist.count == 1 && b.body.count == 1) = true
    · rw [if_pos hcnt]
      have hc3 : b.function.count = 1 ∧ b.arglist.count = 1 ∧ b.body.count = 1 := by
        simp only [Bool.and_eq_true, beq_iff_eq] at hcnt
        exact ⟨hcnt.1.1, hcnt.1.2, hcnt.2⟩
      exact ⟨⟨fun _ => ⟨hfc', hc3.1, hc3.2.1, hc3.2.2⟩, fun _ => rfl⟩,
             fun h => absurd h (by simp [hfc']),
             fun _ h => absurd ⟨hc3.1, hc3.2.1, hc3.2.2⟩ h⟩
    · rw [if_neg hcnt]
      have hcnt' : ¬(b.function.count = 1 ∧ b.arglist.count = 1 ∧ b.body.count = 1) := by
        intro hx
        exact hcnt (by simp [hx.1, hx.2.1, hx.2.2])
      refine ⟨⟨fun h => ?_, fun h => absurd ⟨h.2.1, h.2.2.1, h.2.2.2⟩ hcnt'⟩,
              fun h => absurd h (by simp [hfc']),
              fun _ _ => ?_⟩
      · exfalso
        split_ifs at h
        · have hlen2 := congrArg List.length h
          rw [hl] at hlen2
          simp at hlen2
        · have hlen2 := congrArg List.length h
          rw [hl] at hlen2
          simp at hlen2
      · by_cases hpo : cfg.onlyPrototypes = true <;> simp [hpo]

/-- Witness for C6 at a concrete buffer. -/
theorem flush_classification_witness :
    0 < argDemoBuf.data.length
    ∧ ((renderFlush {} argDemoBuf = processFunction {} argDemoBuf
          ↔ (argDemoBuf.fileComment = false ∧ argDemoBuf.function.count = 1
              ∧ argDemoBuf.arglist.count = 1 ∧ argDemoBuf.body.count = 1))
        ∧ (argDemoBuf.fileComment = true →
            renderFlush {} argDemoBuf = processFileComment {} argDemoBuf)
        ∧ (argDemoBuf.fileComment = false →
            ¬(argDemoBuf.function.count = 1 ∧ argDemoBuf.arglist.count = 1
                ∧ argDemoBuf.body.count = 1) →
            renderFlush {} argDemoBuf
              = if ({} : Options).onlyPrototypes = true then []
                else [dumpBlock argDemoBuf 0 (argDemoBuf.data.length : Int)])) :=
  ⟨by decide, flush_classification {} argDemoBuf (by decide)⟩

/-! ## Claim C9: prototype-only mode -/

/-- C9: with prototype-only mode active, a flush whose non-empty
accumulation is classified as plain text produces no output at all,
while a flush classified as a function definition produces the function
rendering, which ends with the declarator-through-arglist text followed
by `;` and a blank line, and whose only verbatim (non-comment-block)
output is the text before the description plus declarator-through-arglist
— the captured body is never emitted. -/
theorem protoMode_flush (cfg : Options) (b : Buf) (hp : cfg.onlyPrototypes = true)
    (hlen : 0 < b.data.length) (hfc : b.fileComment = false) :
    (¬(b.function.count = 1 ∧ b.arglist.count = 1 ∧ b.body.count = 1) →
        renderFlush cfg b = [])
    ∧ ((b.function.count = 1 ∧ b.arglist.count = 1 ∧ b.body.count = 1) →
        renderFlush cfg b = processFunction cfg b
        ∧ (∃ front, processFunction cfg b = front
            ++ [dumpBlock (descFixup b) (descFixup b).description.stop (descFixup b).arglist.stop,
                Chunk.gen GenTag.protoEnd ((";\n\n").toList)])
        ∧ (processFunction cfg b).filter isCodeChunk
            = [dumpBlock (descFixup b) 0 (descFixup b).description.start,
               dumpBlock (descFixup b) (descFixup b).description.stop
                 (descFixup b).arglist.stop]) := by
  have hPF : processFunction cfg b
      = [dumpBlock (descFixup b) 0 (descFixup b).description.start,
         Chunk.gen GenTag.commentOpen ((("\n/**\n").toList)
           ++ (if (processTyped (descFixup b).data (descFixup b).function.start
                 (descFixup b).function.stop 200 true).isStatic = true
               then ("\t@internal\n\n").toList else [])
           ++ (("\t").toList))]
        ++ processDescription (descFixup b)
        ++ processArgList (descFixup b)
        ++ (if ((processTyped (descFixup b).data (descFixup b).function.start
                (descFixup b).function.stop 200 true).typeChars == ("void").toList) = true
             then ([] : List Chunk)
             else [Chunk.gen GenTag.retLine ((("\n\t@return ").toList)
                     ++ (processTyped (descFixup b).data (descFixup b).function.start
                          (descFixup b).function.stop 200 true).typeChars)]
                  ++ (descFixup b).retvals.map
                      (fun r => Chunk.gen GenTag.retvalLine ((("\n\t@retval ").toList) ++ r))
                  ++ [Chunk.gen GenTag.misc (("\n").toList)])
        ++ (descFixup b).todos.map
              (fun t => Chunk.gen GenTag.todoLine ((("\n\t@todo ").toList) ++ t))
        ++ [Chunk.gen GenTag.commentClose
               (("\n\t@todo edit me (automatically generated by insertdox)\n*/").toList)]
        ++ (if cfg.onlyPrototypes = true then
              [dumpBlock (descFixup b) (descFixup b).description.stop (descFixup b).arglist.stop,
               Chunk.gen GenTag.protoEnd ((";\n\n").toList)]
            else [dumpBlock (descFixup b) (descFixup b).description.stop
                    (((descFixup b).data.length : Int))]) := rfl
  have hfilterDesc : (processDescription (descFixup b)).filter isCodeChunk = [] :=
    List.filter_eq_nil_iff.mpr (fun ch hch => by
      rw [(processDescription_shape (descFixup b) ch hch).1]
      exact Bool.false_ne_true)
  have hfilterArg : (processArgList (descFixup b)).filter isCodeChunk = [] :=
    List.filter_eq_nil_iff.mpr (fun ch hch => by
      rw [(processArgList_shape (descFixup b) ch hch).1]
      exact Bool.false_ne_true)
  have hfilterTodo : ((descFixup b).todos.map
      (fun t => Chunk.gen GenTag.todoLine ((("\n\t@todo ").toList) ++ t))).filter isCodeChunk
      = [] :=
    List.filter_eq_nil_iff.mpr (fun ch hch => by
      rcases List.mem_map.mp hch with ⟨t, _, rfl⟩
      exact Bool.false_ne_true)
  have hfilterRv : ((descFixup b).retvals.map
      (fun r => Chunk.gen GenTag.retvalLine ((("\n\t@retval ").toList) ++ r))).filter isCodeChunk
      = [] :=
    List.filter_eq_nil_iff.mpr (fun ch hch => by
      rcases List.mem_map.mp hch with ⟨t, _, rfl⟩
      exact Bool.false_ne_true)
  have hfh : ∀ (x : Int) (w : List Char),
      ([dumpBlock (descFixup b) 0 x, Chunk.gen GenTag.commentOpen w]).filter isCodeChunk
        = [dumpBlock (descFixup b) 0 x] := fun _ _ => rfl
  have hft : ∀ (x y : Int) (w : List Char),
      ([dumpBlock (descFixup b) x y, Chunk.gen GenTag.protoEnd w]).filter isCodeChunk
        = [dumpBlock (descFixup b) x y] := fun _ _ _ => rfl
  have hfr : ∀ (w : List Char),
      ([Chunk.gen GenTag.retLine w]).filter isCodeChunk = [] := fun _ => rfl
  have hfm : ∀ (w : List Char),
      ([Chunk.gen GenTag.misc w]).filter isCodeChunk = [] := fun _ => rfl
  have hfcl : ∀ (w : List Char),
      ([Chunk.gen GenTag.commentClose w]).filter isCodeChunk = [] := fun _ => rfl
  constructor
  · intro hcnt
    unfold renderFlush
    rw [if_pos hlen, if_neg (by simp [hfc]), if_neg ?hc, if_neg (by simp [hp])]
    case hc =>
      intro hb
      simp only [Bool.and_eq_true, beq_iff_eq] at hb
      exact hcnt ⟨hb.1.1, hb.1.2, hb.2⟩
  · intro hcnt
    refine ⟨?_, ⟨?_, ?_⟩⟩
    · unfold renderFlush
      rw [if_pos hlen, if_neg (by simp [hfc]),
          if_pos (by simp [hcnt.1, hcnt.2.1, hcnt.2.2])]
    · rw [hPF, if_pos hp]
      exact ⟨_, rfl⟩
    · rw [hPF, if_pos hp]
      simp only [List.filter_append, hfilterDesc, hfilterArg, hfilterTodo, hfilterRv,
        hfh, hft, hfr, hfm, hfcl, List.filter_nil, List.append_nil, List.nil_append]
      split_ifs <;>
        simp only [List.filter_append, hfilterRv, hfr, hfm, List.filter_nil,
          List.append_nil, List.nil_append] <;> rfl

/-- A concrete function-classified buffer for the prototype-mode
witness. -/
def protoDemoBuf : Buf :=
  { data := ("f(a)\x7bx;\x7d").toList,
    function := { start := 0, stop := 1, count := 1 },
    arglist := { start := 1, stop := 4, count := 1 },
    body := { start := 4, stop := 8, count := 1 } }

/-- Witness for C9 at a concrete buffer. -/
theorem protoMode_flush_witness :
    (({ onlyPrototypes := true } : Options).onlyPrototypes = true
      ∧ 0 < protoDemoBuf.data.length ∧ protoDemoBuf.fileComment = false)
    ∧ ((¬(protoDemoBuf.function.count = 1 ∧ protoDemoBuf.arglist.count = 1
            ∧ protoDemoBuf.body.count = 1) →
          renderFlush { onlyPrototypes := true } protoDemoBuf = [])
       ∧ ((protoDemoBuf.function.count = 1 ∧ protoDemoBuf.arglist.count = 1
            ∧ protoDemoBuf.body.count = 1) →
          renderFlush { onlyPrototypes := true } protoDemoBuf
            = processFunction { onlyPrototypes := true } protoDemoBuf
          ∧ (∃ front, processFunction { onlyPrototypes := true } protoDemoBuf = front
              ++ [dumpBlock (descFixup protoDemoBuf) (descFixup protoDemoBuf).description.stop
                    (descFixup protoDemoBuf).arglist.stop,
                  Chunk.gen GenTag.protoEnd ((";\n\n").toList)])
          ∧ (processFunction { onlyPrototypes := true } protoDemoBuf).filter isCodeChunk
              = [dumpBlock (descFixup protoDemoBuf) 0 (descFixup protoDemoBuf).description.start,
                 dumpBlock (descFixup protoDemoBuf) (descFixup protoDemoBuf).description.stop
                   (descFixup protoDemoBuf).arglist.stop])) :=
  ⟨⟨by decide, by decide, by decide⟩,
   protoMode_flush { onlyPrototypes := true } protoDemoBuf (by decide) (by decide) (by decide)⟩


/-! ## Claims C1 and C4: the run invariant of `processFile` -/

/-- Is a position `p` of the input covered by one of the verbatim code
chunks of an output stream? -/
def coveredB (out : List Chunk) (p : Nat) : Bool :=
  out.any fun ch =>
    match ch with
    | Chunk.code lo hi _ => decide (lo ≤ p ∧ p < hi)
    | _ => false

/-- Walk an output stream checking that the verbatim code chunks carry
ordered, non-overlapping input ranges starting at or after `p`; returns
the end of the last range. -/
def chainFrom (p : Nat) : List Chunk → Option Nat
  | [] => some p
  | Chunk.code lo hi _ :: rest => if p ≤ lo ∧ lo ≤ hi then chainFrom hi rest else none
  | _ :: rest => chainFrom p rest

/-- The tag list marks position `p` as comment text. -/
def TagAt (tg : List Bool) (p : Nat) : Prop := tg.getD p false = true

/-- The state-machine invariant behind the range-bookkeeping claim:
between two loop iterations no flush is pending, a C++-style comment is
a comment, the file-comment flag only lives inside a depth-zero comment,
the `body` range has not been captured (its capture is flushed within
the same iteration), and the `description` range is captured at most
once, in order, inside the accumulated text, with its start inside the
text for the duration of a depth-zero comment. -/
structure InvA (st : PState) : Prop where
  dflush : st.doFlush = false
  cppSub : st.inCppComment = true → st.inComment = true
  fcCom : st.buf.fileComment = true → st.inComment = true
  fcDep : st.buf.fileComment = true → st.depthCurly = 0
  atModes : st.atStart = true →
    st.isLiteral = false ∧ st.inComment = false ∧ st.inCppComment = false
    ∧ st.inPreprocessor = false ∧ st.inSingleQuotes = false ∧ st.inDoubleQuotes = false
  atDep : st.atStart = true → st.depthCurly = 0
  bcnt : st.buf.body.count = 0
  dcnt : st.buf.description.count ≤ 1
  dOrd : st.buf.description.count = 1 →
    st.buf.description.start ≤ st.buf.description.stop
  dStop : st.buf.description.count = 1 →
    st.buf.description.stop ≤ (st.buf.data.length : Int)
  comZero : st.inComment = true → st.depthCurly = 0 → st.buf.description.count = 0
  comStart : st.inComment = true → st.depthCurly = 0 →
    st.buf.description.start ≤ (st.buf.data.length : Int)

/-- The buffer part of the content-preservation invariant, relative to
the original input and the comment-tag list: the tag list counts the
consumed characters, the accumulated text is the input slice starting
at `base`, the code chunks written so far form an ordered chain ending
at or before `base`, each one byte-identical to its input slice, every
consumed position neither output nor still buffered is comment text,
and the captured description range and a pending file comment cover only
comment text. -/
structure BufInv (input : List Char) (tg : List Bool) (b : Buf) : Prop where
  tlen : tg.length = b.base + b.data.length
  slice : b.data = (input.take (b.base + b.data.length)).drop b.base
  chain : ∃ e, chainFrom 0 b.out = some e ∧ e ≤ b.base
  bytes : ∀ lo hi bs, Chunk.code lo hi bs ∈ b.out → bs = (input.take hi).drop lo
  missed : ∀ p, p < b.base → coveredB b.out p = false → TagAt tg p
  dTag : b.description.count = 1 → ∀ i, i < b.data.length →
    b.description.start ≤ (i : Int) → (i : Int) < b.description.stop →
    TagAt tg (b.base + i)
  fcTag : b.fileComment = true → ∀ i, i < b.data.length → TagAt tg (b.base + i)

/-- The full content-preservation invariant on a machine state: the
buffer invariant, plus: while inside a depth-zero comment, everything
from the recorded description start on is comment text. -/
structure StInv (input : List Char) (tg : List Bool) (st : PState) : Prop where
  bi : BufInv input tg st.buf
  comTag : st.inComment = true → st.depthCurly = 0 → ∀ i, i < st.buf.data.length →
    st.buf.description.start ≤ (i : Int) → TagAt tg (st.buf.base + i)

set_option maxRecDepth 8000 in
/-- C4, counterexample: on `int (*fp)(int);` the second depth-zero `(`
(of the parameter list, after the parenthesized declarator `(*fp)`)
increments `function.count` a second time with no flush in between
(`base = 0` shows the accumulation cycle that started at the first
character is still running), so a range capture count does exceed 1
within one accumulation cycle. -/
theorem function_count_twice_counter :
    (runUpTo {} (("int (*fp)(int);").toList) 10).buf.function.count = 2
    ∧ (runUpTo {} (("int (*fp)(int);").toList) 10).buf.base = 0 := by
  decide


/-! ### Chain, coverage and slice toolbox -/

theorem chainFrom_append (l1 l2 : List Chunk) : ∀ p : Nat,
    chainFrom p (l1 ++ l2) = (chainFrom p l1).bind fun e => chainFrom e l2 := by
  induction l1 with
  | nil => intro p; rfl
  | cons ch rest ih =>
    intro p
    cases ch with
    | code lo hi bs =>
      simp only [List.cons_append, chainFrom]
      split_ifs
      · exact ih hi
      · rfl
    | comm bs => simpa only [List.cons_append, chainFrom] using ih p
    | gen t bs => simpa only [List.cons_append, chainFrom] using ih p

theorem chainFrom_mono (l : List Chunk) : ∀ p e : Nat, chainFrom p l = some e → p ≤ e := by
  induction l with
  | nil =>
    intro p e h
    simp only [chainFrom, Option.some.injEq] at h
    omega
  | cons ch rest ih =>
    intro p e h
    cases ch with
    | code lo hi bs =>
      simp only [chainFrom] at h
      split_ifs at h with hc
      · exact le_trans (le_trans hc.1 hc.2) (ih hi e h)
    | comm bs => exact ih p e h
    | gen t bs => exact ih p e h

theorem chainFrom_nonCode (l : List Chunk) (hl : ∀ ch ∈ l, isCodeChunk ch = false) :
    ∀ p : Nat, chainFrom p l = some p := by
  induction l with
  | nil => intro p; rfl
  | cons ch rest ih =>
    intro p
    cases ch with
    | code lo hi bs => exact absurd (hl _ (List.mem_cons_self _ _)) (by simp [isCodeChunk])
    | comm bs => exact ih (fun c hc => hl c (List.mem_cons_of_mem _ hc)) p
    | gen t bs => exact ih (fun c hc => hl c (List.mem_cons_of_mem _ hc)) p

theorem coveredB_append (l1 l2 : List Chunk) (p : Nat) :
    coveredB (l1 ++ l2) p = (coveredB l1 p || coveredB l2 p) := by
  simp [coveredB, List.any_append]

theorem coveredB_nonCode (l : List Chunk) (hl : ∀ ch ∈ l, isCodeChunk ch = false)
    (p : Nat) : coveredB l p = false := by
  simp only [coveredB, List.any_eq_false]
  intro ch hch
  have := hl ch hch
  cases ch with
  | code lo hi bs => simp [isCodeChunk] at this
  | comm bs => simp
  | gen t bs => simp

theorem chainFrom_not_covered (l : List Chunk) : ∀ p e q : Nat, chainFrom p l = some e →
    e ≤ q → coveredB l q = false := by
  induction l with
  | nil => intro p e q _ _; rfl
  | cons ch rest ih =>
    intro p e q h hq
    cases ch with
    | code lo hi bs =>
      simp only [chainFrom] at h
      split_ifs at h with hc
      have hhi : hi ≤ e := chainFrom_mono rest hi e h
      have : coveredB rest q = false := ih hi e q h hq
      simp only [coveredB, List.any_cons] at this ⊢
      simp only [this, Bool.or_false]
      simp only [decide_eq_false_iff_not]
      omega
    | comm bs =>
      simp only [chainFrom] at h
      simpa only [coveredB, List.any_cons, Bool.false_or] using ih p e q h hq
    | gen t bs =>
      simp only [chainFrom] at h
      simpa only [coveredB, List.any_cons, Bool.false_or] using ih p e q h hq

theorem tagAt_append (tg l : List Bool) (p : Nat) (hp : p < tg.length)
    (h : TagAt tg p) : TagAt (tg ++ l) p := by
  unfold TagAt at h ⊢
  rwa [List.getD_eq_getElem?_getD, List.getElem?_append_left hp,
    ← List.getD_eq_getElem?_getD]

theorem tagAt_last (tg : List Bool) : TagAt (tg ++ [true]) tg.length := by
  unfold TagAt
  rw [List.getD_eq_getElem?_getD, List.getElem?_append_right (le_refl _)]
  simp

theorem boilerChunks_nonCode (cfg : Options) :
    ∀ ch ∈ boilerChunks cfg, isCodeChunk ch = false := by
  intro ch hch
  unfold boilerChunks at hch
  rcases hob : cfg.boilerplate with _ | bp <;> rw [hob] at hch
  · exact absurd hch (List.not_mem_nil ch)
  · rw [List.mem_singleton] at hch
    subst hch
    rfl

theorem newFileComment_nonCode (cfg : Options) :
    ∀ ch ∈ newFileComment cfg, isCodeChunk ch = false := by
  intro ch hch
  unfold newFileComment at hch
  simp only [List.mem_append, List.mem_cons, List.not_mem_nil, or_false] at hch
  rcases hch with ((h | h) | h) | h | h
  · subst h; rfl
  · subst h; rfl
  · exact boilerChunks_nonCode cfg ch h
  · subst h; rfl
  · subst h; rfl

theorem drop_take_self (l : List Char) (n : Nat) : (l.take n).drop n = [] := by
  apply List.drop_eq_nil_of_le
  exact List.length_take_le n l

theorem drop_cons_length (l rest : List Char) (c : Char) (k : Nat)
    (h : l.drop k = c :: rest) : k < l.length := by
  by_contra hk
  rw [List.drop_eq_nil_of_le (by omega)] at h
  exact List.cons_ne_nil c rest h.symm

theorem slice_take (input : List Char) (b n g : Nat) (hg : g ≤ n) :
    ((input.take (b + n)).drop b).take g = (input.take (b + g)).drop b := by
  rw [List.take_drop, List.take_take]
  have hmin : (b + g) ⊓ (b + n) = b + g := by omega
  rw [hmin]

theorem slice_drop (input : List Char) (b n g : Nat) :
    ((input.take (b + n)).drop b).drop g = (input.take (b + n)).drop (b + g) := by
  rw [List.drop_drop]

theorem slice_extend (input rest : List Char) (c : Char) (b n : Nat)
    (hb : b ≤ n) (h : input.drop n = c :: rest) :
    (input.take n).drop b ++ [c] = (input.take (n + 1)).drop b := by
  have hn : n < input.length := drop_cons_length input rest c n h
  have hc : input[n] = c := by
    have h2 := List.drop_eq_getElem_cons hn
    rw [h] at h2
    exact (List.cons.injEq _ _ _ _ ▸ h2).1.symm
  rw [List.take_succ]
  rw [List.getElem?_eq_getElem hn]
  simp only [Option.toList_some]
  rw [List.drop_append_of_le_length (by rw [List.length_take]; omega)]
  try rw [hc]


/-! ### Transport helpers for the buffer invariant -/

theorem bufInv_of_eqs (input : List Char) (tg : List Bool) (b b' : Buf)
    (hd : b'.data = b.data) (hb : b'.base = b.base) (ho : b'.out = b.out)
    (hde : b'.description = b.description) (hf : b'.fileComment = b.fileComment)
    (h : BufInv input tg b) : BufInv input tg b' := by
  refine ⟨?_, ?_, ?_, ?_, ?_, ?_, ?_⟩
  · simp only [hd, hb]; exact h.tlen
  · simp only [hd, hb]; exact h.slice
  · simp only [ho, hb]; exact h.chain
  · simp only [ho]; exact h.bytes
  · simp only [ho, hb]; exact h.missed
  · simp only [hde, hd, hb]; exact h.dTag
  · simp only [hf, hd, hb]; exact h.fcTag

theorem bufInv_desc (input : List Char) (tg : List Bool) (b : Buf) (de : Range)
    (h : BufInv input tg b)
    (hdT : de.count = 1 → ∀ i, i < b.data.length → de.start ≤ (i : Int) →
      (i : Int) < de.stop → TagAt tg (b.base + i)) :
    BufInv input tg { b with description := de } :=
  ⟨h.tlen, h.slice, h.chain, h.bytes, h.missed, hdT, h.fcTag⟩

theorem bufInv_fcFalse (input : List Char) (tg : List Bool) (b : Buf)
    (h : BufInv input tg b) : BufInv input tg { b with fileComment := false } :=
  ⟨h.tlen, h.slice, h.chain, h.bytes, h.missed, h.dTag,
    fun hf => absurd hf (by simp)⟩

theorem processFileComment_nonCode (cfg : Options) (b : Buf) :
    ∀ ch ∈ processFileComment cfg b, isCodeChunk ch = false := by
  intro ch hch
  unfold processFileComment at hch
  simp only [List.mem_append, List.mem_cons, List.not_mem_nil, or_false] at hch
  rcases hch with ((h | h | h) | h) | h
  · subst h; rfl
  · subst h; rfl
  · subst h; rfl
  · exact boilerChunks_nonCode cfg ch h
  · subst h; rfl

theorem decomp_general (d1 g gc d2 : Chunk) (D A R T : List Chunk) :
    [d1, g] ++ D ++ A ++ R ++ T ++ [gc] ++ [d2]
      = d1 :: ((g :: (D ++ A ++ R ++ T ++ [gc])) ++ [d2]) := by
  simp [List.append_assoc]

/-- In normal (non-prototype) mode the function renderer emits exactly
two verbatim code chunks — the text before the description range and the
text from the end of the description range on — around a run of
generated or re-wrapped comment chunks. -/
theorem processFunction_decomp (cfg : Options) (b0 : Buf)
    (hp : cfg.onlyPrototypes = false) :
    ∃ mid : List Chunk, (∀ ch ∈ mid, isCodeChunk ch = false) ∧
      processFunction cfg b0 =
        dumpBlock (descFixup b0) 0 (descFixup b0).description.start
          :: (mid ++ [dumpBlock (descFixup b0) (descFixup b0).description.stop
                       (((descFixup b0).data.length : Int))]) := by
  unfold processFunction
  dsimp only
  simp only [hp, Bool.false_eq_true, if_false]
  rw [decomp_general]
  refine ⟨_, ?_, rfl⟩
  intro ch hch
  simp only [List.mem_cons, List.mem_append, List.not_mem_nil, or_false] at hch
  rcases hch with h | (((hD | hA) | hR) | hT) | h
  · subst h; rfl
  · exact (processDescription_shape (descFixup b0) ch hD).1
  · exact (processArgList_shape (descFixup b0) ch hA).1
  · revert hR
    split_ifs
    · intro hR; exact absurd hR (List.not_mem_nil ch)
    · intro hR
      simp only [List.mem_append, List.mem_cons, List.not_mem_nil, or_false] at hR
      rcases hR with (h | h) | h
      · subst h; rfl
      · obtain ⟨r, _, h⟩ := List.mem_map.mp h
        subst h; rfl
      · subst h; rfl
  · obtain ⟨t, _, h⟩ := List.mem_map.mp hT
    subst h; rfl
  · subst h; rfl


/-! ### The flush step preserves the content invariant -/

theorem clampLo_le (b : Buf) (s : Int) : clampLo b s ≤ b.data.length :=
  Nat.min_le_right _ _

theorem clampLo_zero (b : Buf) : clampLo b (0 : Int) = 0 := by
  unfold clampLo
  simp

theorem clampHi_len (b : Buf) (s : Int) :
    clampHi b s ((b.data.length : Int)) = b.data.length := by
  unfold clampHi
  have h1 : ((max ((b.data.length : Int)) 0).toNat) = b.data.length := by omega
  rw [h1, Nat.min_self]
  exact Nat.max_eq_left (clampLo_le b s)

theorem clampHi_zero (b : Buf) (e : Int) :
    clampHi b (0 : Int) e = min (max e 0).toNat b.data.length := by
  unfold clampHi
  rw [clampLo_zero]
  exact Nat.max_eq_left (Nat.zero_le _)

theorem coveredB_cons_code (lo hi : Nat) (bs : List Char) (rest : List Chunk) (p : Nat) :
    coveredB (Chunk.code lo hi bs :: rest) p
      = (decide (lo ≤ p ∧ p < hi) || coveredB rest p) := rfl

theorem coveredB_singleton_code (lo hi : Nat) (bs : List Char) (p : Nat) :
    coveredB [Chunk.code lo hi bs] p = decide (lo ≤ p ∧ p < hi) := by
  simp [coveredB]

set_option maxHeartbeats 1000000 in
/-- Flushing preserves the buffer part of the content invariant (in
normal mode): the rendered chunks extend the ordered code chain to the
new base, stay byte-identical to their input slices, and every consumed
position they do not re-emit is comment text. -/
theorem flush_B (cfg : Options) (input : List Char) (tg : List Bool) (b : Buf)
    (hp : cfg.onlyPrototypes = false) (hbi : BufInv input tg b)
    (hdcnt : b.description.count ≤ 1)
    (hdOrd : b.description.count = 1 → b.description.start ≤ b.description.stop) :
    BufInv input tg (flushBuffer cfg b) := by
  obtain ⟨e, hch, he⟩ := hbi.chain
  have hrender : (∃ e', chainFrom e (renderFlush cfg b) = some e'
        ∧ e' ≤ b.base + b.data.length)
      ∧ (∀ lo hi bs, Chunk.code lo hi bs ∈ renderFlush cfg b →
          bs = (input.take hi).drop lo)
      ∧ (∀ p, b.base ≤ p → p < b.base + b.data.length →
          coveredB (renderFlush cfg b) p = false → TagAt tg p) := by
    unfold renderFlush
    by_cases hlen : 0 < b.data.length
    · rw [if_pos hlen]
      by_cases hfc : b.fileComment = true
      · rw [if_pos hfc]
        refine ⟨⟨e, chainFrom_nonCode _ (processFileComment_nonCode cfg b) e,
          by omega⟩, ?_, ?_⟩
        · intro lo hi bs hm
          have := processFileComment_nonCode cfg b _ hm
          simp [isCodeChunk] at this
        · intro p hp1 hp2 _
          have h3 := hbi.fcTag hfc (p - b.base) (by omega)
          have h4 : b.base + (p - b.base) = p := by omega
          rwa [h4] at h3
      · rw [if_neg hfc]
        by_cases hfn : (b.function.count == 1 && b.arglist.count == 1
            && b.body.count == 1) = true
        · rw [if_pos hfn]
          obtain ⟨mid, hmid, hdec⟩ := processFunction_decomp cfg b hp
          have hfs := descFixup_skel b
          have hcases : b.description.count = 0 ∨ b.description.count = 1 := by omega
          have hordBB : (descFixup b).description.start
              ≤ (descFixup b).description.stop := by
            rcases hcases with h0 | h1
            · unfold descFixup
              rw [if_pos (by simp [h0])]
            · unfold descFixup
              rw [if_neg (by simp [h1])]
              exact hdOrd h1
          have hdTagBB : ∀ i : Nat, i < b.data.length →
              (descFixup b).description.start ≤ (i : Int) →
              (i : Int) < (descFixup b).description.stop →
              TagAt tg (b.base + i) := by
            rcases hcases with h0 | h1
            · unfold descFixup
              rw [if_pos (by simp [h0])]
              intro i _ hgs hgt
              exact absurd (lt_of_le_of_lt hgs hgt) (lt_irrefl _)
            · unfold descFixup
              rw [if_neg (by simp [h1])]
              exact hbi.dTag h1
          rw [hdec]
          have hdlen : (descFixup b).data.length = b.data.length := by rw [hfs.1]
          have hdbase : (descFixup b).base = b.base := hfs.2.1
          set bb := descFixup b with hbb
          set ds := bb.description.start with hds
          set dt := bb.description.stop with hdt
          have hH1 : clampHi bb 0 ds = min (max ds 0).toNat b.data.length := by
            rw [clampHi_zero, hdlen]
          have hL2 : clampLo bb dt = min (max dt 0).toNat b.data.length := by
            unfold clampLo
            rw [hdlen]
          have hH2 : clampHi bb dt ((bb.data.length : Int)) = b.data.length := by
            rw [clampHi_len, hdlen]
          have hmono : clampHi bb 0 ds ≤ clampLo bb dt := by
            rw [hH1, hL2]
            have := hordBB
            omega
          have hH1le : clampHi bb 0 ds ≤ b.data.length := by
            rw [hH1]
            exact Nat.min_le_right _ _
          refine ⟨?_, ?_, ?_⟩
          · refine ⟨b.base + b.data.length, ?_, le_refl _⟩
            simp only [dumpBlock, chainFrom]
            rw [if_pos ⟨by rw [clampLo_zero, hdbase]; omega,
              by rw [clampLo_zero]; exact Nat.add_le_add_left (Nat.zero_le _) _⟩]
            rw [chainFrom_append, chainFrom_nonCode mid hmid]
            simp only [Option.some_bind, chainFrom]
            rw [if_pos ⟨Nat.add_le_add_left hmono _,
              by rw [hH2, ← hdlen]; exact Nat.add_le_add_left (clampLo_le bb dt) _⟩]
            rw [hdbase, hH2]
          · intro lo hi bs hm
            simp only [List.mem_cons, List.mem_append, List.mem_singleton,
              List.not_mem_nil, or_false] at hm
            rcases hm with h | h | h
            · simp only [dumpBlock, Chunk.code.injEq] at h
              obtain ⟨hlo, hhi, hbs⟩ := h
              subst hlo hhi
              rw [hbs]
              unfold sliceBytes
              rw [clampLo_zero, List.drop_zero, Nat.add_zero, hfs.1, hdbase]
              rw [hbi.slice, slice_take input b.base b.data.length _ hH1le]
            · have := hmid _ h
              simp [isCodeChunk] at this
            · simp only [dumpBlock, Chunk.code.injEq] at h
              obtain ⟨hlo, hhi, hbs⟩ := h
              subst hlo hhi
              rw [hbs]
              unfold sliceBytes
              rw [hH2, hfs.1, hdbase, List.take_length]
              rw [hbi.slice, slice_drop]
              rw [← hbi.slice]
          · intro p hp1 hp2 hcov
            simp only [dumpBlock] at hcov
            rw [coveredB_cons_code] at hcov
            rw [Bool.or_eq_false_iff] at hcov
            obtain ⟨h1, h2⟩ := hcov
            rw [coveredB_append, Bool.or_eq_false_iff] at h2
            obtain ⟨_, h3⟩ := h2
            rw [coveredB_singleton_code] at h3
            rw [decide_eq_false_iff_not] at h1 h3
            rw [clampLo_zero, hdbase, hH1] at h1
            rw [hdbase, hL2, hH2] at h3
            have hilen : p - b.base < b.data.length := by omega
            have hdsle : ds ≤ ((p - b.base : Nat) : Int) := by omega
            have hdtgt : ((p - b.base : Nat) : Int) < dt := by omega
            have h4 := hdTagBB (p - b.base) hilen hdsle hdtgt
            have h5 : b.base + (p - b.base) = p := by omega
            rwa [h5] at h4
        · rw [if_neg hfn]
          rw [show (!cfg.onlyPrototypes) = true by rw [hp]; rfl, if_pos rfl]
          refine ⟨?_, ?_, ?_⟩
          · refine ⟨b.base + b.data.length, ?_, le_refl _⟩
            simp only [dumpBlock, chainFrom]
            rw [if_pos ⟨by rw [clampLo_zero]; omega,
              by rw [clampLo_zero]; exact Nat.add_le_add_left (Nat.zero_le _) _⟩]
            rw [clampHi_len]
          · intro lo hi bs hm
            rw [List.mem_singleton] at hm
            simp only [dumpBlock, Chunk.code.injEq] at hm
            obtain ⟨hlo, hhi, hbs⟩ := hm
            subst hlo hhi
            rw [hbs]
            unfold sliceBytes
            rw [clampLo_zero, List.drop_zero, Nat.add_zero, clampHi_len,
              List.take_length]
            exact hbi.slice
          · intro p hp1 hp2 hcov
            simp only [dumpBlock] at hcov
            rw [coveredB_singleton_code, decide_eq_false_iff_not] at hcov
            rw [clampLo_zero, clampHi_len] at hcov
            exact absurd ⟨by omega, by omega⟩ hcov
    · rw [if_neg hlen]
      refine ⟨⟨e, rfl, by omega⟩, ?_, ?_⟩
      · intro lo hi bs hm
        exact absurd hm (List.not_mem_nil _)
      · intro p hp1 hp2 _
        omega
  obtain ⟨⟨e', hch', he'⟩, hby', hms'⟩ := hrender
  refine ⟨?_, ?_, ?_, ?_, ?_, ?_, ?_⟩
  · simp only [flushBuffer_base, flushBuffer_data, List.length_nil, Nat.add_zero]
    exact hbi.tlen
  · simp only [flushBuffer_base, flushBuffer_data, List.length_nil, Nat.add_zero]
    exact (drop_take_self input (b.base + b.data.length)).symm
  · refine ⟨e', ?_, ?_⟩
    · rw [flushBuffer_out, chainFrom_append, hch, Option.some_bind]
      exact hch'
    · rw [flushBuffer_base]
      exact he'
  · intro lo hi bs hm
    rw [flushBuffer_out] at hm
    rcases List.mem_append.mp hm with h | h
    · exact hbi.bytes lo hi bs h
    · exact hby' lo hi bs h
  · intro p hpB hcov
    rw [flushBuffer_out, coveredB_append] at hcov
    rw [flushBuffer_base] at hpB
    simp only [Bool.or_eq_false_iff] at hcov
    by_cases hpb : p < b.base
    · exact hbi.missed p hpb hcov.1
    · exact hms' p (by omega) hpB hcov.2
  · intro h1
    rw [flushBuffer_description] at h1
    exact absurd h1 (by decide)
  · intro _ i hi
    rw [flushBuffer_data] at hi
    exact absurd hi (by simp)


/-! ### The per-iteration transfer property of the state-machine dispatch -/

/-- What one dispatch of the state machine (`stateMachine`, before the
file-start check, `emitChar` and the deferred flush of the same loop
iteration) guarantees, starting from a state satisfying the run
invariant.  `st'` is the dispatch result; the fields either carry the
invariant through or record the mid-iteration exceptions (a pending
flush, a description range closed one past the text until the closing
character is appended, the file-start bookkeeping). -/
structure MidA (cfg : Options) (input : List Char) (st : PState) (c : Char)
    (st' : PState) : Prop where
  stAt : st'.atStart = st.atStart
  stTags : st'.tags = st.tags
  cppSub : st'.inCppComment = true → st'.inComment = true
  fcSrc : st'.buf.fileComment = true → st.inComment = true
  fcCom : st'.buf.fileComment = true → st'.inComment = true ∨ st'.doFlush = true
  fcDep : st'.buf.fileComment = true → st'.depthCurly = 0
  bcnt : st'.buf.body.count = 0 ∨ st'.doFlush = true
  dcnt : st'.buf.description.count ≤ 1
  dOrd : st'.buf.description.count = 1 →
    st'.buf.description.start ≤ st'.buf.description.stop
  dStop : st'.buf.description.count = 1 →
    st'.buf.description.stop ≤ (st'.buf.data.length : Int) + 1
  dNew : st'.buf.description.count = 1 →
    (st'.buf.data.length : Int) < st'.buf.description.stop → st.inComment = true
  comZero : st'.inComment = true → st'.depthCurly = 0 →
    st'.buf.description.count = 0
  comStart : st'.inComment = true → st'.depthCurly = 0 →
    st'.buf.description.start ≤ (st'.buf.data.length : Int)
  atCom : st.atStart = true → st'.inComment = true → st'.depthCurly = 0
  atFcData : st.atStart = true → st'.inComment = true → st'.buf.data = []
  atNoFlush : st.atStart = true → st'.inComment = true → st'.doFlush = false
  atSpace : st.atStart = true → isSpaceChar c = true →
    st' = st ∨ st' = { st with isChar1 := true }
  invB : cfg.onlyPrototypes = false → StInv input st.tags st →
    StInv input st.tags st'

/-- Build the transfer property for a dispatch branch that leaves the
invariant-relevant buffer fields untouched. -/
theorem midA_neutral (cfg : Options) (input : List Char) (st : PState) (c : Char)
    (st' : PState) (hA : InvA st)
    (hat : st'.atStart = st.atStart) (htg : st'.tags = st.tags)
    (hd : st'.buf.data = st.buf.data) (hb : st'.buf.base = st.buf.base)
    (ho : st'.buf.out = st.buf.out)
    (hde : st'.buf.description = st.buf.description)
    (hbc : st'.buf.body.count = 0 ∨ st'.doFlush = true)
    (hf : st'.buf.fileComment = st.buf.fileComment)
    (hcpp : st'.inCppComment = true → st'.inComment = true)
    (hfcCom : st'.buf.fileComment = true → st'.inComment = true ∨ st'.doFlush = true)
    (hfcDep : st'.buf.fileComment = true → st'.depthCurly = 0)
    (hct : st'.inComment = true → st'.depthCurly = 0 →
      st.inComment = true ∧ st.depthCurly = 0)
    (hatc : st.atStart = true → st'.inComment = true →
      st'.depthCurly = 0 ∧ st'.buf.data = [] ∧ st'.doFlush = false)
    (hsp : st.atStart = true → isSpaceChar c = true →
      st' = st ∨ st' = { st with isChar1 := true }) :
    MidA cfg input st c st' where
  stAt := hat
  stTags := htg
  cppSub := hcpp
  fcSrc := fun h => hA.fcCom (hf ▸ h)
  fcCom := hfcCom
  fcDep := hfcDep
  bcnt := hbc
  dcnt := by rw [hde]; exact hA.dcnt
  dOrd := by rw [hde]; exact hA.dOrd
  dStop := by
    rw [hde, hd]
    intro h1
    have := hA.dStop h1
    omega
  dNew := by
    rw [hde, hd]
    intro h1 h2
    have := hA.dStop h1
    omega
  comZero := fun h1 h2 => by
    rw [hde]
    exact hA.comZero (hct h1 h2).1 (hct h1 h2).2
  comStart := fun h1 h2 => by
    rw [hde, hd]
    exact hA.comStart (hct h1 h2).1 (hct h1 h2).2
  atCom := fun ha h1 => (hatc ha h1).1
  atFcData := fun ha h1 => (hatc ha h1).2.1
  atNoFlush := fun ha h1 => (hatc ha h1).2.2
  atSpace := hsp
  invB := fun _ hB =>
    ⟨bufInv_of_eqs input st.tags st.buf st'.buf hd hb ho hde hf hB.bi,
     fun h1 h2 i hi hs => by
       rw [hb]
       exact hB.comTag (hct h1 h2).1 (hct h1 h2).2 i (by rwa [hd] at hi)
         (by rwa [hde] at hs)⟩

/-- The transfer property when the dispatch leaves the state unchanged. -/
theorem midA_self (cfg : Options) (input : List Char) (st : PState) (c : Char)
    (hA : InvA st) : MidA cfg input st c st := by
  refine midA_neutral cfg input st c st hA rfl rfl rfl rfl rfl rfl
    (Or.inl hA.bcnt) rfl hA.cppSub (fun h => Or.inl (hA.fcCom h)) hA.fcDep
    (fun h1 h2 => ⟨h1, h2⟩) ?_ (fun _ _ => Or.inl rfl)
  intro ha h1
  exact absurd h1 (by simp [(hA.atModes ha).2.1])


/-- The closed-description buffer update satisfies the buffer invariant:
the newly captured description range covers only comment text. -/
theorem bufInv_close (input : List Char) (tg : List Bool) (st : PState)
    (hB : StInv input tg st) (hc : st.inComment = true) (hdc0 : st.depthCurly = 0)
    (stopV : Int) :
    BufInv input tg { st.buf with
      description := { st.buf.description with
        stop := stopV,
        count := st.buf.description.count + 1 } } :=
  bufInv_desc input tg st.buf _ hB.bi
    (fun _ i hi hs _ => hB.comTag hc hdc0 i hi hs)

/-- Transfer property for the depth-zero comment-open branch: the buffer
is flushed and the description start pinned to the (empty) new
accumulation. -/
theorem midA_open0 (cfg : Options) (input : List Char) (st : PState) (c : Char)
    (hA : InvA st) (v : Bool) (hdc0 : st.depthCurly = 0)
    (hcs : isSpaceChar c = false) :
    MidA cfg input st c
      { st with
          inComment := true,
          inCppComment := v,
          buf := { flushBuffer cfg st.buf with
            description := { (flushBuffer cfg st.buf).description with
              start := ((flushBuffer cfg st.buf).data.length : Int) } } } := by
  refine ⟨rfl, rfl, fun _ => rfl, ?_, fun _ => Or.inl rfl, fun _ => hdc0, ?_, ?_,
    ?_, ?_, ?_, ?_, ?_, fun _ _ => hdc0, ?_, ?_, ?_, ?_⟩
  · intro h
    exact hA.fcCom h
  · exact Or.inl rfl
  · exact Nat.le_succ 0
  · intro h1
    simp [flushBuffer_description] at h1
  · intro h1
    simp [flushBuffer_description] at h1
  · intro h1
    simp [flushBuffer_description] at h1
  · intro _ _
    rfl
  · intro _ _
    exact le_refl _
  · intro _ _
    exact flushBuffer_data cfg st.buf
  · intro _ _
    exact hA.dflush
  · intro _ hs
    exact absurd hs (by simp [hcs])
  · intro hp hB
    refine ⟨?_, ?_⟩
    · exact bufInv_desc input st.tags (flushBuffer cfg st.buf) _
        (flush_B cfg input st.tags st.buf hp hB.bi hA.dcnt hA.dOrd)
        (fun h1 => by simp [flushBuffer_description] at h1)
    · intro _ _ i hi
      simp [flushBuffer_data] at hi

/-- Transfer property for the C++-comment close at depth zero without a
pending file comment. -/
theorem midA_closeCpp (cfg : Options) (input : List Char) (st : PState) (c : Char)
    (hA : InvA st) (hc : st.inComment = true) (hdc0 : st.depthCurly = 0)
    (hfcF : st.buf.fileComment = false) :
    MidA cfg input st c
      { st with
          inCppComment := false,
          inComment := false,
          inPreprocessor := false,
          isChar1 := true,
          buf := { st.buf with
            description := { st.buf.description with
              stop := (st.buf.data.length : Int),
              count := st.buf.description.count + 1 } } } := by
  have hz := hA.comZero hc hdc0
  refine ⟨rfl, rfl, ?_, ?_, ?_, ?_, Or.inl hA.bcnt, ?_, ?_, ?_, ?_, ?_, ?_,
    ?_, ?_, ?_, ?_, ?_⟩
  · intro h
    simp at h
  · intro h
    exact absurd (show st.buf.fileComment = true from h) (by simp [hfcF])
  · intro h
    exact absurd (show st.buf.fileComment = true from h) (by simp [hfcF])
  · intro h
    exact absurd (show st.buf.fileComment = true from h) (by simp [hfcF])
  · show st.buf.description.count + 1 ≤ 1
    omega
  · intro _
    show st.buf.description.start ≤ (st.buf.data.length : Int)
    exact hA.comStart hc hdc0
  · intro _
    show (st.buf.data.length : Int) ≤ (st.buf.data.length : Int) + 1
    omega
  · intro _ _
    exact hc
  · intro h1
    simp at h1
  · intro h1
    simp at h1
  · intro ha
    exact absurd hc (by simp [(hA.atModes ha).2.1])
  · intro ha
    exact absurd hc (by simp [(hA.atModes ha).2.1])
  · intro ha
    exact absurd hc (by simp [(hA.atModes ha).2.1])
  · intro ha
    exact absurd hc (by simp [(hA.atModes ha).2.1])
  · intro _ hB
    refine ⟨bufInv_close input st.tags st hB hc hdc0 _, ?_⟩
    intro h1
    simp at h1

/-- Transfer property for the C++-comment close at depth zero with a
pending file comment: the buffer is rendered as the file header and
cleared within the dispatch itself. -/
theorem midA_closeCppFc (cfg : Options) (input : List Char) (st : PState) (c : Char)
    (hA : InvA st) (hc : st.inComment = true) (hdc0 : st.depthCurly = 0) :
    MidA cfg input st c
      { st with
          inCppComment := false,
          inComment := false,
          inPreprocessor := false,
          isChar1 := true,
          buf := { flushBuffer cfg { st.buf with
            description := { st.buf.description with
              stop := (st.buf.data.length : Int),
              count := st.buf.description.count + 1 } } with
            fileComment := false } } := by
  have hz := hA.comZero hc hdc0
  refine ⟨rfl, rfl, ?_, ?_, ?_, ?_, ?_, ?_, ?_, ?_, ?_, ?_, ?_,
    ?_, ?_, ?_, ?_, ?_⟩
  · intro h
    simp at h
  · intro h
    simp at h
  · intro h
    simp at h
  · intro h
    simp at h
  · exact Or.inl (by simp [flushBuffer_body])
  · simp [flushBuffer_description]
  · intro h1
    simp [flushBuffer_description] at h1
  · intro h1
    simp [flushBuffer_description] at h1
  · intro h1
    simp [flushBuffer_description] at h1
  · intro h1 _
    simp at h1
  · intro h1 _
    simp at h1
  · intro _ h1
    simp at h1
  · intro _ h1
    simp at h1
  · intro _ h1
    simp at h1
  · intro ha
    exact absurd hc (by simp [(hA.atModes ha).2.1])
  · intro hp hB
    refine ⟨?_, ?_⟩
    · exact bufInv_fcFalse input st.tags _
        (flush_B cfg input st.tags _ hp
          (bufInv_close input st.tags st hB hc hdc0 _)
          (by show st.buf.description.count + 1 ≤ 1; omega)
          (by intro _
              show st.buf.description.start ≤ (st.buf.data.length : Int)
              exact hA.comStart hc hdc0))
    · intro h1
      simp at h1

/-- Transfer property for the block-comment close at depth zero without
a pending file comment. -/
theorem midA_closeBlock (cfg : Options) (input : List Char) (st : PState) (c : Char)
    (hA : InvA st) (hc : st.inComment = true) (hdc0 : st.depthCurly = 0)
    (hcppF : st.inCppComment = false) (hfcF : st.buf.fileComment = false) :
    MidA cfg input st c
      { st with
          inComment := false,
          buf := { st.buf with
            description := { st.buf.description with
              stop := (st.buf.data.length : Int) + 1,
              count := st.buf.description.count + 1 } } } := by
  have hz := hA.comZero hc hdc0
  refine ⟨rfl, rfl, ?_, ?_, ?_, ?_, Or.inl hA.bcnt, ?_, ?_, ?_, ?_, ?_, ?_,
    ?_, ?_, ?_, ?_, ?_⟩
  · intro h
    exact absurd (show st.inCppComment = true from h) (by simp [hcppF])
  · intro h
    exact absurd (show st.buf.fileComment = true from h) (by simp [hfcF])
  · intro h
    exact absurd (show st.buf.fileComment = true from h) (by simp [hfcF])
  · intro h
    exact absurd (show st.buf.fileComment = true from h) (by simp [hfcF])
  · show st.buf.description.count + 1 ≤ 1
    omega
  · intro _
    show st.buf.description.start ≤ (st.buf.data.length : Int) + 1
    have := hA.comStart hc hdc0
    omega
  · intro _
    show (st.buf.data.length : Int) + 1 ≤ (st.buf.data.length : Int) + 1
    omega
  · intro _ _
    exact hc
  · intro h1
    simp at h1
  · intro h1
    simp at h1
  · intro ha
    exact absurd hc (by simp [(hA.atModes ha).2.1])
  · intro ha
    exact absurd hc (by simp [(hA.atModes ha).2.1])
  · intro ha
    exact absurd hc (by simp [(hA.atModes ha).2.1])
  · intro ha
    exact absurd hc (by simp [(hA.atModes ha).2.1])
  · intro _ hB
    refine ⟨bufInv_close input st.tags st hB hc hdc0 _, ?_⟩
    intro h1
    simp at h1

/-- Transfer property for the block-comment close at depth zero with a
pending file comment: the flush is deferred to the end of the
iteration. -/
theorem midA_closeBlockFc (cfg : Options) (input : List Char) (st : PState) (c : Char)
    (hA : InvA st) (hc : st.inComment = true) (hdc0 : st.depthCurly = 0)
    (hcppF : st.inCppComment = false) :
    MidA cfg input st c
      { st with
          inComment := false,
          doFlush := true,
          buf := { st.buf with
            description := { st.buf.description with
              stop := (st.buf.data.length : Int) + 1,
              count := st.buf.description.count + 1 } } } := by
  have hz := hA.comZero hc hdc0
  refine ⟨rfl, rfl, ?_, ?_, ?_, ?_, Or.inr rfl, ?_, ?_, ?_, ?_, ?_, ?_,
    ?_, ?_, ?_, ?_, ?_⟩
  · intro h
    exact absurd (show st.inCppComment = true from h) (by simp [hcppF])
  · intro h
    exact hA.fcCom h
  · intro _
    exact Or.inr rfl
  · intro _
    exact hdc0
  · show st.buf.description.count + 1 ≤ 1
    omega
  · intro _
    show st.buf.description.start ≤ (st.buf.data.length : Int) + 1
    have := hA.comStart hc hdc0
    omega
  · intro _
    show (st.buf.data.length : Int) + 1 ≤ (st.buf.data.length : Int) + 1
    omega
  · intro _ _
    exact hc
  · intro h1
    simp at h1
  · intro h1
    simp at h1
  · intro ha
    exact absurd hc (by simp [(hA.atModes ha).2.1])
  · intro ha
    exact absurd hc (by simp [(hA.atModes ha).2.1])
  · intro ha
    exact absurd hc (by simp [(hA.atModes ha).2.1])
  · intro ha
    exact absurd hc (by simp [(hA.atModes ha).2.1])
  · intro _ hB
    refine ⟨bufInv_close input st.tags st hB hc hdc0 _, ?_⟩
    intro h1
    simp at h1


/-! ### The dispatch preserves the transfer property, mode by mode -/

theorem sm_mid_literal (cfg : Options) (input : List Char) (st : PState) (c : Char)
    (nc : Option Char) (hA : InvA st) (hl : st.isLiteral = true) :
    MidA cfg input st c (stateMachine cfg st c nc) := by
  by_cases hp2 : ((c == '\r' && nc == some '\n') || (c == '\n' && nc == some '\r')) = true
  · have hsm : stateMachine cfg st c nc = st := by
      unfold stateMachine
      rw [hl]
      simp only [if_true, hp2, Bool.not_true, Bool.false_eq_true, if_false]
    rw [hsm]
    exact midA_self cfg input st c hA
  · have hp2' : ((c == '\r' && nc == some '\n') || (c == '\n' && nc == some '\r')) = false := by
      simpa using hp2
    have hsm : stateMachine cfg st c nc = { st with isLiteral := false } := by
      unfold stateMachine
      rw [hl]
      simp only [if_true, hp2', Bool.not_false]
    rw [hsm]
    refine midA_neutral cfg input st c _ hA rfl rfl rfl rfl rfl rfl
      (Or.inl hA.bcnt) rfl hA.cppSub (fun h => Or.inl (hA.fcCom h)) hA.fcDep
      (fun h1 h2 => ⟨h1, h2⟩) ?_ ?_
    · intro ha _
      exact absurd hl (by simp [(hA.atModes ha).1])
    · intro ha _
      exact absurd hl (by simp [(hA.atModes ha).1])

theorem sm_mid_comment (cfg : Options) (input : List Char) (st : PState) (c : Char)
    (nc : Option Char) (hA : InvA st) (hl : st.isLiteral = false)
    (hc : st.inComment = true) :
    MidA cfg input st c (stateMachine cfg st c nc) := by
  by_cases hcpp : st.inCppComment = true
  · by_cases hnl : (c == '\n' || c == '\r') = true
    · by_cases hdc : st.depthCurly = 0
      · by_cases hfc : st.buf.fileComment = true
        · have hsm : stateMachine cfg st c nc =
              { st with
                  inCppComment := false,
                  inComment := false,
                  inPreprocessor := false,
                  isChar1 := true,
                  buf := { flushBuffer cfg { st.buf with
                    description := { st.buf.description with
                      stop := (st.buf.data.length : Int),
                      count := st.buf.description.count + 1 } } with
                    fileComment := false } } := by
            unfold stateMachine
            rw [hl, hc]
            simp only [Bool.false_eq_true, if_false, if_true, hcpp]
            rw [if_pos hnl]
            simp only [hdc, beq_self_eq_true, if_true, hfc, Bool.false_eq_true]
          rw [hsm]
          exact midA_closeCppFc cfg input st c hA hc hdc
        · have hfc' : st.buf.fileComment = false := by simpa using hfc
          have hsm : stateMachine cfg st c nc =
              { st with
                  inCppComment := false,
                  inComment := false,
                  inPreprocessor := false,
                  isChar1 := true,
                  buf := { st.buf with
                    description := { st.buf.description with
                      stop := (st.buf.data.length : Int),
                      count := st.buf.description.count + 1 } } } := by
            unfold stateMachine
            rw [hl, hc]
            simp only [Bool.false_eq_true, if_false, if_true, hcpp]
            rw [if_pos hnl]
            simp only [hdc, beq_self_eq_true, if_true, hfc', Bool.false_eq_true, if_false]
          rw [hsm]
          exact midA_closeCpp cfg input st c hA hc hdc hfc'
      · have hdc' : (st.depthCurly == 0) = false := by
          simpa using hdc
        have hsm : stateMachine cfg st c nc =
            { st with
                inCppComment := false,
                inComment := false,
                inPreprocessor := false,
                isChar1 := true,
                buf := parseComment st.buf } := by
          unfold stateMachine
          rw [hl, hc]
          simp only [Bool.false_eq_true, if_false, if_true, hcpp]
          rw [if_pos hnl]
          simp only [hdc', Bool.false_eq_true, if_false]
        rw [hsm]
        have hsk := parseComment_skel st.buf
        refine midA_neutral cfg input st c _ hA rfl rfl hsk.1 hsk.2.1 hsk.2.2.1
          hsk.2.2.2.1 (Or.inl (by rw [hsk.2.2.2.2.2.2.1]; exact hA.bcnt))
          hsk.2.2.2.2.2.2.2.1 ?_ ?_ ?_ ?_ ?_ ?_
        · intro h
          simp at h
        · intro h
          rw [hsk.2.2.2.2.2.2.2.1] at h
          exact absurd (hA.fcDep h) hdc
        · intro h
          rw [hsk.2.2.2.2.2.2.2.1] at h
          exact absurd (hA.fcDep h) hdc
        · intro h1 _
          simp at h1
        · intro _ h1
          simp at h1
        · intro ha _
          exact absurd hc (by simp [(hA.atModes ha).2.1])
    · have hnl' : (c == '\n' || c == '\r') = false := by simpa using hnl
      have hsm : stateMachine cfg st c nc = st := by
        unfold stateMachine
        rw [hl, hc]
        simp only [Bool.false_eq_true, if_false, if_true, hcpp]
        rw [hnl']
        simp only [Bool.false_eq_true, if_false]
      rw [hsm]
      exact midA_self cfg input st c hA
  · have hcpp' : st.inCppComment = false := by simpa using hcpp
    by_cases hpc : (st.prevc == '*' && c == '/') = true
    · by_cases hdc : st.depthCurly = 0
      · by_cases hfc : st.buf.fileComment = true
        · have hsm : stateMachine cfg st c nc =
              { st with
                  inComment := false,
                  doFlush := true,
                  buf := { st.buf with
                    description := { st.buf.description with
                      stop := (st.buf.data.length : Int) + 1,
                      count := st.buf.description.count + 1 } } } := by
            unfold stateMachine
            rw [hl, hc]
            simp only [Bool.false_eq_true, if_false, if_true, hcpp']
            rw [if_pos hpc]
            simp only [hdc, beq_self_eq_true, if_true, hfc, Nat.cast_add, Nat.cast_one]
          rw [hsm]
          exact midA_closeBlockFc cfg input st c hA hc hdc hcpp'
        · have hfc' : st.buf.fileComment = false := by simpa using hfc
          have hsm : stateMachine cfg st c nc =
              { st with
                  inComment := false,
                  buf := { st.buf with
                    description := { st.buf.description with
                      stop := (st.buf.data.length : Int) + 1,
                      count := st.buf.description.count + 1 } } } := by
            unfold stateMachine
            rw [hl, hc]
            simp only [Bool.false_eq_true, if_false, if_true, hcpp']
            rw [if_pos hpc]
            simp only [hdc, beq_self_eq_true, if_true, hfc', Bool.false_eq_true, if_false]
          rw [hsm]
          exact midA_closeBlock cfg input st c hA hc hdc hcpp' hfc'
      · have hdc' : (st.depthCurly == 0) = false := by
          simpa using hdc
        have hsm : stateMachine cfg st c nc =
            { st with
                inComment := false,
                buf := parseComment st.buf } := by
          unfold stateMachine
          rw [hl, hc]
          simp only [Bool.false_eq_true, if_false, if_true, hcpp']
          rw [if_pos hpc]
          simp only [hdc', Bool.false_eq_true, if_false]
        rw [hsm]
        have hsk := parseComment_skel st.buf
        refine midA_neutral cfg input st c _ hA rfl rfl hsk.1 hsk.2.1 hsk.2.2.1
          hsk.2.2.2.1 (Or.inl (by rw [hsk.2.2.2.2.2.2.1]; exact hA.bcnt))
          hsk.2.2.2.2.2.2.2.1 ?_ ?_ ?_ ?_ ?_ ?_
        · intro h
          rw [hcpp'] at h
          exact absurd h (by simp)
        · intro h
          rw [hsk.2.2.2.2.2.2.2.1] at h
          exact absurd (hA.fcDep h) hdc
        · intro h
          rw [hsk.2.2.2.2.2.2.2.1] at h
          exact absurd (hA.fcDep h) hdc
        · intro h1 _
          simp at h1
        · intro _ h1
          simp at h1
        · intro ha _
          exact absurd hc (by simp [(hA.atModes ha).2.1])
    · have hpc' : (st.prevc == '*' && c == '/') = false := by simpa using hpc
      have hsm : stateMachine cfg st c nc = st := by
        unfold stateMachine
        rw [hl, hc]
        simp only [Bool.false_eq_true, if_false, if_true, hcpp']
        rw [hpc']
        simp only [Bool.false_eq_true, if_false]
      rw [hsm]
      exact midA_self cfg input st c hA


theorem sm_mid_preproc (cfg : Options) (input : List Char) (st : PState) (c : Char)
    (nc : Option Char) (hA : InvA st) (hl : st.isLiteral = false)
    (hc : st.inComment = false) (hpp : st.inPreprocessor = true) :
    MidA cfg input st c (stateMachine cfg st c nc) := by
  have hcpp2 : st.inCppComment = false := by
    cases h2 : st.inCppComment with
    | false => rfl
    | true => exact absurd (hA.cppSub h2) (by simp [hc])
  by_cases hnl : (c == '\n' || c == '\r') = true
  · by_cases hdc : st.depthCurly = 0
    · have hsm : stateMachine cfg st c nc =
          { st with inPreprocessor := false, isChar1 := true, doFlush := true } := by
        unfold stateMachine
        rw [hl, hc, hpp]
        simp only [Bool.false_eq_true, if_false, if_true]
        rw [if_pos hnl]
        simp only [hl, hcpp2, Bool.false_eq_true, if_false, hc, hdc, Bool.not_false,
          Bool.and_true, beq_self_eq_true, if_true]
      rw [hsm]
      refine midA_neutral cfg input st c _ hA rfl rfl rfl rfl rfl rfl
        (Or.inr rfl) rfl ?_ (fun _ => Or.inr rfl) (fun h => hA.fcDep h)
        ?_ ?_ ?_
      · intro h
        exact absurd h (by simp [hcpp2])
      · intro h1 _
        exact absurd h1 (by simp [hc])
      · intro ha h1
        exact absurd h1 (by simp [hc])
      · intro ha _
        exact absurd hpp (by simp [(hA.atModes ha).2.2.2.1])
    · have hsm : stateMachine cfg st c nc =
          { st with inPreprocessor := false, isChar1 := true } := by
        unfold stateMachine
        rw [hl, hc, hpp]
        simp only [Bool.false_eq_true, if_false, if_true]
        rw [if_pos hnl]
        simp only [hl, hcpp2, Bool.false_eq_true, if_false, hc, Bool.not_false,
          Bool.and_true, beq_iff_eq, hdc]
      rw [hsm]
      refine midA_neutral cfg input st c _ hA rfl rfl rfl rfl rfl rfl
        (Or.inl hA.bcnt) rfl ?_ (fun h => Or.inl (hA.fcCom h)) (fun h => hA.fcDep h)
        ?_ ?_ ?_
      · intro h
        exact absurd h (by simp [hcpp2])
      · intro h1 _
        exact absurd h1 (by simp [hc])
      · intro ha h1
        exact absurd h1 (by simp [hc])
      · intro ha _
        exact absurd hpp (by simp [(hA.atModes ha).2.2.2.1])
  · have hnl' : (c == '\n' || c == '\r') = false := by simpa using hnl
    by_cases hsl : (c == '/') = true
    · have hcc : c = '/' := by simpa using hsl
      subst hcc
      have hcs : isSpaceChar '/' = false := by decide
      rcases nc with _ | c2
      · have hsm : stateMachine cfg st '/' none = st := by
          unfold stateMachine
          rw [hl, hc, hpp]
          simp only [Bool.false_eq_true, if_false, if_true]
          rw [if_neg (by decide), if_pos (by decide)]
          rw [hc]
          simp only [Bool.false_eq_true, if_false]
        rw [hsm]
        exact midA_self cfg input st _ hA
      · by_cases h2s : (c2 == '/') = true
        · have hc2 : c2 = '/' := by simpa using h2s
          subst hc2
          by_cases hdc : st.depthCurly = 0
          · have hsm : stateMachine cfg st '/' (some '/') =
                { st with
                    inComment := true,
                    inCppComment := true,
                    buf := { flushBuffer cfg st.buf with
                      description := { (flushBuffer cfg st.buf).description with
                        start := ((flushBuffer cfg st.buf).data.length : Int) } } } := by
              unfold stateMachine
              rw [hl, hc, hpp]
              simp only [Bool.false_eq_true, if_false, if_true]
              rw [if_neg (by decide), if_pos (by decide)]
              simp only [if_true, hdc, beq_self_eq_true]
            rw [hsm]
            exact midA_open0 cfg input st '/' hA true hdc hcs
          · have hdc' : (st.depthCurly == 0) = false := by simpa using hdc
            have hsm : stateMachine cfg st '/' (some '/') =
                { st with
                    inComment := true,
                    inCppComment := true,
                    buf := { st.buf with
                      commentStart := some (st.buf.data.length : Int) } } := by
              unfold stateMachine
              rw [hl, hc, hpp]
              simp only [Bool.false_eq_true, if_false, if_true]
              rw [if_neg (by decide), if_pos (by decide)]
              simp only [if_true, hdc', Bool.false_eq_true, if_false]
            rw [hsm]
            refine midA_neutral cfg input st _ _ hA rfl rfl rfl rfl rfl rfl
              (Or.inl hA.bcnt) rfl (fun _ => rfl) (fun _ => Or.inl rfl) ?_ ?_ ?_ ?_
            · intro h
              exact absurd (hA.fcDep h) hdc
            · intro _ h2
              exact absurd h2 hdc
            · intro ha _
              exact absurd (hA.atDep ha) hdc
            · intro _ hs
              exact absurd hs (by simp [hcs])
        · by_cases h2t : (c2 == '*') = true
          · have hc2 : c2 = '*' := by simpa using h2t
            subst hc2
            by_cases hdc : st.depthCurly = 0
            · have hsm : stateMachine cfg st '/' (some '*') =
                  { st with
                      inComment := true,
                      buf := { flushBuffer cfg st.buf with
                        description := { (flushBuffer cfg st.buf).description with
                          start := ((flushBuffer cfg st.buf).data.length : Int) } } } := by
                unfold stateMachine
                rw [hl, hc, hpp]
                simp only [Bool.false_eq_true, if_false, if_true]
                rw [if_neg (by decide), if_pos (by decide)]
                simp only [if_true, hdc, beq_self_eq_true]
              rw [hsm]
              exact midA_open0 cfg input st '/' hA st.inCppComment hdc hcs
            · have hdc' : (st.depthCurly == 0) = false := by simpa using hdc
              have hsm : stateMachine cfg st '/' (some '*') =
                  { st with
                      inComment := true,
                      buf := { st.buf with
                        commentStart := some (st.buf.data.length : Int) } } := by
                unfold stateMachine
                rw [hl, hc, hpp]
                simp only [Bool.false_eq_true, if_false, if_true]
                rw [if_neg (by decide), if_pos (by decide)]
                simp only [if_true, hdc', Bool.false_eq_true, if_false]
              rw [hsm]
              refine midA_neutral cfg input st _ _ hA rfl rfl rfl rfl rfl rfl
                (Or.inl hA.bcnt) rfl (fun _ => rfl) (fun _ => Or.inl rfl) ?_ ?_ ?_ ?_
              · intro h
                exact absurd (hA.fcDep h) hdc
              · intro _ h2
                exact absurd h2 hdc
              · intro ha _
                exact absurd (hA.atDep ha) hdc
              · intro _ hs
                exact absurd hs (by simp [hcs])
          · have g1 : ¬ c2 = '/' := by simpa using h2s
            have g2 : ¬ c2 = '*' := by simpa using h2t
            have hsm : stateMachine cfg st '/' (some c2) = st := by
              unfold stateMachine
              rw [hl, hc, hpp]
              simp only [Bool.false_eq_true, if_false, if_true]
              rw [if_neg (by decide), if_pos (by decide)]
              split <;> simp_all
            rw [hsm]
            exact midA_self cfg input st _ hA
    · have hsl' : (c == '/') = false := by simpa using hsl
      have hsm : stateMachine cfg st c nc = st := by
        unfold stateMachine
        rw [hl, hc, hpp]
        simp only [Bool.false_eq_true, if_false, if_true]
        rw [hnl', hsl']
        simp only [Bool.false_eq_true, if_false]
      rw [hsm]
      exact midA_self cfg input st c hA


theorem sm_mid_squote (cfg : Options) (input : List Char) (st : PState) (c : Char)
    (nc : Option Char) (hA : InvA st) (hl : st.isLiteral = false)
    (hc : st.inComment = false) (hpp : st.inPreprocessor = false)
    (hsq : st.inSingleQuotes = true) :
    MidA cfg input st c (stateMachine cfg st c nc) := by
  have hquote : ∀ st' : PState, st'.atStart = st.atStart → st'.tags = st.tags →
      st'.buf = st.buf → st'.inComment = st.inComment →
      st'.inCppComment = st.inCppComment → st'.depthCurly = st.depthCurly →
      st'.doFlush = st.doFlush →
      (st.atStart = true → isSpaceChar c = true →
        st' = st ∨ st' = { st with isChar1 := true }) →
      MidA cfg input st c st' := by
    intro st' hat htg hbuf hic hicpp hdep hdf hsp
    refine midA_neutral cfg input st c st' hA hat htg (by rw [hbuf]) (by rw [hbuf])
      (by rw [hbuf]) (by rw [hbuf]) (Or.inl (by rw [hbuf]; exact hA.bcnt))
      (by rw [hbuf]) ?_ ?_ ?_ ?_ ?_ hsp
    · intro h
      rw [hicpp] at h
      rw [hic]
      exact hA.cppSub h
    · intro h
      rw [hbuf] at h
      rw [hic]
      exact Or.inl (hA.fcCom h)
    · intro h
      rw [hbuf] at h
      rw [hdep]
      exact hA.fcDep h
    · intro h1 h2
      rw [hic] at h1
      rw [hdep] at h2
      exact ⟨h1, h2⟩
    · intro ha h1
      rw [hic, hc] at h1
      exact absurd h1 (by simp)
  by_cases h1 : (c == '\'') = true
  · have hsm : stateMachine cfg st c nc = { st with inSingleQuotes := false } := by
      unfold stateMachine
      rw [hl, hc, hpp, hsq]
      simp only [Bool.false_eq_true, if_false, if_true]
      rw [if_pos h1]
    rw [hsm]
    refine hquote _ rfl rfl rfl rfl rfl rfl rfl ?_
    intro ha _
    exact absurd hsq (by simp [(hA.atModes ha).2.2.2.2.1])
  · by_cases h2 : (c == '\\') = true
    · have hsm : stateMachine cfg st c nc = { st with isLiteral := true } := by
        unfold stateMachine
        rw [hl, hc, hpp, hsq]
        simp only [Bool.false_eq_true, if_false, if_true]
        rw [if_neg (by simp [h1]), if_pos h2]
      rw [hsm]
      refine hquote _ rfl rfl rfl rfl rfl rfl rfl ?_
      intro ha _
      exact absurd hsq (by simp [(hA.atModes ha).2.2.2.2.1])
    · have hsm : stateMachine cfg st c nc = st := by
        unfold stateMachine
        rw [hl, hc, hpp, hsq]
        simp only [Bool.false_eq_true, if_false, if_true]
        rw [if_neg (by simp [h1]), if_neg (by simp [h2])]
      rw [hsm]
      exact midA_self cfg input st c hA

theorem sm_mid_dquote (cfg : Options) (input : List Char) (st : PState) (c : Char)
    (nc : Option Char) (hA : InvA st) (hl : st.isLiteral = false)
    (hc : st.inComment = false) (hpp : st.inPreprocessor = false)
    (hsq : st.inSingleQuotes = false) (hdq : st.inDoubleQuotes = true) :
    MidA cfg input st c (stateMachine cfg st c nc) := by
  have hquote : ∀ st' : PState, st'.atStart = st.atStart → st'.tags = st.tags →
      st'.buf = st.buf → st'.inComment = st.inComment →
      st'.inCppComment = st.inCppComment → st'.depthCurly = st.depthCurly →
      st'.doFlush = st.doFlush →
      (st.atStart = true → isSpaceChar c = true →
        st' = st ∨ st' = { st with isChar1 := true }) →
      MidA cfg input st c st' := by
    intro st' hat htg hbuf hic hicpp hdep hdf hsp
    refine midA_neutral cfg input st c st' hA hat htg (by rw [hbuf]) (by rw [hbuf])
      (by rw [hbuf]) (by rw [hbuf]) (Or.inl (by rw [hbuf]; exact hA.bcnt))
      (by rw [hbuf]) ?_ ?_ ?_ ?_ ?_ hsp
    · intro h
      rw [hicpp] at h
      rw [hic]
      exact hA.cppSub h
    · intro h
      rw [hbuf] at h
      rw [hic]
      exact Or.inl (hA.fcCom h)
    · intro h
      rw [hbuf] at h
      rw [hdep]
      exact hA.fcDep h
    · intro h1 h2
      rw [hic] at h1
      rw [hdep] at h2
      exact ⟨h1, h2⟩
    · intro ha h1
      rw [hic, hc] at h1
      exact absurd h1 (by simp)
  by_cases h1 : (c == '"') = true
  · have hsm : stateMachine cfg st c nc = { st with inDoubleQuotes := false } := by
      unfold stateMachine
      rw [hl, hc, hpp, hsq, hdq]
      simp only [Bool.false_eq_true, if_false, if_true]
      rw [if_pos h1]
    rw [hsm]
    refine hquote _ rfl rfl rfl rfl rfl rfl rfl ?_
    intro ha _
    exact absurd hdq (by simp [(hA.atModes ha).2.2.2.2.2])
  · by_cases h2 : (c == '\\') = true
    · have hsm : stateMachine cfg st c nc = { st with isLiteral := true } := by
        unfold stateMachine
        rw [hl, hc, hpp, hsq, hdq]
        simp only [Bool.false_eq_true, if_false, if_true]
        rw [if_neg (by simp [h1]), if_pos h2]
      rw [hsm]
      refine hquote _ rfl rfl rfl rfl rfl rfl rfl ?_
      intro ha _
      exact absurd hdq (by simp [(hA.atModes ha).2.2.2.2.2])
    · have hsm : stateMachine cfg st c nc = st := by
        unfold stateMachine
        rw [hl, hc, hpp, hsq, hdq]
        simp only [Bool.false_eq_true, if_false, if_true]
        rw [if_neg (by simp [h1]), if_neg (by simp [h2])]
      rw [hsm]
      exact midA_self cfg input st c hA


set_option maxHeartbeats 2000000 in
theorem sm_mid_normal (cfg : Options) (input : List Char) (st : PState) (c : Char)
    (nc : Option Char) (hA : InvA st) (hl : st.isLiteral = false)
    (hc : st.inComment = false) (hpp : st.inPreprocessor = false)
    (hsq : st.inSingleQuotes = false) (hdq : st.inDoubleQuotes = false) :
    MidA cfg input st c (stateMachine cfg st c nc) := by
  have hnorm : ∀ st' : PState, st'.atStart = st.atStart → st'.tags = st.tags →
      st'.buf.data = st.buf.data → st'.buf.base = st.buf.base →
      st'.buf.out = st.buf.out → st'.buf.description = st.buf.description →
      (st'.buf.body.count = 0 ∨ st'.doFlush = true) →
      st'.buf.fileComment = st.buf.fileComment →
      st'.inComment = st.inComment → st'.inCppComment = st.inCppComment →
      (st'.buf.fileComment = true → st'.depthCurly = 0) →
      (st'.buf.fileComment = true → st'.inComment = true ∨ st'.doFlush = true) →
      (st.atStart = true → isSpaceChar c = true →
        st' = st ∨ st' = { st with isChar1 := true }) →
      MidA cfg input st c st' := by
    intro st' hat htg hd hb ho hde hbc hf hic hicpp hfcd hfcc hsp
    refine midA_neutral cfg input st c st' hA hat htg hd hb ho hde hbc hf
      ?_ hfcc hfcd ?_ ?_ hsp
    · intro h
      rw [hicpp] at h
      rw [hic]
      exact hA.cppSub h
    · intro h1 _
      rw [hic, hc] at h1
      exact absurd h1 (by simp)
    · intro ha h1
      rw [hic, hc] at h1
      exact absurd h1 (by simp)
  by_cases hb1 : (c == '\\') = true
  · have hcc : c = '\\' := by simpa using hb1
    subst hcc
    have hsm : stateMachine cfg st '\\' nc = { st with isLiteral := true } := by
      unfold stateMachine
      rw [hl, hc, hpp, hsq, hdq]
      simp only [Bool.false_eq_true, if_false]
      rw [if_pos (by decide)]
    rw [hsm]
    refine hnorm _ rfl rfl rfl rfl rfl rfl (Or.inl hA.bcnt) rfl rfl rfl
      (fun h => hA.fcDep h) (fun h => Or.inl (hA.fcCom h)) ?_
    intro _ hs
    exact absurd hs (by decide)
  · by_cases hb2 : (c == '/') = true
    · have hcc : c = '/' := by simpa using hb2
      subst hcc
      have hcs : isSpaceChar '/' = false := by decide
      rcases nc with _ | c2
      · have hsm : stateMachine cfg st '/' none = st := by
          unfold stateMachine
          rw [hl, hc, hpp, hsq, hdq]
          simp only [Bool.false_eq_true, if_false]
          rw [if_neg (by decide), if_pos (by decide)]
          rw [hc]
          simp only [Bool.false_eq_true, if_false]
        rw [hsm]
        exact midA_self cfg input st _ hA
      · by_cases h2s : (c2 == '*') = true
        · have hc2 : c2 = '*' := by simpa using h2s
          subst hc2
          by_cases hdc : st.depthCurly = 0
          · have hsm : stateMachine cfg st '/' (some '*') =
                { st with
                    inComment := true,
                    buf := { flushBuffer cfg st.buf with
                      description := { (flushBuffer cfg st.buf).description with
                        start := ((flushBuffer cfg st.buf).data.length : Int) } } } := by
              unfold stateMachine
              rw [hl, hc, hpp, hsq, hdq]
              simp only [Bool.false_eq_true, if_false]
              rw [if_neg (by decide), if_pos (by decide)]
              simp only [if_true, hdc, beq_self_eq_true]
            rw [hsm]
            exact midA_open0 cfg input st '/' hA st.inCppComment hdc hcs
          · have hdc' : (st.depthCurly == 0) = false := by simpa using hdc
            have hsm : stateMachine cfg st '/' (some '*') =
                { st with
                    inComment := true,
                    buf := { st.buf with
                      commentStart := some (st.buf.data.length : Int) } } := by
              unfold stateMachine
              rw [hl, hc, hpp, hsq, hdq]
              simp only [Bool.false_eq_true, if_false]
              rw [if_neg (by decide), if_pos (by decide)]
              simp only [if_true, hdc', Bool.false_eq_true, if_false]
            rw [hsm]
            refine midA_neutral cfg input st _ _ hA rfl rfl rfl rfl rfl rfl
              (Or.inl hA.bcnt) rfl (fun _ => rfl) (fun _ => Or.inl rfl) ?_ ?_ ?_ ?_
            · intro h
              exact absurd (hA.fcDep h) hdc
            · intro _ h2
              exact absurd h2 hdc
            · intro ha _
              exact absurd (hA.atDep ha) hdc
            · intro _ hs
              exact absurd hs (by simp [hcs])
        · by_cases h2t : (c2 == '/') = true
          · have hc2 : c2 = '/' := by simpa using h2t
            subst hc2
            by_cases hdc : st.depthCurly = 0
            · have hsm : stateMachine cfg st '/' (some '/') =
                  { st with
                      inComment := true,
                      inCppComment := true,
                      buf := { flushBuffer cfg st.buf with
                        description := { (flushBuffer cfg st.buf).description with
                          start := ((flushBuffer cfg st.buf).data.length : Int) } } } := by
                unfold stateMachine
                rw [hl, hc, hpp, hsq, hdq]
                simp only [Bool.false_eq_true, if_false]
                rw [if_neg (by decide), if_pos (by decide)]
                simp only [if_true, hdc, beq_self_eq_true]
              rw [hsm]
              exact midA_open0 cfg input st '/' hA true hdc hcs
            · have hdc' : (st.depthCurly == 0) = false := by simpa using hdc
              have hsm : stateMachine cfg st '/' (some '/') =
                  { st with
                      inComment := true,
                      inCppComment := true,
                      buf := { st.buf with
                        commentStart := some (st.buf.data.length : Int) } } := by
                unfold stateMachine
                rw [hl, hc, hpp, hsq, hdq]
                simp only [Bool.false_eq_true, if_false]
                rw [if_neg (by decide), if_pos (by decide)]
                simp only [if_true, hdc', Bool.false_eq_true, if_false]
              rw [hsm]
              refine midA_neutral cfg input st _ _ hA rfl rfl rfl rfl rfl rfl
                (Or.inl hA.bcnt) rfl (fun _ => rfl) (fun _ => Or.inl rfl) ?_ ?_ ?_ ?_
              · intro h
                exact absurd (hA.fcDep h) hdc
              · intro _ h2
                exact absurd h2 hdc
              · intro ha _
                exact absurd (hA.atDep ha) hdc
              · intro _ hs
                exact absurd hs (by simp [hcs])
          · have g1 : ¬ c2 = '*' := by simpa using h2s
            have g2 : ¬ c2 = '/' := by simpa using h2t
            have hsm : stateMachine cfg st '/' (some c2) = st := by
              unfold stateMachine
              rw [hl, hc, hpp, hsq, hdq]
              simp only [Bool.false_eq_true, if_false]
              rw [if_neg (by decide), if_pos (by decide)]
              split <;> simp_all
            rw [hsm]
            exact midA_self cfg input st _ hA
    · by_cases hb3 : (c == '#') = true
      · have hcc : c = '#' := by simpa using hb3
        subst hcc
        by_cases hic1 : st.isChar1 = true
        · by_cases hdc : st.depthCurly = 0
          · have hsm : stateMachine cfg st '#' nc =
                { st with
                    inPreprocessor := true,
                    buf := { st.buf with
                      description := { start := -1, stop := -1, count := 0 } } } := by
              unfold stateMachine
              rw [hl, hc, hpp, hsq, hdq]
              simp only [Bool.false_eq_true, if_false]
              rw [if_neg (by decide), if_neg (by decide), if_pos (by decide)]
              rw [if_pos hic1, if_pos (by simp [hdc])]
              all_goals simp only [hl, hc, hpp, hsq, hdq]
            rw [hsm]
            refine ⟨rfl, rfl, ?_, ?_, ?_, ?_, Or.inl hA.bcnt, ?_, ?_, ?_, ?_,
              ?_, ?_, ?_, ?_, ?_, ?_, ?_⟩
            · intro h
              exact hA.cppSub h
            · intro h
              exact hA.fcCom h
            · intro h
              exact Or.inl (hA.fcCom h)
            · intro h
              exact hA.fcDep h
            · exact Nat.zero_le 1
            · intro h1
              simp at h1
            · intro h1
              simp at h1
            · intro h1
              simp at h1
            · intro h1 _
              simp [hc] at h1
            · intro h1 _
              simp [hc] at h1
            · intro _ h1
              simp [hc] at h1
            · intro _ h1
              simp [hc] at h1
            · intro _ h1
              simp [hc] at h1
            · intro _ hs
              exact absurd hs (by decide)
            · intro _ hB
              refine ⟨bufInv_desc input st.tags st.buf _ hB.bi (fun h1 => by simp at h1), ?_⟩
              intro h1 _
              simp [hc] at h1
          · have hdc' : (st.depthCurly == 0) = false := by simpa using hdc
            have hsm : stateMachine cfg st '#' nc =
                { st with inPreprocessor := true } := by
              unfold stateMachine
              rw [hl, hc, hpp, hsq, hdq]
              simp only [Bool.false_eq_true, if_false]
              rw [if_neg (by decide), if_neg (by decide), if_pos (by decide)]
              rw [if_pos hic1, if_neg (by simp [hdc'])]
              all_goals simp only [hl, hc, hpp, hsq, hdq]
            rw [hsm]
            refine hnorm _ rfl rfl rfl rfl rfl rfl (Or.inl hA.bcnt) rfl rfl rfl
              (fun h => hA.fcDep h) (fun h => Or.inl (hA.fcCom h)) ?_
            intro _ hs
            exact absurd hs (by decide)
        · have hic1' : st.isChar1 = false := by simpa using hic1
          have hsm : stateMachine cfg st '#' nc = st := by
            unfold stateMachine
            rw [hl, hc, hpp, hsq, hdq]
            simp only [Bool.false_eq_true, if_false]
            rw [if_neg (by decide), if_neg (by decide), if_pos (by decide)]
            rw [if_neg (by simp [hic1'])]
            all_goals simp only [hl, hc, hpp, hsq, hdq]
          rw [hsm]
          exact midA_self cfg input st _ hA
      · by_cases hb4 : (c == '\'') = true
        · have hcc : c = '\'' := by simpa using hb4
          subst hcc
          have hsm : stateMachine cfg st '\'' nc =
              { st with inSingleQuotes := true } := by
            unfold stateMachine
            rw [hl, hc, hpp, hsq, hdq]
            simp only [Bool.false_eq_true, if_false]
            rw [if_neg (by decide), if_neg (by decide), if_neg (by decide),
              if_pos (by decide)]
          rw [hsm]
          refine hnorm _ rfl rfl rfl rfl rfl rfl (Or.inl hA.bcnt) rfl rfl rfl
            (fun h => hA.fcDep h) (fun h => Or.inl (hA.fcCom h)) ?_
          intro _ hs
          exact absurd hs (by decide)
        · by_cases hb5 : (c == '"') = true
          · have hcc : c = '"' := by simpa using hb5
            subst hcc
            have hsm : stateMachine cfg st '"' nc =
                { st with inDoubleQuotes := true } := by
              unfold stateMachine
              rw [hl, hc, hpp, hsq, hdq]
              simp only [Bool.false_eq_true, if_false]
              rw [if_neg (by decide), if_neg (by decide), if_neg (by decide),
                if_neg (by decide), if_pos (by decide)]
            rw [hsm]
            refine hnorm _ rfl rfl rfl rfl rfl rfl (Or.inl hA.bcnt) rfl rfl rfl
              (fun h => hA.fcDep h) (fun h => Or.inl (hA.fcCom h)) ?_
            intro _ hs
            exact absurd hs (by decide)
          · by_cases hb6 : (c == '(') = true
            · have hcc : c = '(' := by simpa using hb6
              subst hcc
              by_cases hdd : (st.depthCurly == 0 && st.depthRound == 0) = true
              · have hsm : stateMachine cfg st '(' nc =
                    { st with
                        depthRound := st.depthRound + 1,
                        buf := { st.buf with
                          function := { st.buf.function with
                            stop := (st.buf.data.length : Int),
                            count := st.buf.function.count + 1 },
                          arglist := { st.buf.arglist with
                            start := (st.buf.data.length : Int) } } } := by
                  unfold stateMachine
                  rw [hl, hc, hpp, hsq, hdq]
                  simp only [Bool.false_eq_true, if_false]
                  rw [if_neg (by decide), if_neg (by decide), if_neg (by decide),
                    if_neg (by decide), if_neg (by decide), if_pos (by decide)]
                  simp only [hdd, if_true]
                rw [hsm]
                refine hnorm _ rfl rfl rfl rfl rfl rfl (Or.inl hA.bcnt) rfl rfl rfl
                  (fun h => hA.fcDep h) (fun h => Or.inl (hA.fcCom h)) ?_
                intro _ hs
                exact absurd hs (by decide)
              · have hdd' : (st.depthCurly == 0 && st.depthRound == 0) = false := by
                  simpa using hdd
                have hsm : stateMachine cfg st '(' nc =
                    { st with depthRound := st.depthRound + 1 } := by
                  unfold stateMachine
                  rw [hl, hc, hpp, hsq, hdq]
                  simp only [Bool.false_eq_true, if_false]
                  rw [if_neg (by decide), if_neg (by decide), if_neg (by decide),
                    if_neg (by decide), if_neg (by decide), if_pos (by decide)]
                  simp only [hdd', Bool.false_eq_true, if_false]
                  all_goals simp only [hl, hc, hpp, hsq, hdq]
                rw [hsm]
                refine hnorm _ rfl rfl rfl rfl rfl rfl (Or.inl hA.bcnt) rfl rfl rfl
                  (fun h => hA.fcDep h) (fun h => Or.inl (hA.fcCom h)) ?_
                intro _ hs
                exact absurd hs (by decide)
            · by_cases hb7 : (c == ')') = true
              · have hcc : c = ')' := by simpa using hb7
                subst hcc
                by_cases hdd : (st.depthCurly == 0 && st.depthRound - 1 == 0) = true
                · have hsm : stateMachine cfg st ')' nc =
                      { st with
                          depthRound := st.depthRound - 1,
                          buf := { st.buf with
                            arglist := { st.buf.arglist with
                              stop := (st.buf.data.length : Int) + 1,
                              count := st.buf.arglist.count + 1 } } } := by
                    unfold stateMachine
                    rw [hl, hc, hpp, hsq, hdq]
                    simp only [Bool.false_eq_true, if_false]
                    rw [if_neg (by decide), if_neg (by decide), if_neg (by decide),
                      if_neg (by decide), if_neg (by decide), if_neg (by decide),
                      if_pos (by decide)]
                    simp only [hdd, if_true]
                  rw [hsm]
                  refine hnorm _ rfl rfl rfl rfl rfl rfl (Or.inl hA.bcnt) rfl rfl rfl
                    (fun h => hA.fcDep h) (fun h => Or.inl (hA.fcCom h)) ?_
                  intro _ hs
                  exact absurd hs (by decide)
                · have hdd' : (st.depthCurly == 0 && st.depthRound - 1 == 0) = false := by
                    simpa using hdd
                  have hsm : stateMachine cfg st ')' nc =
                      { st with depthRound := st.depthRound - 1 } := by
                    unfold stateMachine
                    rw [hl, hc, hpp, hsq, hdq]
                    simp only [Bool.false_eq_true, if_false]
                    rw [if_neg (by decide), if_neg (by decide), if_neg (by decide),
                      if_neg (by decide), if_neg (by decide), if_neg (by decide),
                      if_pos (by decide)]
                    simp only [hdd', Bool.false_eq_true, if_false]
                  rw [hsm]
                  refine hnorm _ rfl rfl rfl rfl rfl rfl (Or.inl hA.bcnt) rfl rfl rfl
                    (fun h => hA.fcDep h) (fun h => Or.inl (hA.fcCom h)) ?_
                  intro _ hs
                  exact absurd hs (by decide)
              · by_cases hb8 : (c == '\x7b') = true
                · have hcc : c = '\x7b' := by simpa using hb8
                  subst hcc
                  by_cases hdc : st.depthCurly = 0
                  · have hsm : stateMachine cfg st '\x7b' nc =
                        { st with
                            depthCurly := st.depthCurly + 1,
                            inBetween := true,
                            buf := { st.buf with
                              body := { st.buf.body with
                                start := (st.buf.data.length : Int) } } } := by
                      unfold stateMachine
                      rw [hl, hc, hpp, hsq, hdq]
                      simp only [Bool.false_eq_true, if_false]
                      rw [if_neg (by decide), if_neg (by decide), if_neg (by decide),
                        if_neg (by decide), if_neg (by decide), if_neg (by decide),
                        if_neg (by decide), if_pos (by decide)]
                      simp only [hdc, beq_self_eq_true, if_true]
                    rw [hsm]
                    refine hnorm _ rfl rfl rfl rfl rfl rfl (Or.inl hA.bcnt) rfl rfl rfl
                      (fun h => absurd (hA.fcCom h) (by simp [hc]))
                      (fun h => absurd (hA.fcCom h) (by simp [hc])) ?_
                    intro _ hs
                    exact absurd hs (by decide)
                  · have hdc' : (st.depthCurly == 0) = false := by simpa using hdc
                    have hsm : stateMachine cfg st '\x7b' nc =
                        { st with
                            depthCurly := st.depthCurly + 1,
                            inBetween := true,
                            buf := parseStatement st.buf } := by
                      unfold stateMachine
                      rw [hl, hc, hpp, hsq, hdq]
                      simp only [Bool.false_eq_true, if_false]
                      rw [if_neg (by decide), if_neg (by decide), if_neg (by decide),
                        if_neg (by decide), if_neg (by decide), if_neg (by decide),
                        if_neg (by decide), if_pos (by decide)]
                      simp only [hdc', Bool.false_eq_true, if_false]
                    rw [hsm]
                    have hsk := parseStatement_skel st.buf
                    refine hnorm _ rfl rfl hsk.1 hsk.2.1 hsk.2.2.1 hsk.2.2.2.1
                      (Or.inl (by rw [hsk.2.2.2.2.2.2.1]; exact hA.bcnt))
                      hsk.2.2.2.2.2.2.2 rfl rfl
                      (fun h => absurd (hA.fcCom (hsk.2.2.2.2.2.2.2 ▸ h)) (by simp [hc]))
                      (fun h => absurd (hA.fcCom (hsk.2.2.2.2.2.2.2 ▸ h)) (by simp [hc])) ?_
                    intro _ hs
                    exact absurd hs (by decide)
                · by_cases hb9 : (c == '\x7d') = true
                  · have hcc : c = '\x7d' := by simpa using hb9
                    subst hcc
                    by_cases hdd : (st.depthCurly - 1 == 0) = true
                    · have hsm : stateMachine cfg st '\x7d' nc =
                          { st with
                              depthCurly := st.depthCurly - 1,
                              inBetween := true,
                              doFlush := true,
                              buf := { st.buf with
                                body := { st.buf.body with
                                  stop := (st.buf.data.length : Int) + 1,
                                  count := st.buf.body.count + 1 } } } := by
                        unfold stateMachine
                        rw [hl, hc, hpp, hsq, hdq]
                        simp only [Bool.false_eq_true, if_false]
                        rw [if_neg (by decide), if_neg (by decide), if_neg (by decide),
                          if_neg (by decide), if_neg (by decide), if_neg (by decide),
                          if_neg (by decide), if_neg (by decide), if_pos (by decide)]
                        simp only [hdd, if_true]
                      rw [hsm]
                      refine hnorm _ rfl rfl rfl rfl rfl rfl (Or.inr rfl) rfl rfl rfl
                        (fun h => absurd (hA.fcCom h) (by simp [hc]))
                        (fun _ => Or.inr rfl) ?_
                      intro _ hs
                      exact absurd hs (by decide)
                    · have hdd' : (st.depthCurly - 1 == 0) = false := by simpa using hdd
                      have hsm : stateMachine cfg st '\x7d' nc =
                          { st with
                              depthCurly := st.depthCurly - 1,
                              inBetween := true,
                              buf := parseStatement st.buf } := by
                        unfold stateMachine
                        rw [hl, hc, hpp, hsq, hdq]
                        simp only [Bool.false_eq_true, if_false]
                        rw [if_neg (by decide), if_neg (by decide), if_neg (by decide),
                          if_neg (by decide), if_neg (by decide), if_neg (by decide),
                          if_neg (by decide), if_neg (by decide), if_pos (by decide)]
                        simp only [hdd', Bool.false_eq_true, if_false]
                      rw [hsm]
                      have hsk := parseStatement_skel st.buf
                      refine hnorm _ rfl rfl hsk.1 hsk.2.1 hsk.2.2.1 hsk.2.2.2.1
                        (Or.inl (by rw [hsk.2.2.2.2.2.2.1]; exact hA.bcnt))
                        hsk.2.2.2.2.2.2.2 rfl rfl
                        (fun h => absurd (hA.fcCom (hsk.2.2.2.2.2.2.2 ▸ h)) (by simp [hc]))
                        (fun h => absurd (hA.fcCom (hsk.2.2.2.2.2.2.2 ▸ h)) (by simp [hc])) ?_
                      intro _ hs
                      exact absurd hs (by decide)
                  · by_cases hb10 : (c == ';') = true
                    · have hcc : c = ';' := by simpa using hb10
                      subst hcc
                      by_cases hdc : st.depthCurly = 0
                      · have hsm : stateMachine cfg st ';' nc =
                            { st with inBetween := true, doFlush := true } := by
                          unfold stateMachine
                          rw [hl, hc, hpp, hsq, hdq]
                          simp only [Bool.false_eq_true, if_false]
                          rw [if_neg (by decide), if_neg (by decide), if_neg (by decide),
                            if_neg (by decide), if_neg (by decide), if_neg (by decide),
                            if_neg (by decide), if_neg (by decide), if_neg (by decide),
                            if_pos (by decide)]
                          rw [if_pos (by simp [hdc])]
                          all_goals simp only [hl, hc, hpp, hsq, hdq]
                        rw [hsm]
                        refine hnorm _ rfl rfl rfl rfl rfl rfl (Or.inr rfl) rfl rfl rfl
                          (fun h => hA.fcDep h) (fun _ => Or.inr rfl) ?_
                        intro _ hs
                        exact absurd hs (by decide)
                      · have hdc' : (st.depthCurly == 0) = false := by simpa using hdc
                        have hsm : stateMachine cfg st ';' nc =
                            { st with
                                inBetween := true,
                                buf := parseStatement st.buf } := by
                          unfold stateMachine
                          rw [hl, hc, hpp, hsq, hdq]
                          simp only [Bool.false_eq_true, if_false]
                          rw [if_neg (by decide), if_neg (by decide), if_neg (by decide),
                            if_neg (by decide), if_neg (by decide), if_neg (by decide),
                            if_neg (by decide), if_neg (by decide), if_neg (by decide),
                            if_pos (by decide)]
                          rw [if_neg (by simp [hdc'])]
                          all_goals simp only [hl, hc, hpp, hsq, hdq]
                        rw [hsm]
                        have hsk := parseStatement_skel st.buf
                        refine hnorm _ rfl rfl hsk.1 hsk.2.1 hsk.2.2.1 hsk.2.2.2.1
                          (Or.inl (by rw [hsk.2.2.2.2.2.2.1]; exact hA.bcnt))
                          hsk.2.2.2.2.2.2.2 rfl rfl
                          (fun h => hA.fcDep (hsk.2.2.2.2.2.2.2 ▸ h))
                          (fun h => Or.inl (hA.fcCom (hsk.2.2.2.2.2.2.2 ▸ h))) ?_
                        intro _ hs
                        exact absurd hs (by decide)
                    · by_cases hb11 : (c == '\n' || c == '\r') = true
                      · have hsm : stateMachine cfg st c nc =
                            { st with isChar1 := true } := by
                          unfold stateMachine
                          rw [hl, hc, hpp, hsq, hdq]
                          simp only [Bool.false_eq_true, if_false]
                          rw [if_neg (by simp at hb11 ⊢; rcases hb11 with h | h <;>
                                simp [h]),
                            if_neg (by simp at hb11 ⊢; rcases hb11 with h | h <;>
                                simp [h]),
                            if_neg (by simp at hb11 ⊢; rcases hb11 with h | h <;>
                                simp [h]),
                            if_neg (by simp at hb11 ⊢; rcases hb11 with h | h <;>
                                simp [h]),
                            if_neg (by simp at hb11 ⊢; rcases hb11 with h | h <;>
                                simp [h]),
                            if_neg (by simp at hb11 ⊢; rcases hb11 with h | h <;>
                                simp [h]),
                            if_neg (by simp at hb11 ⊢; rcases hb11 with h | h <;>
                                simp [h]),
                            if_neg (by simp at hb11 ⊢; rcases hb11 with h | h <;>
                                simp [h]),
                            if_neg (by simp at hb11 ⊢; rcases hb11 with h | h <;>
                                simp [h]),
                            if_neg (by simp at hb11 ⊢; rcases hb11 with h | h <;>
                                simp [h]),
                            if_pos hb11]
                        rw [hsm]
                        refine hnorm _ rfl rfl rfl rfl rfl rfl (Or.inl hA.bcnt) rfl rfl rfl
                          (fun h => hA.fcDep h) (fun h => Or.inl (hA.fcCom h)) ?_
                        intro _ _
                        exact Or.inr rfl
                      · have hb11' : (c == '\n' || c == '\r') = false := by
                          simpa using hb11
                        by_cases hib : (st.inBetween && !(isSpaceChar c)) = true
                        · by_cases hdc : st.depthCurly = 0
                          · have hsm : stateMachine cfg st c nc =
                                { st with
                                    inBetween := false,
                                    buf := { st.buf with
                                      function := { st.buf.function with
                                        start := (st.buf.data.length : Int) } } } := by
                              unfold stateMachine
                              rw [hl, hc, hpp, hsq, hdq]
                              simp only [Bool.false_eq_true, if_false]
                              rw [if_neg (by simp [hb1]), if_neg (by simp [hb2]),
                                if_neg (by simp [hb3]), if_neg (by simp [hb4]),
                                if_neg (by simp [hb5]), if_neg (by simp [hb6]),
                                if_neg (by simp [hb7]), if_neg (by simp [hb8]),
                                if_neg (by simp [hb9]), if_neg (by simp [hb10]),
                                if_neg (by simp [hb11'])]
                              simp only [hib, if_true, hdc, beq_self_eq_true]
                            rw [hsm]
                            refine hnorm _ rfl rfl rfl rfl rfl rfl (Or.inl hA.bcnt)
                              rfl rfl rfl (fun h => hA.fcDep h)
                              (fun h => Or.inl (hA.fcCom h)) ?_
                            intro _ hs
                            rw [hs] at hib
                            simp at hib
                          · have hdc' : (st.depthCurly == 0) = false := by simpa using hdc
                            have hsm : stateMachine cfg st c nc =
                                { st with
                                    inBetween := false,
                                    buf := { st.buf with
                                      statementStart :=
                                        some (st.buf.data.length : Int) } } := by
                              unfold stateMachine
                              rw [hl, hc, hpp, hsq, hdq]
                              simp only [Bool.false_eq_true, if_false]
                              rw [if_neg (by simp [hb1]), if_neg (by simp [hb2]),
                                if_neg (by simp [hb3]), if_neg (by simp [hb4]),
                                if_neg (by simp [hb5]), if_neg (by simp [hb6]),
                                if_neg (by simp [hb7]), if_neg (by simp [hb8]),
                                if_neg (by simp [hb9]), if_neg (by simp [hb10]),
                                if_neg (by simp [hb11'])]
                              simp only [hib, if_true, hdc', Bool.false_eq_true, if_false]
                            rw [hsm]
                            refine hnorm _ rfl rfl rfl rfl rfl rfl (Or.inl hA.bcnt)
                              rfl rfl rfl (fun h => hA.fcDep h)
                              (fun h => Or.inl (hA.fcCom h)) ?_
                            intro _ hs
                            rw [hs] at hib
                            simp at hib
                        · have hib' : (st.inBetween && !(isSpaceChar c)) = false := by
                            simpa using hib
                          have hsm : stateMachine cfg st c nc = st := by
                            unfold stateMachine
                            rw [hl, hc, hpp, hsq, hdq]
                            simp only [Bool.false_eq_true, if_false]
                            rw [if_neg (by simp [hb1]), if_neg (by simp [hb2]),
                              if_neg (by simp [hb3]), if_neg (by simp [hb4]),
                              if_neg (by simp [hb5]), if_neg (by simp [hb6]),
                              if_neg (by simp [hb7]), if_neg (by simp [hb8]),
                              if_neg (by simp [hb9]), if_neg (by simp [hb10]),
                              if_neg (by simp [hb11']), hib']
                            simp only [Bool.false_eq_true, if_false]
                          rw [hsm]
                          exact midA_self cfg input st c hA


/-- One dispatch of the state machine preserves the transfer property,
whatever the current mode. -/
theorem sm_mid (cfg : Options) (input : List Char) (st : PState) (c : Char)
    (nc : Option Char) (hA : InvA st) :
    MidA cfg input st c (stateMachine cfg st c nc) := by
  by_cases hl : st.isLiteral = true
  · exact sm_mid_literal cfg input st c nc hA hl
  · have hl' : st.isLiteral = false := by simpa using hl
    by_cases hc : st.inComment = true
    · exact sm_mid_comment cfg input st c nc hA hl' hc
    · have hc' : st.inComment = false := by simpa using hc
      by_cases hpp : st.inPreprocessor = true
      · exact sm_mid_preproc cfg input st c nc hA hl' hc' hpp
      · have hpp' : st.inPreprocessor = false := by simpa using hpp
        by_cases hsq : st.inSingleQuotes = true
        · exact sm_mid_squote cfg input st c nc hA hl' hc' hpp' hsq
        · have hsq' : st.inSingleQuotes = false := by simpa using hsq
          by_cases hdq : st.inDoubleQuotes = true
          · exact sm_mid_dquote cfg input st c nc hA hl' hc' hpp' hsq' hdq
          · have hdq' : st.inDoubleQuotes = false := by simpa using hdq
            exact sm_mid_normal cfg input st c nc hA hl' hc' hpp' hsq' hdq'


/-! ### Assembling the invariant after one full iteration -/

/-- The run invariant after an iteration that appended the character
(no flush). -/
theorem invA_step_append (cfg : Options) (input : List Char) (st st1 : PState)
    (c : Char) (b2 : Buf) (a : Bool) (hm : MidA cfg input st c st1) (hA : InvA st)
    (hdf1 : st1.doFlush = false)
    (hde : b2.description = st1.buf.description)
    (hby : b2.body = st1.buf.body)
    (hdl : b2.data = st1.buf.data)
    (hfcC : b2.fileComment = true → st1.inComment = true)
    (hfcD : b2.fileComment = true → st1.depthCurly = 0)
    (ha : a = false ∨ (a = st1.atStart ∧ (st1.atStart && !(isSpaceChar c)) = false)) :
    InvA { st1 with
        atStart := a,
        buf := { b2 with data := b2.data ++ [c] },
        isChar1 := st1.isChar1 && isSpaceChar c,
        prevc := c,
        tags := st.tags ++ [st.inComment || st1.inComment] } := by
  refine ⟨hdf1, hm.cppSub, fun h => hfcC h, fun h => hfcD h, ?_, ?_, ?_, ?_, ?_,
    ?_, ?_, ?_⟩
  · intro haS
    rcases ha with h1 | ⟨h2, h3⟩
    · subst h1
      simp at haS
    · subst h2
      have hats : st.atStart = true := by rw [← hm.stAt]; exact haS
      have hsp : isSpaceChar c = true := by
        have haS' : st1.atStart = true := haS
        simpa [haS'] using h3
      rcases hm.atSpace hats hsp with hE | hE <;> rw [hE] <;> exact hA.atModes hats
  · intro haS
    rcases ha with h1 | ⟨h2, h3⟩
    · subst h1
      simp at haS
    · subst h2
      have hats : st.atStart = true := by rw [← hm.stAt]; exact haS
      have hsp : isSpaceChar c = true := by
        have haS' : st1.atStart = true := haS
        simpa [haS'] using h3
      rcases hm.atSpace hats hsp with hE | hE <;> rw [hE] <;> exact hA.atDep hats
  · show b2.body.count = 0
    rw [hby]
    exact (hm.bcnt).resolve_right (by simp [hdf1])
  · show b2.description.count ≤ 1
    rw [hde]
    exact hm.dcnt
  · intro h1
    have h1' : b2.description.count = 1 := h1
    rw [hde] at h1'
    show b2.description.start ≤ b2.description.stop
    rw [hde]
    exact hm.dOrd h1'
  · intro h1
    have h1' : b2.description.count = 1 := h1
    rw [hde] at h1'
    have h2 := hm.dStop h1'
    show b2.description.stop ≤ ((b2.data ++ [c]).length : Int)
    rw [hde, hdl]
    simp only [List.length_append, List.length_cons, List.length_nil]
    push_cast
    omega
  · intro h1 h2
    have h3 := hm.comZero h1 h2
    show b2.description.count = 0
    rw [hde]
    exact h3
  · intro h1 h2
    have h3 := hm.comStart h1 h2
    show b2.description.start ≤ ((b2.data ++ [c]).length : Int)
    rw [hde, hdl]
    simp only [List.length_append, List.length_cons, List.length_nil]
    push_cast
    omega

/-- The run invariant after an iteration that flushed the buffer. -/
theorem invA_step_flushed (cfg : Options) (input : List Char) (st st1 : PState)
    (c : Char) (X : Buf) (a : Bool) (hm : MidA cfg input st c st1) (hA : InvA st)
    (ha : a = false ∨ (a = st1.atStart ∧ (st1.atStart && !(isSpaceChar c)) = false)) :
    InvA { st1 with
        atStart := a,
        buf := { flushBuffer cfg X with fileComment := false },
        doFlush := false,
        isChar1 := st1.isChar1 && isSpaceChar c,
        prevc := c,
        tags := st.tags ++ [st.inComment || st1.inComment] } := by
  refine ⟨rfl, hm.cppSub, ?_, ?_, ?_, ?_, ?_, ?_, ?_, ?_, ?_, ?_⟩
  · intro h
    simp at h
  · intro h
    simp at h
  · intro haS
    rcases ha with h1 | ⟨h2, h3⟩
    · subst h1
      simp at haS
    · subst h2
      have hats : st.atStart = true := by rw [← hm.stAt]; exact haS
      have hsp : isSpaceChar c = true := by
        have haS' : st1.atStart = true := haS
        simpa [haS'] using h3
      rcases hm.atSpace hats hsp with hE | hE <;> rw [hE] <;> exact hA.atModes hats
  · intro haS
    rcases ha with h1 | ⟨h2, h3⟩
    · subst h1
      simp at haS
    · subst h2
      have hats : st.atStart = true := by rw [← hm.stAt]; exact haS
      have hsp : isSpaceChar c = true := by
        have haS' : st1.atStart = true := haS
        simpa [haS'] using h3
      rcases hm.atSpace hats hsp with hE | hE <;> rw [hE] <;> exact hA.atDep hats
  · simp [flushBuffer_body]
  · simp [flushBuffer_description]
  · intro h1
    simp [flushBuffer_description] at h1
  · intro h1
    simp [flushBuffer_description] at h1
  · intro _ _
    simp [flushBuffer_description]
  · intro _ _
    simp [flushBuffer_description, flushBuffer_data]

/-- Appending one consumed character (and its comment tag) preserves
the buffer invariant. -/
theorem bufInv_push (input : List Char) (tg : List Bool) (b : Buf) (c : Char)
    (t : Bool) (rest : List Char)
    (hbi : BufInv input tg b)
    (hrest : input.drop tg.length = c :: rest)
    (hdN : b.description.count = 1 → (b.data.length : Int) < b.description.stop →
      t = true)
    (hfN : b.fileComment = true → t = true) :
    BufInv input (tg ++ [t]) { b with data := b.data ++ [c] } := by
  have htlen := hbi.tlen
  refine ⟨?_, ?_, ?_, ?_, ?_, ?_, ?_⟩
  · show (tg ++ [t]).length = b.base + (b.data ++ [c]).length
    simp only [List.length_append, List.length_cons, List.length_nil]
    omega
  · show b.data ++ [c] = (input.take (b.base + (b.data ++ [c]).length)).drop b.base
    have h1 : input.drop (b.base + b.data.length) = c :: rest := by
      rw [← htlen]
      exact hrest
    have h2 := slice_extend input rest c b.base (b.base + b.data.length)
      (by omega) h1
    calc b.data ++ [c]
        = (input.take (b.base + b.data.length)).drop b.base ++ [c] := by
          rw [← hbi.slice]
      _ = (input.take (b.base + b.data.length + 1)).drop b.base := h2
      _ = (input.take (b.base + (b.data ++ [c]).length)).drop b.base := by
          simp only [List.length_append, List.length_cons, List.length_nil]
          rw [show b.base + (b.data.length + 1) = b.base + b.data.length + 1
            by omega]
  · exact hbi.chain
  · exact hbi.bytes
  · intro p hp hcov
    have hp' : p < b.base := hp
    have hcov' : coveredB b.out p = false := hcov
    show TagAt (tg ++ [t]) p
    exact tagAt_append tg [t] p (by omega) (hbi.missed p hp' hcov')
  · intro h1 i hi hs hstp
    have h1' : b.description.count = 1 := h1
    have hi' : i < (b.data ++ [c]).length := hi
    have hs' : b.description.start ≤ (i : Int) := hs
    have hstp' : (i : Int) < b.description.stop := hstp
    simp only [List.length_append, List.length_cons, List.length_nil] at hi'
    show TagAt (tg ++ [t]) (b.base + i)
    by_cases hil : i < b.data.length
    · exact tagAt_append tg [t] _ (by omega) (hbi.dTag h1' i hil hs' hstp')
    · have hieq : i = b.data.length := by omega
      subst hieq
      have ht := hdN h1' hstp'
      subst ht
      have hpos : b.base + b.data.length = tg.length := htlen.symm
      rw [hpos]
      exact tagAt_last tg
  · intro h1 i hi
    have h1' : b.fileComment = true := h1
    have hi' : i < (b.data ++ [c]).length := hi
    simp only [List.length_append, List.length_cons, List.length_nil] at hi'
    show TagAt (tg ++ [t]) (b.base + i)
    by_cases hil : i < b.data.length
    · exact tagAt_append tg [t] _ (by omega) (hbi.fcTag h1' i hil)
    · have hieq : i = b.data.length := by omega
      subst hieq
      have ht := hfN h1'
      subst ht
      have hpos : b.base + b.data.length = tg.length := htlen.symm
      rw [hpos]
      exact tagAt_last tg


/-- The content invariant holds for the injection-adjusted buffer `b2`
still relative to the old tag list. -/
theorem bufInv_inj (cfg : Options) (input : List Char) (st st1 : PState)
    (c : Char) (b2 : Buf) (hm : MidA cfg input st c st1)
    (hB1 : StInv input st.tags st1)
    (hb2 : b2 = st1.buf
      ∨ (st1.inComment = true ∧ st.atStart = true
          ∧ b2 = { st1.buf with fileComment := true })
      ∨ b2 = { st1.buf with out := st1.buf.out ++ newFileComment cfg }) :
    BufInv input st.tags b2 := by
  rcases hb2 with h | ⟨hcom, hat, h⟩ | h
  · rw [h]
    exact hB1.bi
  · subst h
    refine ⟨hB1.bi.tlen, hB1.bi.slice, hB1.bi.chain, hB1.bi.bytes, hB1.bi.missed,
      hB1.bi.dTag, ?_⟩
    intro _ i hi
    have hi' : i < st1.buf.data.length := hi
    rw [hm.atFcData hat hcom] at hi'
    exact absurd hi' (by simp)
  · subst h
    obtain ⟨e, hch, he⟩ := hB1.bi.chain
    refine ⟨hB1.bi.tlen, hB1.bi.slice, ⟨e, ?_, he⟩, ?_, ?_, hB1.bi.dTag,
      hB1.bi.fcTag⟩
    · show chainFrom 0 (st1.buf.out ++ newFileComment cfg) = some e
      rw [chainFrom_append, hch, Option.some_bind,
        chainFrom_nonCode _ (newFileComment_nonCode cfg)]
    · intro lo hi bs hmem
      have hmem' : Chunk.code lo hi bs ∈ st1.buf.out ++ newFileComment cfg := hmem
      rcases List.mem_append.mp hmem' with h2 | h2
      · exact hB1.bi.bytes lo hi bs h2
      · have := newFileComment_nonCode cfg _ h2
        simp [isCodeChunk] at this
    · intro p hp hcov
      have hp' : p < st1.buf.base := hp
      have hcov' : coveredB (st1.buf.out ++ newFileComment cfg) p = false := hcov
      rw [coveredB_append] at hcov'
      exact hB1.bi.missed p hp' (by
        rcases Bool.or_eq_false_iff.mp hcov' with ⟨h3, _⟩
        exact h3)

/-- The content invariant after an iteration that appended the
character (no flush). -/
theorem stInv_step_append (cfg : Options) (input : List Char) (st st1 : PState)
    (c : Char) (rest : List Char) (b2 : Buf) (a : Bool)
    (hm : MidA cfg input st c st1) (hA : InvA st)
    (hp : cfg.onlyPrototypes = false)
    (hrest : input.drop st.tags.length = c :: rest)
    (hB : StInv input st.tags st)
    (hb2 : b2 = st1.buf
      ∨ (st1.inComment = true ∧ st.atStart = true
          ∧ b2 = { st1.buf with fileComment := true })
      ∨ b2 = { st1.buf with out := st1.buf.out ++ newFileComment cfg }) :
    StInv input (st.tags ++ [st.inComment || st1.inComment])
      { st1 with
          atStart := a,
          buf := { b2 with data := b2.data ++ [c] },
          isChar1 := st1.isChar1 && isSpaceChar c,
          prevc := c,
          tags := st.tags ++ [st.inComment || st1.inComment] } := by
  have hB1 := hm.invB hp hB
  have hbi2 := bufInv_inj cfg input st st1 c b2 hm hB1 hb2
  have hde2 : b2.description = st1.buf.description := by
    rcases hb2 with h | ⟨_, _, h⟩ | h <;> rw [h]
  have hdl2 : b2.data = st1.buf.data := by
    rcases hb2 with h | ⟨_, _, h⟩ | h <;> rw [h]
  have hbb2 : b2.base = st1.buf.base := by
    rcases hb2 with h | ⟨_, _, h⟩ | h <;> rw [h]
  refine ⟨?_, ?_⟩
  · show BufInv input (st.tags ++ [st.inComment || st1.inComment])
      { b2 with data := b2.data ++ [c] }
    refine bufInv_push input st.tags b2 c _ rest hbi2 hrest ?_ ?_
    · intro h1 h2
      rw [hde2] at h1
      rw [hdl2, hde2] at h2
      rw [hm.dNew h1 h2]
      rfl
    · intro h1
      rcases hb2 with h | ⟨hcom, _, h⟩ | h
      · rw [h] at h1
        rw [hm.fcSrc h1]
        rfl
      · rw [hcom, Bool.or_true]
      · rw [h] at h1
        have h1' : st1.buf.fileComment = true := h1
        rw [hm.fcSrc h1']
        rfl
  · intro h1 h2 i hi hs
    have h1' : st1.inComment = true := h1
    have h2' : st1.depthCurly = 0 := h2
    have hi' : i < (b2.data ++ [c]).length := hi
    have hs' : b2.description.start ≤ (i : Int) := hs
    rw [hdl2] at hi'
    rw [hde2] at hs'
    simp only [List.length_append, List.length_cons, List.length_nil] at hi'
    show TagAt (st.tags ++ [st.inComment || st1.inComment]) (b2.base + i)
    rw [hbb2]
    by_cases hil : i < st1.buf.data.length
    · refine tagAt_append st.tags _ _ ?_ (hB1.comTag h1' h2' i hil hs')
      have := hB1.bi.tlen
      omega
    · have hieq : i = st1.buf.data.length := by omega
      subst hieq
      have hpos : st1.buf.base + st1.buf.data.length = st.tags.length :=
        hB1.bi.tlen.symm
      rw [hpos, h1', Bool.or_true]
      exact tagAt_last st.tags

/-- The content invariant after an iteration that flushed the buffer
(after appending the character). -/
theorem stInv_step_flushed (cfg : Options) (input : List Char) (st st1 : PState)
    (c : Char) (rest : List Char) (b2 : Buf) (a : Bool)
    (hm : MidA cfg input st c st1) (hA : InvA st)
    (hp : cfg.onlyPrototypes = false)
    (hrest : input.drop st.tags.length = c :: rest)
    (hB : StInv input st.tags st)
    (hb2 : b2 = st1.buf
      ∨ (st1.inComment = true ∧ st.atStart = true
          ∧ b2 = { st1.buf with fileComment := true })
      ∨ b2 = { st1.buf with out := st1.buf.out ++ newFileComment cfg }) :
    StInv input (st.tags ++ [st.inComment || st1.inComment])
      { st1 with
          atStart := a,
          buf := { flushBuffer cfg { b2 with data := b2.data ++ [c] } with
            fileComment := false },
          doFlush := false,
          isChar1 := st1.isChar1 && isSpaceChar c,
          prevc := c,
          tags := st.tags ++ [st.inComment || st1.inComment] } := by
  have hB1 := hm.invB hp hB
  have hbi2 := bufInv_inj cfg input st st1 c b2 hm hB1 hb2
  have hde2 : b2.description = st1.buf.description := by
    rcases hb2 with h | ⟨_, _, h⟩ | h <;> rw [h]
  have hdl2 : b2.data = st1.buf.data := by
    rcases hb2 with h | ⟨_, _, h⟩ | h <;> rw [h]
  have hX : BufInv input (st.tags ++ [st.inComment || st1.inComment])
      { b2 with data := b2.data ++ [c] } := by
    refine bufInv_push input st.tags b2 c _ rest hbi2 hrest ?_ ?_
    · intro h1 h2
      rw [hde2] at h1
      rw [hdl2, hde2] at h2
      rw [hm.dNew h1 h2]
      rfl
    · intro h1
      rcases hb2 with h | ⟨hcom, _, h⟩ | h
      · rw [h] at h1
        rw [hm.fcSrc h1]
        rfl
      · rw [hcom, Bool.or_true]
      · rw [h] at h1
        have h1' : st1.buf.fileComment = true := h1
        rw [hm.fcSrc h1']
        rfl
  refine ⟨?_, ?_⟩
  · show BufInv input (st.tags ++ [st.inComment || st1.inComment])
      { flushBuffer cfg { b2 with data := b2.data ++ [c] } with
        fileComment := false }
    refine bufInv_fcFalse input _ _ (flush_B cfg input _ _ hp hX ?_ ?_)
    · show b2.description.count ≤ 1
      rw [hde2]
      exact hm.dcnt
    · intro h1
      have h1' : b2.description.count = 1 := h1
      rw [hde2] at h1'
      show b2.description.start ≤ b2.description.stop
      rw [hde2]
      exact hm.dOrd h1'
  · intro _ _ i hi
    have hi' : i < ([] : List Char).length := hi
    exact absurd hi' (by simp)


/-- One full iteration of `processFile`'s loop preserves the run
invariant, and — in normal mode, on an input that fits the accumulation
capacity — the content invariant. -/
theorem step_inv (cfg : Options) (input : List Char) (st : PState) (c : Char)
    (rest : List Char) (hA : InvA st) :
    InvA (machineStep cfg st c rest.head?)
    ∧ (cfg.onlyPrototypes = false → input.length ≤ cfg.cap →
        input.drop st.tags.length = c :: rest → StInv input st.tags st →
        StInv input (machineStep cfg st c rest.head?).tags
          (machineStep cfg st c rest.head?)) := by
  have hm := sm_mid cfg input st c rest.head? hA
  set st1 := stateMachine cfg st c rest.head? with hst1
  have hcapB : input.length ≤ cfg.cap →
      input.drop st.tags.length = c :: rest →
      StInv input st.tags st1 → st1.buf.data.length < cfg.cap := by
    intro hcap hrest hB1
    have h1 := hB1.bi.tlen
    have h2 := drop_cons_length input rest c st.tags.length hrest
    omega
  by_cases hinj : (st1.atStart && !(isSpaceChar c)) = true
  · have hinj2 := hinj
    rw [Bool.and_eq_true] at hinj2
    rcases hinj2 with ⟨hat1, hns⟩
    have hcs : isSpaceChar c = false := by simpa using hns
    have hats : st.atStart = true := by rw [← hm.stAt]; exact hat1
    by_cases hcom1 : st1.inComment = true
    · have hdf1 : st1.doFlush = false := hm.atNoFlush hats hcom1
      by_cases hov : st1.buf.data.length < cfg.cap
      · have heq := machineStep_fcset cfg st st1 c rest.head? hst1.symm hat1 hcs
          hcom1 hdf1 hov
        rw [heq]
        constructor
        · exact invA_step_append cfg input st st1 c
            { st1.buf with fileComment := true } false hm hA hdf1 rfl rfl rfl
            (fun _ => hcom1) (fun _ => hm.atCom hats hcom1) (Or.inl rfl)
        · intro hp hcap hrest hB
          exact stInv_step_append cfg input st st1 c rest
            { st1.buf with fileComment := true } false hm hA hp hrest hB
            (Or.inr (Or.inl ⟨hcom1, hats, rfl⟩))
      · have heq := machineStep_fcset_ovf cfg st st1 c rest.head? hst1.symm hat1
          hcs hcom1 hov
        rw [heq]
        constructor
        · exact invA_step_flushed cfg input st st1 c
            { st1.buf with fileComment := true } false hm hA (Or.inl rfl)
        · intro hp hcap hrest hB
          exact absurd (hcapB hcap hrest (hm.invB hp hB)) hov
    · have hcom1' : st1.inComment = false := by simpa using hcom1
      by_cases hov : st1.buf.data.length < cfg.cap
      · by_cases hdf1 : st1.doFlush = true
        · have heq := machineStep_newfile_flush cfg st st1 c rest.head? hst1.symm
            hat1 hcs hcom1' hdf1 hov
          rw [heq]
          constructor
          · exact invA_step_flushed cfg input st st1 c
              { st1.buf with
                out := st1.buf.out ++ newFileComment cfg,
                data := st1.buf.data ++ [c] } false hm hA (Or.inl rfl)
          · intro hp hcap hrest hB
            exact stInv_step_flushed cfg input st st1 c rest
              { st1.buf with out := st1.buf.out ++ newFileComment cfg } false
              hm hA hp hrest hB (Or.inr (Or.inr rfl))
        · have hdf1' : st1.doFlush = false := by simpa using hdf1
          have heq := machineStep_newfile cfg st st1 c rest.head? hst1.symm hat1
            hcs hcom1' hdf1' hov
          rw [heq]
          constructor
          · exact invA_step_append cfg input st st1 c
              { st1.buf with out := st1.buf.out ++ newFileComment cfg } false
              hm hA hdf1' rfl rfl rfl
              (fun h => (hm.fcCom h).resolve_right (by simp [hdf1']))
              (fun h => hm.fcDep h) (Or.inl rfl)
          · intro hp hcap hrest hB
            exact stInv_step_append cfg input st st1 c rest
              { st1.buf with out := st1.buf.out ++ newFileComment cfg } false
              hm hA hp hrest hB (Or.inr (Or.inr rfl))
      · have heq := machineStep_newfile_ovf cfg st st1 c rest.head? hst1.symm
          hat1 hcs hcom1' hov
        rw [heq]
        constructor
        · exact invA_step_flushed cfg input st st1 c
            { st1.buf with out := st1.buf.out ++ newFileComment cfg } false
            hm hA (Or.inl rfl)
        · intro hp hcap hrest hB
          exact absurd (hcapB hcap hrest (hm.invB hp hB)) hov
  · have hinj' : (st1.atStart && !(isSpaceChar c)) = false := by simpa using hinj
    by_cases hov : st1.buf.data.length < cfg.cap
    · by_cases hdf1 : st1.doFlush = true
      · have heq := machineStep_flush cfg st st1 c rest.head? hst1.symm hinj'
          hdf1 hov
        rw [heq]
        constructor
        · exact invA_step_flushed cfg input st st1 c
            { st1.buf with data := st1.buf.data ++ [c] } st1.atStart hm hA
            (Or.inr ⟨rfl, hinj'⟩)
        · intro hp hcap hrest hB
          exact stInv_step_flushed cfg input st st1 c rest st1.buf st1.atStart
            hm hA hp hrest hB (Or.inl rfl)
      · have hdf1' : st1.doFlush = false := by simpa using hdf1
        have heq := machineStep_simple cfg st st1 c rest.head? hst1.symm hinj'
          hdf1' hov
        rw [heq]
        constructor
        · exact invA_step_append cfg input st st1 c st1.buf st1.atStart hm hA
            hdf1' rfl rfl rfl
            (fun h => (hm.fcCom h).resolve_right (by simp [hdf1']))
            (fun h => hm.fcDep h) (Or.inr ⟨rfl, hinj'⟩)
        · intro hp hcap hrest hB
          exact stInv_step_append cfg input st st1 c rest st1.buf st1.atStart
            hm hA hp hrest hB (Or.inl rfl)
    · have heq := machineStep_ovf cfg st st1 c rest.head? hst1.symm hinj' hov
      rw [heq]
      constructor
      · exact invA_step_flushed cfg input st st1 c st1.buf st1.atStart hm hA
          (Or.inr ⟨rfl, hinj'⟩)
      · intro hp hcap hrest hB
        exact absurd (hcapB hcap hrest (hm.invB hp hB)) hov


/-! ### The run-level invariants and the C1/C4 theorems -/

theorem machineStep_tags (cfg : Options) (st : PState) (c : Char) (nc : Option Char) :
    (machineStep cfg st c nc).tags
      = st.tags ++ [st.inComment || (stateMachine cfg st c nc).inComment] := rfl

theorem invA_init : InvA ({} : PState) := by
  refine ⟨rfl, ?_, ?_, ?_, ?_, ?_, rfl, ?_, ?_, ?_, ?_, ?_⟩
  · intro h
    simp at h
  · intro h
    simp at h
  · intro h
    simp at h
  · intro _
    exact ⟨rfl, rfl, rfl, rfl, rfl, rfl⟩
  · intro _
    rfl
  · exact Nat.zero_le 1
  · intro h
    exact absurd h (by decide)
  · intro h
    exact absurd h (by decide)
  · intro h _
    simp at h
  · intro h _
    simp at h

theorem stInv_init (input : List Char) : StInv input [] ({} : PState) := by
  refine ⟨⟨rfl, rfl, ⟨0, rfl, le_refl 0⟩, ?_, ?_, ?_, ?_⟩, ?_⟩
  · intro lo hi bs h
    exact absurd h (List.not_mem_nil _)
  · intro p hp _
    have hp' : p < 0 := hp
    exact absurd hp' (by omega)
  · intro h
    exact absurd h (by decide)
  · intro h
    exact absurd h (by decide)
  · intro h _
    simp at h

theorem runFrom_invA (cfg : Options) :
    ∀ (l : List Char) (n : Nat) (st : PState), InvA st → InvA (runFrom cfg st l n) := by
  intro l
  induction l with
  | nil =>
    intro n st h
    cases n <;> exact h
  | cons c rest ih =>
    intro n st h
    cases n with
    | zero => exact h
    | succ m => exact ih m _ (step_inv cfg [] st c rest h).1

theorem runFrom_tags_length (cfg : Options) :
    ∀ (l : List Char) (st : PState),
      (runFrom cfg st l l.length).tags.length = st.tags.length + l.length := by
  intro l
  induction l with
  | nil => intro st; rfl
  | cons c rest ih =>
    intro st
    have h1 := ih (machineStep cfg st c rest.head?)
    have h2 : (machineStep cfg st c rest.head?).tags.length = st.tags.length + 1 := by
      rw [machineStep_tags]
      simp
    calc (runFrom cfg (machineStep cfg st c rest.head?) rest rest.length).tags.length
        = (machineStep cfg st c rest.head?).tags.length + rest.length := h1
      _ = st.tags.length + (c :: rest).length := by
          rw [h2]
          simp only [List.length_cons]
          omega

theorem runFrom_invB (cfg : Options) (input : List Char)
    (hp : cfg.onlyPrototypes = false) (hcap : input.length ≤ cfg.cap) :
    ∀ (l : List Char) (st : PState), InvA st → StInv input st.tags st →
      input.drop st.tags.length = l →
      StInv input (runFrom cfg st l l.length).tags (runFrom cfg st l l.length)
      ∧ InvA (runFrom cfg st l l.length) := by
  intro l
  induction l with
  | nil =>
    intro st hA hB _
    exact ⟨hB, hA⟩
  | cons c rest ih =>
    intro st hA hB hrest
    have hstep := step_inv cfg input st c rest hA
    have hB2 := hstep.2 hp hcap hrest hB
    have hrest2 : input.drop (machineStep cfg st c rest.head?).tags.length = rest := by
      have hlen2 : (machineStep cfg st c rest.head?).tags.length
          = st.tags.length + 1 := by
        rw [machineStep_tags]
        simp
      rw [hlen2, ← List.drop_drop, hrest]
      rfl
    exact ih (machineStep cfg st c rest.head?) hstep.1 hB2 hrest2

set_option maxRecDepth 4000 in
/-- C4 (amended): after any number of processed characters, between loop
iterations the `body` range of the accumulation buffer has capture count
0 (its single capture is flushed within the same iteration), and the
`description` range has capture count at most 1 with `start ≤ stop`
whenever it is captured.  The original claim fails for the `function`
and `arglist` ranges, whose counts the machine increments once per
depth-zero parenthesis group (see the counterexample). -/
theorem range_capture_inv (cfg : Options) (input : List Char) (n : Nat) :
    (runUpTo cfg input n).buf.body.count = 0
    ∧ (runUpTo cfg input n).buf.description.count ≤ 1
    ∧ ((runUpTo cfg input n).buf.description.count = 1 →
        (runUpTo cfg input n).buf.description.start
          ≤ (runUpTo cfg input n).buf.description.stop) := by
  have h := runFrom_invA cfg input n {} invA_init
  exact ⟨h.bcnt, h.dcnt, h.dOrd⟩

/-- C1: in normal (non-prototype-only) mode, on any input that fits the
accumulation capacity, the output of `processFile` preserves the
original content: its verbatim code chunks carry ordered, disjoint
input ranges (so the original text appears in order), each chunk is
byte-identical to the input slice its range names, and every input
position not re-emitted inside some code chunk is comment text (the
character was consumed while the machine was in comment mode, so only
comment bytes are replaced by the inserted or rewritten comment
blocks). -/
theorem content_preservation (cfg : Options) (input : List Char)
    (hp : cfg.onlyPrototypes = false) (hcap : input.length ≤ cfg.cap) :
    (∃ e, chainFrom 0 (processFile cfg input).buf.out = some e ∧ e ≤ input.length)
    ∧ (∀ lo hi bs, Chunk.code lo hi bs ∈ (processFile cfg input).buf.out →
        bs = (input.take hi).drop lo)
    ∧ (∀ p, p < input.length →
        coveredB (processFile cfg input).buf.out p = false →
        TagAt (processFile cfg input).tags p) := by
  have hrun := runFrom_invB cfg input hp hcap input {} invA_init
    (stInv_init input) (by simp)
  have htl : (runFrom cfg {} input input.length).tags.length = input.length := by
    have h := runFrom_tags_length cfg input {}
    simpa using h
  have hBF := hrun.1
  have hAF := hrun.2
  have hsum : (runFrom cfg {} input input.length).buf.base
      + (runFrom cfg {} input input.length).buf.data.length = input.length := by
    have h := hBF.bi.tlen
    omega
  have hflush := flush_B cfg input (runFrom cfg {} input input.length).tags
    (runFrom cfg {} input input.length).buf hp hBF.bi hAF.dcnt hAF.dOrd
  refine ⟨?_, ?_, ?_⟩
  · obtain ⟨e, hch, he⟩ := hflush.chain
    refine ⟨e, hch, ?_⟩
    rw [flushBuffer_base] at he
    omega
  · intro lo hi bs hmem
    exact hflush.bytes lo hi bs hmem
  · intro p hpl hcov
    refine hflush.missed p ?_ hcov
    show p < (flushBuffer cfg (runFrom cfg {} input input.length).buf).base
    rw [flushBuffer_base]
    omega

/-- Witness for the C1 theorem at a concrete input. -/
theorem content_preservation_witness :
    (({} : Options).onlyPrototypes = false
      ∧ (("int f(int x)\n\x7b\n\treturn (x);\n\x7d\n").toList.length
          ≤ ({} : Options).cap))
    ∧ ((∃ e, chainFrom 0
          (processFile {} (("int f(int x)\n\x7b\n\treturn (x);\n\x7d\n").toList)).buf.out
            = some e
          ∧ e ≤ (("int f(int x)\n\x7b\n\treturn (x);\n\x7d\n").toList).length)
      ∧ (∀ lo hi bs, Chunk.code lo hi bs ∈
            (processFile {} (("int f(int x)\n\x7b\n\treturn (x);\n\x7d\n").toList)).buf.out →
          bs = ((("int f(int x)\n\x7b\n\treturn (x);\n\x7d\n").toList).take hi).drop lo)
      ∧ (∀ p, p < (("int f(int x)\n\x7b\n\treturn (x);\n\x7d\n").toList).length →
          coveredB (processFile {} (("int f(int x)\n\x7b\n\treturn (x);\n\x7d\n").toList)).buf.out p
            = false →
          TagAt (processFile {} (("int f(int x)\n\x7b\n\treturn (x);\n\x7d\n").toList)).tags p)) :=
  ⟨⟨rfl, by decide⟩,
   content_preservation {} (("int f(int x)\n\x7b\n\treturn (x);\n\x7d\n").toList) rfl
     (by decide)⟩

end Insertdox
